import Mathlib

/-!
Shallow embedding of the go-json package (a JSON value model, recursive-descent
parser, streaming builder and string encoder), translated from the Go sources:
`object.go` (ObjectStruct), `array.go` (ArrayStruct), `parse.go` (ParseObject,
ParseArray and helpers), `build.go` (ObjectBuilderStruct, ArrayBuilderStruct)
and `encode_string.go` (encodeString and the escaping behaviors).

Modelling conventions:
- Go strings are modelled as `List Char` (runes). Reading a rune from a
  `strings.Reader` pops the head; `UnreadRune` after a read is modelled by
  returning the unconsumed list. A `strings.Reader` over a valid Lean string
  never yields an encoding error, but it does yield U+FFFD for a literal
  replacement character, exactly as Go's reader does, so the code's
  `unicode.ReplacementChar` checks are kept wherever the Go code has them.
- Go maps are modelled as association lists with `mapLookup` / `mapInsert` /
  `mapDelete`; a nil map and an empty map are indistinguishable through these
  operations, matching the lazily-initialised maps of `object.go`.
- Go panics (the array setters' out-of-bounds precondition faults) are
  modelled by an `Option` result: `none` is the panic.
- The recursive parser carries a `Nat` fuel (the Go loops terminate because
  every iteration consumes input; the entry points pass `length + 1`, which
  always suffices since every fuel decrement consumes at least one character).
-/

namespace GoJson

/-- `unicode.ReplacementChar` (U+FFFD), the invalid-encoding sentinel. -/
def replacementChar : Char := Char.ofNat 0xFFFD

/-- `isDigitCharacter` from parse.go: ASCII '0'..'9'. -/
def isDigitCharacter (c : Char) : Bool := '0' ≤ c && c ≤ '9'

/-- `isIdentifierCharacter` from parse.go: ASCII letters only. -/
def isIdentifierCharacter (c : Char) : Bool :=
  ('A' ≤ c && c ≤ 'Z') || ('a' ≤ c && c ≤ 'z')

/-- The four JSON whitespace characters recognised by `skipWhitespace` and
`parseEnd` (tab, newline, space, carriage return). -/
def isWhitespaceCharacter (c : Char) : Bool :=
  c = '\t' || c = '\n' || c = ' ' || c = '\r'

/-- The character 0x7B (opening curly bracket). -/
def leftBraceChar : Char := Char.ofNat 0x7B

/-- The character 0x7D (closing curly bracket). -/
def rightBraceChar : Char := Char.ofNat 0x7D

/-- Association-list model of a Go map read: first binding for the key wins. -/
def mapLookup [DecidableEq κ] : List (κ × α) → κ → Option α
  | [], _ => none
  | (k1, v) :: rest, k => if k1 = k then some v else mapLookup rest k

/-- Association-list model of a Go map write `m[k] = v`. -/
def mapInsert [DecidableEq κ] : List (κ × α) → κ → α → List (κ × α)
  | [], k, v => [(k, v)]
  | (k1, v1) :: rest, k, v =>
    if k1 = k then (k, v) :: rest else (k1, v1) :: mapInsert rest k v

/-- Association-list model of Go's `delete(m, k)`. -/
def mapDelete [DecidableEq κ] : List (κ × α) → κ → List (κ × α)
  | [], _ => []
  | (k1, v1) :: rest, k =>
    if k1 = k then mapDelete rest k else (k1, v1) :: mapDelete rest k

mutual
/-- Go struct `ObjectStruct` (object.go): one map per JSON value kind, plus the
insertion-ordered key list. Fields in source order: strings, numbers, bools,
nulls, objects, arrays, keys. -/
inductive ObjectStruct : Type where
| mk :
    (strings : List (List Char × List Char)) →
    (numbers : List (List Char × List Char)) →
    (bools : List (List Char × Bool)) →
    (nulls : List (List Char × Unit)) →
    (objects : List (List Char × ObjectStruct)) →
    (arrays : List (List Char × ArrayStruct)) →
    (keys : List (List Char)) → ObjectStruct

/-- Go struct `ArrayStruct` (array.go): one map per JSON value kind keyed by
`int` index, plus the length. Fields in source order: strings, numbers, bools,
nulls, objects, arrays, length. -/
inductive ArrayStruct : Type where
| mk :
    (strings : List (Int × List Char)) →
    (numbers : List (Int × List Char)) →
    (bools : List (Int × Bool)) →
    (nulls : List (Int × Unit)) →
    (objects : List (Int × ObjectStruct)) →
    (arrays : List (Int × ArrayStruct)) →
    (length : Int) → ArrayStruct
end

def ObjectStruct.strings : ObjectStruct → List (List Char × List Char)
  | .mk s _ _ _ _ _ _ => s

def ObjectStruct.numbers : ObjectStruct → List (List Char × List Char)
  | .mk _ n _ _ _ _ _ => n

def ObjectStruct.bools : ObjectStruct → List (List Char × Bool)
  | .mk _ _ b _ _ _ _ => b

def ObjectStruct.nulls : ObjectStruct → List (List Char × Unit)
  | .mk _ _ _ u _ _ _ => u

def ObjectStruct.objects : ObjectStruct → List (List Char × ObjectStruct)
  | .mk _ _ _ _ o _ _ => o

def ObjectStruct.arrays : ObjectStruct → List (List Char × ArrayStruct)
  | .mk _ _ _ _ _ a _ => a

def ObjectStruct.keys : ObjectStruct → List (List Char)
  | .mk _ _ _ _ _ _ k => k

def ArrayStruct.strings : ArrayStruct → List (Int × List Char)
  | .mk s _ _ _ _ _ _ => s

def ArrayStruct.numbers : ArrayStruct → List (Int × List Char)
  | .mk _ n _ _ _ _ _ => n

def ArrayStruct.bools : ArrayStruct → List (Int × Bool)
  | .mk _ _ b _ _ _ _ => b

def ArrayStruct.nulls : ArrayStruct → List (Int × Unit)
  | .mk _ _ _ u _ _ _ => u

def ArrayStruct.objects : ArrayStruct → List (Int × ObjectStruct)
  | .mk _ _ _ _ o _ _ => o

def ArrayStruct.arrays : ArrayStruct → List (Int × ArrayStruct)
  | .mk _ _ _ _ _ a _ => a

def ArrayStruct.length : ArrayStruct → Int
  | .mk _ _ _ _ _ _ l => l

/-- The zero `ObjectStruct` ("The zero value is a ready-to-use empty object"). -/
def emptyObject : ObjectStruct := .mk [] [] [] [] [] [] []

/-- `NewArray` from array.go (also the parser's zero-value starting array). -/
def NewArray : ArrayStruct := .mk [] [] [] [] [] [] 0

/-- `ObjectStruct.Has`: true iff any of the six kind maps binds the key
(checked in source order strings, numbers, bools, nulls, objects, arrays). -/
def ObjectStruct.Has (o : ObjectStruct) (key : List Char) : Bool :=
  (mapLookup o.strings key).isSome || (mapLookup o.numbers key).isSome ||
  (mapLookup o.bools key).isSome || (mapLookup o.nulls key).isSome ||
  (mapLookup o.objects key).isSome || (mapLookup o.arrays key).isSome

/-- `ObjectStruct.addKey`: clears the key from whichever kind map holds it
(checked in source order strings, numbers, nulls, bools, objects, arrays);
a key held by no map is appended to the insertion-order list. -/
def ObjectStruct.addKey (o : ObjectStruct) (key : List Char) : ObjectStruct :=
  match o with
  | .mk ss ns bs us os ars ks =>
    if (mapLookup ss key).isSome then .mk (mapDelete ss key) ns bs us os ars ks
    else if (mapLookup ns key).isSome then .mk ss (mapDelete ns key) bs us os ars ks
    else if (mapLookup us key).isSome then .mk ss ns bs (mapDelete us key) os ars ks
    else if (mapLookup bs key).isSome then .mk ss ns (mapDelete bs key) us os ars ks
    else if (mapLookup os key).isSome then .mk ss ns bs us (mapDelete os key) ars ks
    else if (mapLookup ars key).isSome then .mk ss ns bs us os (mapDelete ars key) ks
    else .mk ss ns bs us os ars (ks ++ [key])

/-- `ObjectStruct.SetString`. -/
def ObjectStruct.SetString (o : ObjectStruct) (key value : List Char) : ObjectStruct :=
  match o.addKey key with
  | .mk ss ns bs us os ars ks => .mk (mapInsert ss key value) ns bs us os ars ks

/-- `ObjectStruct.SetNumber`. -/
def ObjectStruct.SetNumber (o : ObjectStruct) (key value : List Char) : ObjectStruct :=
  match o.addKey key with
  | .mk ss ns bs us os ars ks => .mk ss (mapInsert ns key value) bs us os ars ks

/-- `ObjectStruct.SetBool`. -/
def ObjectStruct.SetBool (o : ObjectStruct) (key : List Char) (value : Bool) : ObjectStruct :=
  match o.addKey key with
  | .mk ss ns bs us os ars ks => .mk ss ns (mapInsert bs key value) us os ars ks

/-- `ObjectStruct.SetNull`. -/
def ObjectStruct.SetNull (o : ObjectStruct) (key : List Char) : ObjectStruct :=
  match o.addKey key with
  | .mk ss ns bs us os ars ks => .mk ss ns bs (mapInsert us key ()) os ars ks

/-- `ObjectStruct.SetJSONObject`. -/
def ObjectStruct.SetJSONObject (o : ObjectStruct) (key : List Char) (value : ObjectStruct) :
    ObjectStruct :=
  match o.addKey key with
  | .mk ss ns bs us os ars ks => .mk ss ns bs us (mapInsert os key value) ars ks

/-- `ObjectStruct.SetJSONArray`. -/
def ObjectStruct.SetJSONArray (o : ObjectStruct) (key : List Char) (value : ArrayStruct) :
    ObjectStruct :=
  match o.addKey key with
  | .mk ss ns bs us os ars ks => .mk ss ns bs us os (mapInsert ars key value) ks

/-- `ObjectStruct.GetString`. -/
def ObjectStruct.GetString (o : ObjectStruct) (key : List Char) : Except String (List Char) :=
  match mapLookup o.strings key with
  | none => .error "no matching member"
  | some v => .ok v

/-- `ObjectStruct.GetNumber`. -/
def ObjectStruct.GetNumber (o : ObjectStruct) (key : List Char) : Except String (List Char) :=
  match mapLookup o.numbers key with
  | none => .error "no matching member"
  | some v => .ok v

/-- `ObjectStruct.GetBool`. -/
def ObjectStruct.GetBool (o : ObjectStruct) (key : List Char) : Except String Bool :=
  match mapLookup o.bools key with
  | none => .error "no matching member"
  | some v => .ok v

/-- `ObjectStruct.IsNull`. -/
def ObjectStruct.IsNull (o : ObjectStruct) (key : List Char) : Except String Bool :=
  match mapLookup o.nulls key with
  | none => .error "no matching member"
  | some _ => .ok true

/-- Model of Go `strconv.ParseUint(s, 10, 32)`: no sign accepted, decimal
digits only, must fit in 32 unsigned bits (on overflow Go reports a range
error, so the caller sees a non-nil error). -/
def strconvParseUint32 (s : List Char) : Except String Nat :=
  if s = [] then .error "invalid syntax"
  else if !s.all isDigitCharacter then .error "invalid syntax"
  else
    let v := s.foldl (fun acc c => acc * 10 + (c.toNat - '0'.toNat)) 0
    if v ≤ 0xFFFFFFFF then .ok v else .error "value out of range"

/-- Model of Go `strconv.ParseInt(s, 10, bitSize)` for a result range
`[-2^(bits-1), 2^(bits-1))`: optional sign, decimal digits, range checked. -/
def strconvParseInt (bits : Nat) (s : List Char) : Except String Int :=
  let signAndDigits : Int × List Char :=
    match s with
    | '-' :: rest => (-1, rest)
    | '+' :: rest => (1, rest)
    | _ => (1, s)
  match signAndDigits with
  | (sign, digits) =>
    if digits = [] then .error "invalid syntax"
    else if !digits.all isDigitCharacter then .error "invalid syntax"
    else
      let v : Int := sign * (digits.foldl (fun acc c => acc * 10 + (c.toNat - '0'.toNat)) 0 : Nat)
      if -(2 ^ (bits - 1) : Int) ≤ v ∧ v < 2 ^ (bits - 1) then .ok v
      else .error "value out of range"

/-- Go's conversion `int32(u)` of a `uint64` value below 2^32: two's-complement
truncation to 32 bits. -/
def int32OfUint32 (n : Nat) : Int :=
  if n < 2 ^ 31 then (n : Int) else (n : Int) - 2 ^ 32

/-- `ObjectStruct.GetInt32` from object.go: looks the key up in the numbers
map, then parses the text with `strconv.ParseUint(value, 10, 32)` and returns
`int32(parsed)`; every failure (missing member or parse failure) is reported
as the error "no matching member". -/
def ObjectStruct.GetInt32 (o : ObjectStruct) (key : List Char) : Except String Int :=
  match mapLookup o.numbers key with
  | none => .error "no matching member"
  | some value =>
    match strconvParseUint32 value with
    | .error _ => .error "no matching member"
    | .ok parsed => .ok (int32OfUint32 parsed)

/-- `ArrayStruct.Length`. -/
def ArrayStruct.Length (a : ArrayStruct) : Int := a.length

/-- `ArrayStruct.removeElement`: deletes the index from all six kind maps. -/
def ArrayStruct.removeElement (a : ArrayStruct) (index : Int) : ArrayStruct :=
  match a with
  | .mk ss ns bs us os ars len =>
    .mk (mapDelete ss index) (mapDelete ns index) (mapDelete bs index)
      (mapDelete us index) (mapDelete os index) (mapDelete ars index) len

/-- `ArrayStruct.SetString`: panics (`none`) when `index >= length`, else
clears the slot and stores the string. -/
def ArrayStruct.SetString (a : ArrayStruct) (index : Int) (value : List Char) :
    Option ArrayStruct :=
  if index ≥ a.length then none
  else some (match a.removeElement index with
    | .mk ss ns bs us os ars len => .mk (mapInsert ss index value) ns bs us os ars len)

/-- `ArrayStruct.SetNumber`. -/
def ArrayStruct.SetNumber (a : ArrayStruct) (index : Int) (value : List Char) :
    Option ArrayStruct :=
  if index ≥ a.length then none
  else some (match a.removeElement index with
    | .mk ss ns bs us os ars len => .mk ss (mapInsert ns index value) bs us os ars len)

/-- `ArrayStruct.SetBool`. -/
def ArrayStruct.SetBool (a : ArrayStruct) (index : Int) (value : Bool) :
    Option ArrayStruct :=
  if index ≥ a.length then none
  else some (match a.removeElement index with
    | .mk ss ns bs us os ars len => .mk ss ns (mapInsert bs index value) us os ars len)

/-- `ArrayStruct.SetNull`. -/
def ArrayStruct.SetNull (a : ArrayStruct) (index : Int) : Option ArrayStruct :=
  if index ≥ a.length then none
  else some (match a.removeElement index with
    | .mk ss ns bs us os ars len => .mk ss ns bs (mapInsert us index ()) os ars len)

/-- `ArrayStruct.SetJSONObject`. -/
def ArrayStruct.SetJSONObject (a : ArrayStruct) (index : Int) (value : ObjectStruct) :
    Option ArrayStruct :=
  if index ≥ a.length then none
  else some (match a.removeElement index with
    | .mk ss ns bs us os ars len => .mk ss ns bs us (mapInsert os index value) ars len)

/-- `ArrayStruct.SetJSONArray`. -/
def ArrayStruct.SetJSONArray (a : ArrayStruct) (index : Int) (value : ArrayStruct) :
    Option ArrayStruct :=
  if index ≥ a.length then none
  else some (match a.removeElement index with
    | .mk ss ns bs us os ars len => .mk ss ns bs us os (mapInsert ars index value) len)

/-- `ArrayStruct.AddString`: stores at index `length`, then increments length. -/
def ArrayStruct.AddString (a : ArrayStruct) (value : List Char) : ArrayStruct :=
  match a with
  | .mk ss ns bs us os ars len => .mk (mapInsert ss len value) ns bs us os ars (len + 1)

/-- `ArrayStruct.AddNumber`. -/
def ArrayStruct.AddNumber (a : ArrayStruct) (value : List Char) : ArrayStruct :=
  match a with
  | .mk ss ns bs us os ars len => .mk ss (mapInsert ns len value) bs us os ars (len + 1)

/-- `ArrayStruct.AddBool`. -/
def ArrayStruct.AddBool (a : ArrayStruct) (value : Bool) : ArrayStruct :=
  match a with
  | .mk ss ns bs us os ars len => .mk ss ns (mapInsert bs len value) us os ars (len + 1)

/-- `ArrayStruct.AddNull`. -/
def ArrayStruct.AddNull (a : ArrayStruct) : ArrayStruct :=
  match a with
  | .mk ss ns bs us os ars len => .mk ss ns bs (mapInsert us len ()) os ars (len + 1)

/-- `ArrayStruct.AddJSONObject`. -/
def ArrayStruct.AddJSONObject (a : ArrayStruct) (value : ObjectStruct) : ArrayStruct :=
  match a with
  | .mk ss ns bs us os ars len => .mk ss ns bs us (mapInsert os len value) ars (len + 1)

/-- `ArrayStruct.AddJSONArray`. -/
def ArrayStruct.AddJSONArray (a : ArrayStruct) (value : ArrayStruct) : ArrayStruct :=
  match a with
  | .mk ss ns bs us os ars len => .mk ss ns bs us os (mapInsert ars len value) (len + 1)

/-- `ArrayStruct.GetString`. -/
def ArrayStruct.GetString (a : ArrayStruct) (index : Int) : Except String (List Char) :=
  match mapLookup a.strings index with
  | none => .error "no matching member"
  | some v => .ok v

/-- `ArrayStruct.GetNumber`. -/
def ArrayStruct.GetNumber (a : ArrayStruct) (index : Int) : Except String (List Char) :=
  match mapLookup a.numbers index with
  | none => .error "no matching member"
  | some v => .ok v

/-- `ArrayStruct.GetInt32` from array.go: fetches the number text and parses
it with `strconv.ParseInt(value, 10, 32)`, wrapping failures in distinct
messages. -/
def ArrayStruct.GetInt32 (a : ArrayStruct) (index : Int) : Except String Int :=
  match a.GetNumber index with
  | .error e => .error ("failed to get number: " ++ e)
  | .ok value =>
    match strconvParseInt 32 value with
    | .error e => .error ("failed to parse int32: " ++ e)
    | .ok parsed => .ok parsed

end GoJson

namespace GoJson

/-- `skipWhitespace` from parse.go: consumes the four JSON whitespace
characters; EOF is fine; a replacement character is an encoding error;
the first non-whitespace rune is unread (left at the head). -/
def skipWhitespace : List Char → Except String (List Char)
  | [] => .ok []
  | c :: rest =>
    if c = replacementChar then .error "invalid encoding"
    else if isWhitespaceCharacter c then skipWhitespace rest
    else .ok (c :: rest)

/-- `parseEnd` from parse.go: accepts only trailing whitespace up to EOF. -/
def parseEnd : List Char → Except String Unit
  | [] => .ok ()
  | c :: rest =>
    if c = replacementChar then .error "invalid encoding"
    else if isWhitespaceCharacter c then parseEnd rest
    else .error "unexpected character"

/-- The hex-digit decoding inside `parseString`'s `\u` handler (Go checks the
ranges 0-9, A-F, a-f in that order). -/
def hexDigitValue (c : Char) : Option Nat :=
  if '0' ≤ c && c ≤ '9' then some (c.toNat - '0'.toNat)
  else if 'A' ≤ c && c ≤ 'F' then some (c.toNat - 'A'.toNat + 10)
  else if 'a' ≤ c && c ≤ 'f' then some (c.toNat - 'a'.toNat + 10)
  else none

/-- The four-iteration hex loop of `parseString`'s `\u` handler: reads four
runes (EOF is a read error) and folds them into a 16-bit value; a non-hex
rune is "invalid hex encoding". -/
def readHex4 (l : List Char) : Except String (Nat × List Char) :=
  match l with
  | [] => .error "failed to read rune"
  | c1 :: l1 =>
    match hexDigitValue c1 with
    | none => .error "invalid hex encoding"
    | some v1 =>
      match l1 with
      | [] => .error "failed to read rune"
      | c2 :: l2 =>
        match hexDigitValue c2 with
        | none => .error "invalid hex encoding"
        | some v2 =>
          match l2 with
          | [] => .error "failed to read rune"
          | c3 :: l3 =>
            match hexDigitValue c3 with
            | none => .error "invalid hex encoding"
            | some v3 =>
              match l3 with
              | [] => .error "failed to read rune"
              | c4 :: l4 =>
                match hexDigitValue c4 with
                | none => .error "invalid hex encoding"
                | some v4 => .ok (((v1 * 16 + v2) * 16 + v3) * 16 + v4, l4)

/-- `readHex4` consumes exactly four characters when it succeeds. -/
theorem readHex4_length {l r : List Char} {v : Nat} (h : readHex4 l = .ok (v, r)) :
    r.length + 4 = l.length := by
  match l with
  | [] => simp [readHex4] at h
  | c1 :: l1 =>
    simp only [readHex4] at h
    match h1 : hexDigitValue c1 with
    | none => rw [h1] at h; simp at h
    | some v1 =>
      rw [h1] at h
      match l1 with
      | [] => simp at h
      | c2 :: l2 =>
        simp only at h
        match h2 : hexDigitValue c2 with
        | none => rw [h2] at h; simp at h
        | some v2 =>
          rw [h2] at h
          match l2 with
          | [] => simp at h
          | c3 :: l3 =>
            simp only at h
            match h3 : hexDigitValue c3 with
            | none => rw [h3] at h; simp at h
            | some v3 =>
              rw [h3] at h
              match l3 with
              | [] => simp at h
              | c4 :: l4 =>
                simp only at h
                match h4 : hexDigitValue c4 with
                | none => rw [h4] at h; simp at h
                | some v4 =>
                  rw [h4] at h
                  simp only [Except.ok.injEq, Prod.mk.injEq] at h
                  rw [← h.2]
                  simp

/-- `utf16.IsSurrogate`: code points in the surrogate range, high or low. -/
def utf16IsSurrogate (v : Nat) : Bool := 0xD800 ≤ v && v < 0xE000

/-- `utf16.DecodeRune`: combines a surrogate pair, or yields U+FFFD when the
pair is not a valid high surrogate followed by a low surrogate. -/
def utf16DecodeRune (hi lo : Nat) : Nat :=
  if 0xD800 ≤ hi && hi < 0xDC00 && 0xDC00 ≤ lo && lo < 0xE000 then
    (hi - 0xD800) * 0x400 + (lo - 0xDC00) + 0x10000
  else 0xFFFD

/-- The shorthand escapes accepted by `parseString` after a backslash. -/
def escapeShorthandChar (c : Char) : Option Char :=
  if c = '"' then some '"'
  else if c = '\\' then some '\\'
  else if c = '/' then some '/'
  else if c = 'b' then some (Char.ofNat 8)
  else if c = 'f' then some (Char.ofNat 12)
  else if c = 'n' then some '\n'
  else if c = 'r' then some '\r'
  else if c = 't' then some '\t'
  else none

/-- The read loop of `parseString`: `prevHex` is the pending high-surrogate
value (0 when none). Stops at an unescaped quote (rejecting it while a
surrogate is pending), decodes shorthand and `\uXXXX` escapes (combining
surrogate pairs via `utf16DecodeRune`), rejects a pending surrogate followed
by anything other than a `\u` escape, and rejects raw characters below 0x20
or above 0x10FFFF. Raw characters are not checked against U+FFFD here,
mirroring the Go loop, which has no replacement-character check after reads
inside the loop. -/
def parseStringLoop : Nat → List Char → Except String (List Char × List Char)
  | _, [] => .error "failed to read rune"
  | prevHex, c :: rest =>
    if c = '"' then
      if prevHex > 0 then .error "unexpected character" else .ok ([], rest)
    else if c = '\\' then
      match rest with
      | [] => .error "failed to read rune"
      | e :: rest1 =>
        if e = 'u' then
          match rest1 with
          | c1 :: c2 :: c3 :: c4 :: rest2 =>
            -- When four runes are available the hex loop leaves exactly rest2,
            -- so the recursion is structural; readHex4 supplies the decoding
            -- and the error cases.
            (match readHex4 (c1 :: c2 :: c3 :: c4 :: rest2) with
            | .error msg => .error msg
            | .ok (decoded, _) =>
              if prevHex > 0 then
                if utf16DecodeRune prevHex decoded = 0xFFFD then
                  .error "invalid character encoding"
                else
                  match parseStringLoop 0 rest2 with
                  | .ok (s, r) => .ok (Char.ofNat (utf16DecodeRune prevHex decoded) :: s, r)
                  | .error msg => .error msg
              else if utf16IsSurrogate decoded then parseStringLoop decoded rest2
              else
                match parseStringLoop 0 rest2 with
                | .ok (s, r) => .ok (Char.ofNat decoded :: s, r)
                | .error msg => .error msg)
          | short =>
            -- Fewer than four runes remain: the hex loop cannot succeed; it
            -- reports the first non-hex rune or the EOF, as readHex4 does.
            match readHex4 short with
            | .error msg => .error msg
            | .ok _ => .error "failed to read rune"
        else if prevHex > 0 then .error "expected hex encoding"
        else
          match escapeShorthandChar e with
          | some decodedChar =>
            match parseStringLoop 0 rest1 with
            | .ok (s, r) => .ok (decodedChar :: s, r)
            | .error msg => .error msg
          | none => .error "unexpected escape character"
    else if prevHex > 0 then .error "expected hex encoding"
    else if c.toNat < 0x20 || c.toNat > 0x10FFFF then .error "invalid character"
    else
      match parseStringLoop 0 rest with
      | .ok (s, r) => .ok (c :: s, r)
      | .error msg => .error msg

/-- `parseString` from parse.go: an opening quote (with a replacement-character
check on it), then the read loop. -/
def parseString (l : List Char) : Except String (List Char × List Char) :=
  match l with
  | [] => .error "failed to read rune"
  | c :: rest =>
    if c = replacementChar then .error "invalid encoding"
    else if c ≠ '"' then .error "unexpected character"
    else parseStringLoop 0 rest

/-- The integer-part digit loop of `extractNumber` (runs after a first digit
1..9): EOF inside this loop is a read error; the first non-digit is unread. -/
def intDigitsLoop : List Char → Except String (List Char × List Char)
  | [] => .error "failed to read rune"
  | c :: rest =>
    if c = replacementChar then .error "invalid character encoding"
    else if isDigitCharacter c then
      match intDigitsLoop rest with
      | .ok (ds, r) => .ok (c :: ds, r)
      | .error msg => .error msg
    else .ok ([], c :: rest)

/-- The fraction digit loop of `extractNumber` (runs after a '.'): EOF inside
this loop is a read error; the first non-digit is unread. The Go loop does not
require a digit to follow the '.' before stopping. -/
def fracDigitsLoop : List Char → Except String (List Char × List Char)
  | [] => .error "failed to read rune"
  | c :: rest =>
    if c = replacementChar then .error "invalid encoding"
    else if isDigitCharacter c then
      match fracDigitsLoop rest with
      | .ok (ds, r) => .ok (c :: ds, r)
      | .error msg => .error msg
    else .ok ([], c :: rest)

/-- The exponent digit loop of `extractNumber` (runs after a first exponent
digit): EOF here ends the number; the first non-digit is unread. -/
def expDigitsLoop : List Char → Except String (List Char × List Char)
  | [] => .ok ([], [])
  | c :: rest =>
    if c = replacementChar then .error "invalid encoding"
    else if isDigitCharacter c then
      match expDigitsLoop rest with
      | .ok (ds, r) => .ok (c :: ds, r)
      | .error msg => .error msg
    else .ok ([], c :: rest)

/-- The exponent stage of `extractNumber`: EOF ends the number; on 'e'/'E' an
optional sign and then at least one digit are required. -/
def numberExpPart (acc : List Char) (l : List Char) : Except String (List Char × List Char) :=
  match l with
  | [] => .ok (acc, [])
  | c :: rest =>
    if c = replacementChar then .error "invalid encoding"
    else if c = 'E' || c = 'e' then
      match rest with
      | [] => .error "failed to read rune"
      | s :: rest1 =>
        if s = replacementChar then .error "invalid encoding"
        else
          match (if s = '-' || s = '+' then (([s] : List Char), rest1) else ([], s :: rest1)) with
          | (sgn, l1) =>
            match l1 with
            | [] => .error "failed to read rune"
            | d :: rest2 =>
              if d = replacementChar then .error "invalid encoding"
              else if !isDigitCharacter d then .error "unexpected character"
              else
                match expDigitsLoop rest2 with
                | .ok (ds, r) => .ok (acc ++ c :: (sgn ++ d :: ds), r)
                | .error msg => .error msg
    else .ok (acc, c :: rest)

/-- The fraction stage of `extractNumber`: EOF ends the number; on '.' the
digit loop runs (zero digits are accepted by the Go loop), then the exponent
stage; otherwise the rune is unread and the exponent stage runs. -/
def numberFracPart (acc : List Char) (l : List Char) : Except String (List Char × List Char) :=
  match l with
  | [] => .ok (acc, [])
  | c :: rest =>
    if c = replacementChar then .error "invalid encoding"
    else if c = '.' then
      match fracDigitsLoop rest with
      | .ok (ds, r) => numberExpPart (acc ++ '.' :: ds) r
      | .error msg => .error msg
    else numberExpPart acc (c :: rest)

/-- `extractNumber` from parse.go: optional leading '-', then either '0' or a
1..9 digit followed by the digit loop, then the fraction and exponent stages.
The extracted characters are returned verbatim. -/
def extractNumber (l : List Char) : Except String (List Char × List Char) :=
  match l with
  | [] => .error "failed to read rune"
  | c :: rest =>
    if c = replacementChar then .error "invalid encoding"
    else
      match (if c = '-' then (([c] : List Char), rest) else ([], c :: rest)) with
      | (sgn, l1) =>
        match l1 with
        | [] => .error "failed to read rune"
        | d :: rest1 =>
          if d = replacementChar then .error "invalid encoding"
          else if d = '0' then numberFracPart (sgn ++ ['0']) rest1
          else if '1' ≤ d && d ≤ '9' then
            match intDigitsLoop rest1 with
            | .ok (ds, r) => numberFracPart (sgn ++ d :: ds) r
            | .error msg => .error msg
          else .error "unexpected character"

/-- The read loop of `extractIdentifier`: EOF ends the identifier; the first
non-letter is unread. -/
def identifierLoop : List Char → Except String (List Char × List Char)
  | [] => .ok ([], [])
  | c :: rest =>
    if c = replacementChar then .error "invalid encoding"
    else if isIdentifierCharacter c then
      match identifierLoop rest with
      | .ok (s, r) => .ok (c :: s, r)
      | .error msg => .error msg
    else .ok ([], c :: rest)

/-- `extractIdentifier` from parse.go: one or more ASCII letters. -/
def extractIdentifier (l : List Char) : Except String (List Char × List Char) :=
  match l with
  | [] => .error "failed to read rune"
  | c :: rest =>
    if c = replacementChar then .error "invalid encoding"
    else if isIdentifierCharacter c then
      match identifierLoop rest with
      | .ok (s, r) => .ok (c :: s, r)
      | .error msg => .error msg
    else .error "unexpected character"

/-- The characters of the literal `true`. -/
def trueChars : List Char := ['t', 'r', 'u', 'e']

/-- The characters of the literal `false`. -/
def falseChars : List Char := ['f', 'a', 'l', 's', 'e']

/-- The characters of the literal `null`. -/
def nullChars : List Char := ['n', 'u', 'l', 'l']

mutual
/-- `parseEmbeddedObject` from parse.go: leading whitespace, a left brace,
then the member loop starting from the zero-value object. The `fuel` argument
makes the Go loops structurally recursive; every decrement consumes at least
one input character, so `length + 1` fuel (what the entry points pass) never
runs out before the Go code would return. -/
def parseEmbeddedObject (fuel : Nat) (l : List Char) : Except String (ObjectStruct × List Char) :=
  match fuel with
  | 0 => .error "out of fuel"
  | fuel + 1 =>
    match skipWhitespace l with
    | .error msg => .error msg
    | .ok l1 =>
      match l1 with
      | [] => .error "failed to read rune"
      | c :: rest =>
        if c = replacementChar then .error "invalid encoding"
        else if c ≠ leftBraceChar then .error "unexpected character"
        else parseObjectMembers fuel emptyObject rest

/-- The member loop of `parseEmbeddedObject`: whitespace, then either the
closing brace or a member (name string, duplicate check against the object
built so far, ':', value dispatched on the peeked rune, then ',' or the
closing brace). Go checks the stale colon variable (not the peeked rune)
against `unicode.ReplacementChar` before the value dispatch, so no effective
check happens there and none is modelled. -/
def parseObjectMembers (fuel : Nat) (object : ObjectStruct) (l : List Char) :
    Except String (ObjectStruct × List Char) :=
  match fuel with
  | 0 => .error "out of fuel"
  | fuel + 1 =>
    match skipWhitespace l with
    | .error msg => .error msg
    | .ok l1 =>
      match l1 with
      | [] => .error "failed to read rune"
      | c :: rest =>
        if c = replacementChar then .error "invalid encoding"
        else if c = rightBraceChar then .ok (object, rest)
        else
          match parseString (c :: rest) with
          | .error msg => .error ("failed to parse member name: " ++ msg)
          | .ok (key, l2) =>
            if object.Has key then .error "duplicate member name"
            else
              match skipWhitespace l2 with
              | .error msg => .error msg
              | .ok l3 =>
                match l3 with
                | [] => .error "failed to read rune"
                | c2 :: rest2 =>
                  if c2 = replacementChar then .error "invalid encoding"
                  else if c2 ≠ ':' then .error "unexpected character"
                  else
                    match skipWhitespace rest2 with
                    | .error msg => .error msg
                    | .ok l4 =>
                      match l4 with
                      | [] => .error "failed to read rune"
                      | nc :: _ =>
                        match
                          (if nc = leftBraceChar then
                            match parseEmbeddedObject fuel l4 with
                            | .ok (v, r) => .ok (object.SetJSONObject key v, r)
                            | .error msg => .error ("failed to parse object: " ++ msg)
                          else if nc = '[' then
                            match parseEmbeddedArray fuel l4 with
                            | .ok (v, r) => .ok (object.SetJSONArray key v, r)
                            | .error msg => .error ("failed to parse array: " ++ msg)
                          else if nc = '"' then
                            match parseString l4 with
                            | .ok (v, r) => .ok (object.SetString key v, r)
                            | .error msg => .error ("failed to parse string: " ++ msg)
                          else if isDigitCharacter nc then
                            match extractNumber l4 with
                            | .ok (v, r) => .ok (object.SetNumber key v, r)
                            | .error msg => .error ("failed to extract number: " ++ msg)
                          else
                            match extractIdentifier l4 with
                            | .error msg => .error ("failed to extract identifier: " ++ msg)
                            | .ok (ident, r) =>
                              if ident = trueChars then .ok (object.SetBool key true, r)
                              else if ident = falseChars then .ok (object.SetBool key false, r)
                              else if ident = nullChars then .ok (object.SetNull key, r)
                              else .error "unexpected identifier" :
                            Except String (ObjectStruct × List Char)) with
                        | .error msg => .error msg
                        | .ok (object2, l5) =>
                          match skipWhitespace l5 with
                          | .error msg => .error msg
                          | .ok l6 =>
                            match l6 with
                            | [] => .error "failed to read rune"
                            | c3 :: rest6 =>
                              if c3 = replacementChar then .error "invalid encoding"
                              else if c3 = rightBraceChar then .ok (object2, rest6)
                              else if c3 = ',' then parseObjectMembers fuel object2 rest6
                              else .error "unexpected character"

/-- `parseEmbeddedArray` from parse.go: leading whitespace, '[', then the
element loop starting from the zero-value array. -/
def parseEmbeddedArray (fuel : Nat) (l : List Char) : Except String (ArrayStruct × List Char) :=
  match fuel with
  | 0 => .error "out of fuel"
  | fuel + 1 =>
    match skipWhitespace l with
    | .error msg => .error msg
    | .ok l1 =>
      match l1 with
      | [] => .error "failed to read rune"
      | c :: rest =>
        if c = replacementChar then .error "invalid encoding"
        else if c ≠ '[' then .error "unexpected character"
        else parseArrayElements fuel NewArray rest

/-- The element loop of `parseEmbeddedArray`: whitespace, then either ']' or
an element (value dispatched on the peeked rune, then ',' or ']'). -/
def parseArrayElements (fuel : Nat) (array : ArrayStruct) (l : List Char) :
    Except String (ArrayStruct × List Char) :=
  match fuel with
  | 0 => .error "out of fuel"
  | fuel + 1 =>
    match skipWhitespace l with
    | .error msg => .error msg
    | .ok l1 =>
      match l1 with
      | [] => .error "failed to read rune"
      | c :: rest =>
        if c = replacementChar then .error "invalid encoding"
        else if c = ']' then .ok (array, rest)
        else
          match
            (if c = leftBraceChar then
              match parseEmbeddedObject fuel l1 with
              | .ok (v, r) => .ok (array.AddJSONObject v, r)
              | .error msg => .error msg
            else if c = '[' then
              match parseEmbeddedArray fuel l1 with
              | .ok (v, r) => .ok (array.AddJSONArray v, r)
              | .error msg => .error msg
            else if c = '"' then
              match parseString l1 with
              | .ok (v, r) => .ok (array.AddString v, r)
              | .error msg => .error msg
            else if isDigitCharacter c then
              match extractNumber l1 with
              | .ok (v, r) => .ok (array.AddNumber v, r)
              | .error msg => .error msg
            else
              match extractIdentifier l1 with
              | .error msg => .error msg
              | .ok (ident, r) =>
                if ident = trueChars then .ok (array.AddBool true, r)
                else if ident = falseChars then .ok (array.AddBool false, r)
                else if ident = nullChars then .ok (array.AddNull, r)
                else .error "unexpected identifier" :
              Except String (ArrayStruct × List Char)) with
          | .error msg => .error msg
          | .ok (array2, l5) =>
            match skipWhitespace l5 with
            | .error msg => .error msg
            | .ok l6 =>
              match l6 with
              | [] => .error "failed to read rune"
              | c3 :: rest6 =>
                if c3 = replacementChar then .error "invalid encoding"
                else if c3 = ']' then .ok (array2, rest6)
                else if c3 = ',' then parseArrayElements fuel array2 rest6
                else .error "unexpected character"
end

/-- `ParseObject` from parse.go: parse one embedded object, then require only
whitespace up to EOF. -/
def ParseObject (l : List Char) : Except String ObjectStruct :=
  match parseEmbeddedObject (l.length + 1) l with
  | .error msg => .error msg
  | .ok (parsed, rest) =>
    match parseEnd rest with
    | .error msg => .error msg
    | .ok _ => .ok parsed

/-- `ParseArray` from parse.go: parse one embedded array, then require only
whitespace up to EOF. -/
def ParseArray (l : List Char) : Except String ArrayStruct :=
  match parseEmbeddedArray (l.length + 1) l with
  | .error msg => .error msg
  | .ok (parsed, rest) =>
    match parseEnd rest with
    | .error msg => .error msg
    | .ok _ => .ok parsed

end GoJson

namespace GoJson

/-- `StringCharacterEscapingBehaviorInterface` from encode_string.go: a pair of
predicates consulted by `encodeString`. -/
structure StringCharacterEscapingBehavior where
  UseCharacter : Char → Bool
  UseShorthandEscapeSequence : Char → Bool

/-- `MinimalStringCharacterEscapingBehavior`: both predicates always true. -/
def MinimalStringCharacterEscapingBehavior : StringCharacterEscapingBehavior :=
  ⟨fun _ => true, fun _ => true⟩

/-- `shorthandStringCharacterEscapeSequences` from encode_string.go. -/
def shorthandStringCharacterEscapeSequences (c : Char) : Option (List Char) :=
  if c = '"' then some ['\\', '"']
  else if c = '\\' then some ['\\', '\\']
  else if c = '/' then some ['\\', '/']
  else if c = Char.ofNat 8 then some ['\\', 'b']
  else if c = Char.ofNat 12 then some ['\\', 'f']
  else if c = '\n' then some ['\\', 'n']
  else if c = '\r' then some ['\\', 'r']
  else if c = '\t' then some ['\\', 't']
  else none

/-- `toStringHexEscapeSequence` from encode_string.go: a six-character
`\uXXXX` escape with lowercase hex digits. -/
def toStringHexEscapeSequence (r : Nat) : List Char :=
  ['\\', 'u',
   (String.data "0123456789abcdef").getD (r / 4096 % 16) '0',
   (String.data "0123456789abcdef").getD (r / 256 % 16) '0',
   (String.data "0123456789abcdef").getD (r / 16 % 16) '0',
   (String.data "0123456789abcdef").getD (r % 16) '0']

/-- The hex fallback at the end of `encodeString`'s per-character loop: code
points beyond the BMP (`utf16.RuneLen > 1`) become a surrogate pair of
`\uXXXX` escapes via `utf16.EncodeRune`; everything else becomes one escape. -/
def encodeCharacterHex (c : Char) : List Char :=
  if 0x10000 ≤ c.toNat then
    toStringHexEscapeSequence (0xD800 + (c.toNat - 0x10000) / 0x400) ++
      toStringHexEscapeSequence (0xDC00 + (c.toNat - 0x10000) % 0x400)
  else toStringHexEscapeSequence c.toNat

/-- One iteration of `encodeString`'s loop: characters in 0x00..0x1F (other
than quote and backslash, which are outside that range anyway) are written
directly when `UseCharacter` allows; otherwise a shorthand escape is used when
one exists and `UseShorthandEscapeSequence` allows; otherwise the `\uXXXX`
fallback runs. -/
def encodeCharacter (behavior : StringCharacterEscapingBehavior) (c : Char) : List Char :=
  if c.toNat ≤ 0x1F && c ≠ '"' && c ≠ '\\' && behavior.UseCharacter c then [c]
  else
    match shorthandStringCharacterEscapeSequences c with
    | some seq => if behavior.UseShorthandEscapeSequence c then seq else encodeCharacterHex c
    | none => encodeCharacterHex c

/-- `encodeString` from encode_string.go: a quote, the per-character
encodings, and a closing quote. -/
def encodeString (s : List Char) (behavior : StringCharacterEscapingBehavior) : List Char :=
  '"' :: ((s.map (encodeCharacter behavior)).flatten ++ ['"'])

/-- `ObjectBuilderStruct` from build.go: the accumulating buffer, the escaping
behavior, and the member count. -/
structure ObjectBuilderStruct where
  b : List Char
  stringCharacterEscapingBehavior : StringCharacterEscapingBehavior
  memberCount : Nat

/-- `NewObjectBuilder`. -/
def NewObjectBuilder (behavior : StringCharacterEscapingBehavior) : ObjectBuilderStruct :=
  ⟨[], behavior, 0⟩

/-- `ObjectBuilderStruct.AddJSON`: writes the opening brace on first use, a
comma when members precede, the encoded name, a colon, and the raw value. -/
def ObjectBuilderStruct.AddJSON (ob : ObjectBuilderStruct) (name value : List Char) :
    ObjectBuilderStruct :=
  let b1 := if ob.b.length = 0 then ob.b ++ [leftBraceChar] else ob.b
  let b2 := if ob.memberCount > 0 then b1 ++ [','] else b1
  ⟨b2 ++ encodeString name ob.stringCharacterEscapingBehavior ++ ':' :: value,
   ob.stringCharacterEscapingBehavior, ob.memberCount + 1⟩

/-- `ObjectBuilderStruct.AddString`. -/
def ObjectBuilderStruct.AddString (ob : ObjectBuilderStruct) (name value : List Char) :
    ObjectBuilderStruct :=
  ob.AddJSON name (encodeString value ob.stringCharacterEscapingBehavior)

/-- `ObjectBuilderStruct.AddBool`. -/
def ObjectBuilderStruct.AddBool (ob : ObjectBuilderStruct) (name : List Char) (value : Bool) :
    ObjectBuilderStruct :=
  if value then ob.AddJSON name trueChars else ob.AddJSON name falseChars

/-- `ObjectBuilderStruct.AddNull`. -/
def ObjectBuilderStruct.AddNull (ob : ObjectBuilderStruct) (name : List Char) :
    ObjectBuilderStruct :=
  ob.AddJSON name nullChars

/-- `ObjectBuilderStruct.Done`: the canonical empty form when nothing was
added, else the buffer plus the closing brace. -/
def ObjectBuilderStruct.Done (ob : ObjectBuilderStruct) : List Char :=
  if ob.b.length = 0 then [leftBraceChar, rightBraceChar] else ob.b ++ [rightBraceChar]

/-- `ArrayBuilderStruct` from build.go. -/
structure ArrayBuilderStruct where
  b : List Char
  stringCharacterEscapingBehavior : StringCharacterEscapingBehavior
  elementCount : Nat

/-- `NewArrayBuilder`. -/
def NewArrayBuilder (behavior : StringCharacterEscapingBehavior) : ArrayBuilderStruct :=
  ⟨[], behavior, 0⟩

/-- `ArrayBuilderStruct.AddJSON`. -/
def ArrayBuilderStruct.AddJSON (ab : ArrayBuilderStruct) (value : List Char) :
    ArrayBuilderStruct :=
  let b1 := if ab.b.length = 0 then ab.b ++ ['['] else ab.b
  let b2 := if ab.elementCount > 0 then b1 ++ [','] else b1
  ⟨b2 ++ value, ab.stringCharacterEscapingBehavior, ab.elementCount + 1⟩

/-- `ArrayBuilderStruct.AddString`. -/
def ArrayBuilderStruct.AddString (ab : ArrayBuilderStruct) (value : List Char) :
    ArrayBuilderStruct :=
  ab.AddJSON (encodeString value ab.stringCharacterEscapingBehavior)

/-- `ArrayBuilderStruct.AddBool`. -/
def ArrayBuilderStruct.AddBool (ab : ArrayBuilderStruct) (value : Bool) : ArrayBuilderStruct :=
  if value then ab.AddJSON trueChars else ab.AddJSON falseChars

/-- `ArrayBuilderStruct.AddNull`. -/
def ArrayBuilderStruct.AddNull (ab : ArrayBuilderStruct) : ArrayBuilderStruct :=
  ab.AddJSON nullChars

/-- `ArrayBuilderStruct.Done`. -/
def ArrayBuilderStruct.Done (ab : ArrayBuilderStruct) : List Char :=
  if ab.b.length = 0 then ['[', ']'] else ab.b ++ [']']

/-- A successful map lookup yields a value no bigger than the list. -/
theorem mapLookup_sizeOf_lt [DecidableEq κ] {m : List (κ × α)} {k : κ} {v : α}
    [SizeOf κ] [SizeOf α] (h : mapLookup m k = some v) : sizeOf v < sizeOf m := by
  induction m with
  | nil => simp [mapLookup] at h
  | cons hd tl ih =>
    match hd with
    | (k1, v1) =>
      simp only [mapLookup] at h
      by_cases hk : k1 = k
      · rw [if_pos hk] at h
        cases h
        simp
        omega
      · rw [if_neg hk] at h
        have := ih h
        simp
        omega

theorem objects_sizeOf_lt (o : ObjectStruct) : sizeOf o.objects < sizeOf o := by
  cases o with
  | mk ss ns bs us os ars ks => simp [ObjectStruct.objects]; omega

theorem arraysField_sizeOf_lt (o : ObjectStruct) : sizeOf o.arrays < sizeOf o := by
  cases o with
  | mk ss ns bs us os ars ks => simp [ObjectStruct.arrays]; omega

theorem arrObjects_sizeOf_lt (a : ArrayStruct) : sizeOf a.objects < sizeOf a := by
  cases a with
  | mk ss ns bs us os ars len => simp [ArrayStruct.objects]; omega

theorem arrArrays_sizeOf_lt (a : ArrayStruct) : sizeOf a.arrays < sizeOf a := by
  cases a with
  | mk ss ns bs us os ars len => simp [ArrayStruct.arrays]; omega

/-- The dense index list `0, 1, ..., length-1` that `ArrayStruct.String`'s
`for i := range array.length` loop walks. -/
def arrayIndexList (a : ArrayStruct) : List Int :=
  (List.range a.length.toNat).map Int.ofNat

mutual
/-- `ObjectStruct.String` from object.go: builds the text member by member in
key-insertion order, looking each key up kind by kind (strings, numbers,
bools, nulls, objects, arrays) and delegating to the object builder. The
escaping behavior is an explicit parameter here: `ArrayStruct.String` in
array.go invokes the object serializer with its behavior argument, which
fixes this signature. -/
def ObjectStruct.String (behavior : StringCharacterEscapingBehavior) (o : ObjectStruct) :
    List Char :=
  (objectMembersFold behavior o o.keys (NewObjectBuilder behavior)).Done
termination_by (sizeOf o, o.keys.length + 1)
decreasing_by
  exact Prod.Lex.right _ (by omega)

/-- The member loop of `ObjectStruct.String`: one builder step per key, in
order; a key bound in no kind map adds nothing. -/
def objectMembersFold (behavior : StringCharacterEscapingBehavior) (o : ObjectStruct) :
    List (List Char) → ObjectBuilderStruct → ObjectBuilderStruct
  | [], bld => bld
  | k :: ks, bld =>
    match mapLookup o.strings k with
    | some v => objectMembersFold behavior o ks (bld.AddString k v)
    | none =>
    match mapLookup o.numbers k with
    | some v => objectMembersFold behavior o ks (bld.AddJSON k v)
    | none =>
    match mapLookup o.bools k with
    | some v => objectMembersFold behavior o ks (bld.AddBool k v)
    | none =>
    match mapLookup o.nulls k with
    | some _ => objectMembersFold behavior o ks (bld.AddNull k)
    | none =>
    match h5 : mapLookup o.objects k with
    | some v => objectMembersFold behavior o ks (bld.AddJSON k (ObjectStruct.String behavior v))
    | none =>
    match h6 : mapLookup o.arrays k with
    | some v => objectMembersFold behavior o ks (bld.AddJSON k (ArrayStruct.String behavior v))
    | none => objectMembersFold behavior o ks bld
termination_by ks _ => (sizeOf o, ks.length)
decreasing_by
  all_goals simp_wf
  all_goals first
  | exact Prod.Lex.right _ (by omega)
  | exact Prod.Lex.left _ _ (lt_trans (mapLookup_sizeOf_lt h5) (objects_sizeOf_lt o))
  | exact Prod.Lex.left _ _ (lt_trans (mapLookup_sizeOf_lt h6) (arraysField_sizeOf_lt o))

/-- `ArrayStruct.String` from array.go: walks indices `0..length-1` in order,
looking each slot up kind by kind and delegating to the array builder. -/
def ArrayStruct.String (behavior : StringCharacterEscapingBehavior) (a : ArrayStruct) :
    List Char :=
  (arrayElementsFold behavior a (arrayIndexList a) (NewArrayBuilder behavior)).Done
termination_by (sizeOf a, (arrayIndexList a).length + 1)
decreasing_by
  exact Prod.Lex.right _ (by omega)

/-- The element loop of `ArrayStruct.String`: one builder step per in-range
index; an index bound in no kind map adds nothing. -/
def arrayElementsFold (behavior : StringCharacterEscapingBehavior) (a : ArrayStruct) :
    List Int → ArrayBuilderStruct → ArrayBuilderStruct
  | [], bld => bld
  | i :: is, bld =>
    match mapLookup a.strings i with
    | some v => arrayElementsFold behavior a is (bld.AddString v)
    | none =>
    match mapLookup a.numbers i with
    | some v => arrayElementsFold behavior a is (bld.AddJSON v)
    | none =>
    match mapLookup a.bools i with
    | some v => arrayElementsFold behavior a is (bld.AddBool v)
    | none =>
    match mapLookup a.nulls i with
    | some _ => arrayElementsFold behavior a is bld.AddNull
    | none =>
    match h5 : mapLookup a.objects i with
    | some v => arrayElementsFold behavior a is (bld.AddJSON (ObjectStruct.String behavior v))
    | none =>
    match h6 : mapLookup a.arrays i with
    | some v => arrayElementsFold behavior a is (bld.AddJSON (ArrayStruct.String behavior v))
    | none => arrayElementsFold behavior a is bld
termination_by is _ => (sizeOf a, is.length)
decreasing_by
  all_goals simp_wf
  all_goals first
  | exact Prod.Lex.right _ (by omega)
  | exact Prod.Lex.left _ _ (lt_trans (mapLookup_sizeOf_lt h5) (arrObjects_sizeOf_lt a))
  | exact Prod.Lex.left _ _ (lt_trans (mapLookup_sizeOf_lt h6) (arrArrays_sizeOf_lt a))
end

end GoJson

namespace GoJson

/-- The characters of a Lean string literal, for writing concrete inputs. -/
def str (s : String) : List Char := s.data

/-- Whether a parse result is an error. -/
def isError : Except String α → Bool
  | .error _ => true
  | .ok _ => false

deriving instance DecidableEq for Except

/-- The integer part of the spec's number grammar: `0|[1-9][0-9]*`. Returns
the unconsumed remainder, or `none` when the head does not match. -/
def matchIntPart : List Char → Option (List Char)
  | [] => none
  | c :: rest =>
    if c = '0' then some rest
    else if isDigitCharacter c then some (rest.dropWhile isDigitCharacter)
    else none

/-- The optional fraction of the spec's number grammar: `(\.[0-9]+)?` — a dot
must be followed by at least one digit. -/
def matchFracPart : List Char → Option (List Char)
  | '.' :: rest =>
    if (rest.takeWhile isDigitCharacter).isEmpty then none
    else some (rest.dropWhile isDigitCharacter)
  | l => some l

/-- The optional exponent of the spec's number grammar:
`([eE][+-]?[0-9]+)?` — at least one digit after the optional sign. -/
def matchExpPart : List Char → Option (List Char)
  | [] => some []
  | c :: rest =>
    if c = 'e' || c = 'E' then
      match rest with
      | [] => none
      | s :: rest1 =>
        match (if s = '+' || s = '-' then rest1 else s :: rest1) with
        | l1 =>
          if (l1.takeWhile isDigitCharacter).isEmpty then none
          else some (l1.dropWhile isDigitCharacter)
    else some (c :: rest)

/-- The spec's number grammar without the optional leading minus:
`(0|[1-9][0-9]*)(\.[0-9]+)?([eE][+-]?[0-9]+)?`, matched in full. -/
def posNumberMatch (l : List Char) : Bool :=
  match matchIntPart l with
  | none => false
  | some r1 =>
    match matchFracPart r1 with
    | none => false
    | some r2 =>
      match matchExpPart r2 with
      | none => false
      | some r3 => r3.isEmpty

/-- The spec's full number grammar
`-?(0|[1-9][0-9]*)(\.[0-9]+)?([eE][+-]?[0-9]+)?`, matched in full. -/
def jsonNumberMatch (l : List Char) : Bool :=
  match l with
  | '-' :: rest => posNumberMatch rest
  | l => posNumberMatch l

/-- No character below U+0020 (raw control characters are rejected by
`parseString`, and the minimal escaping behavior emits them raw). -/
def controlFree (s : List Char) : Bool := s.all (fun c => 0x20 ≤ c.toNat)

/-- How many of the six kind maps bind this object key. -/
def kindCount (o : ObjectStruct) (k : List Char) : Nat :=
  (if (mapLookup o.strings k).isSome then 1 else 0) +
  (if (mapLookup o.numbers k).isSome then 1 else 0) +
  (if (mapLookup o.bools k).isSome then 1 else 0) +
  (if (mapLookup o.nulls k).isSome then 1 else 0) +
  (if (mapLookup o.objects k).isSome then 1 else 0) +
  (if (mapLookup o.arrays k).isSome then 1 else 0)

/-- How many of the six kind maps bind this array index. -/
def arrKindCount (a : ArrayStruct) (i : Int) : Nat :=
  (if (mapLookup a.strings i).isSome then 1 else 0) +
  (if (mapLookup a.numbers i).isSome then 1 else 0) +
  (if (mapLookup a.bools i).isSome then 1 else 0) +
  (if (mapLookup a.nulls i).isSome then 1 else 0) +
  (if (mapLookup a.objects i).isSome then 1 else 0) +
  (if (mapLookup a.arrays i).isSome then 1 else 0)

mutual
/-- The serialisable-model invariant for objects: unique keys, every key bound
in exactly one kind map, keys and string values free of control characters,
number texts matching the minus-free number grammar (the parser dispatches a
value only when it starts with a digit), and nested containers well formed
recursively. Models built through the typed `Set*` API with such scalar
arguments satisfy this invariant. -/
def wfObject (o : ObjectStruct) : Bool :=
  decide o.keys.Nodup && wfObjectKeys o o.keys
termination_by (sizeOf o, o.keys.length + 1)
decreasing_by
  exact Prod.Lex.right _ (by omega)

/-- Per-key conditions of `wfObject`, along the key list. -/
def wfObjectKeys (o : ObjectStruct) : List (List Char) → Bool
  | [] => true
  | k :: ks =>
    controlFree k && (kindCount o k == 1) &&
    (match mapLookup o.strings k with
     | some v => controlFree v
     | none => true) &&
    (match mapLookup o.numbers k with
     | some v => posNumberMatch v
     | none => true) &&
    (match h5 : mapLookup o.objects k with
     | some v => wfObject v
     | none => true) &&
    (match h6 : mapLookup o.arrays k with
     | some v => wfArray v
     | none => true) &&
    wfObjectKeys o ks
termination_by ks => (sizeOf o, ks.length)
decreasing_by
  all_goals simp only [List.length_cons]
  all_goals first
  | exact Prod.Lex.right _ (by omega)
  | exact Prod.Lex.left _ _
      (lt_trans (mapLookup_sizeOf_lt (by assumption)) (objects_sizeOf_lt o))
  | exact Prod.Lex.left _ _
      (lt_trans (mapLookup_sizeOf_lt (by assumption)) (arraysField_sizeOf_lt o))

/-- The serialisable-model invariant for arrays: nonnegative length, every
in-range index bound in exactly one kind map, with the same per-kind content
conditions as `wfObject`. -/
def wfArray (a : ArrayStruct) : Bool :=
  decide (0 ≤ a.length) && wfArraySlots a (arrayIndexList a)
termination_by (sizeOf a, (arrayIndexList a).length + 1)
decreasing_by
  exact Prod.Lex.right _ (by omega)

/-- Per-index conditions of `wfArray`, along the dense index list. -/
def wfArraySlots (a : ArrayStruct) : List Int → Bool
  | [] => true
  | i :: is =>
    (arrKindCount a i == 1) &&
    (match mapLookup a.strings i with
     | some v => controlFree v
     | none => true) &&
    (match mapLookup a.numbers i with
     | some v => posNumberMatch v
     | none => true) &&
    (match h5 : mapLookup a.objects i with
     | some v => wfObject v
     | none => true) &&
    (match h6 : mapLookup a.arrays i with
     | some v => wfArray v
     | none => true) &&
    wfArraySlots a is
termination_by is => (sizeOf a, is.length)
decreasing_by
  all_goals simp only [List.length_cons]
  all_goals first
  | exact Prod.Lex.right _ (by omega)
  | exact Prod.Lex.left _ _
      (lt_trans (mapLookup_sizeOf_lt (by assumption)) (arrObjects_sizeOf_lt a))
  | exact Prod.Lex.left _ _
      (lt_trans (mapLookup_sizeOf_lt (by assumption)) (arrArrays_sizeOf_lt a))
end

mutual
/-- Structural equality of objects in the sense of the round-trip property:
the same keys in the same order, and at every key the same kind and the same
value, recursively. -/
inductive ObjEquiv : ObjectStruct → ObjectStruct → Prop where
| intro {o1 o2 : ObjectStruct} :
    o1.keys = o2.keys →
    (∀ k, k ∈ o1.keys → mapLookup o1.strings k = mapLookup o2.strings k) →
    (∀ k, k ∈ o1.keys → mapLookup o1.numbers k = mapLookup o2.numbers k) →
    (∀ k, k ∈ o1.keys → mapLookup o1.bools k = mapLookup o2.bools k) →
    (∀ k, k ∈ o1.keys → mapLookup o1.nulls k = mapLookup o2.nulls k) →
    (∀ k, k ∈ o1.keys → (mapLookup o1.objects k).isSome = (mapLookup o2.objects k).isSome) →
    (∀ k v1 v2, k ∈ o1.keys → mapLookup o1.objects k = some v1 →
      mapLookup o2.objects k = some v2 → ObjEquiv v1 v2) →
    (∀ k, k ∈ o1.keys → (mapLookup o1.arrays k).isSome = (mapLookup o2.arrays k).isSome) →
    (∀ k v1 v2, k ∈ o1.keys → mapLookup o1.arrays k = some v1 →
      mapLookup o2.arrays k = some v2 → ArrEquiv v1 v2) →
    ObjEquiv o1 o2

/-- Structural equality of arrays: the same length, and at every in-range
index the same kind and the same value, recursively. -/
inductive ArrEquiv : ArrayStruct → ArrayStruct → Prop where
| intro {a1 a2 : ArrayStruct} :
    a1.length = a2.length →
    (∀ i, 0 ≤ i → i < a1.length → mapLookup a1.strings i = mapLookup a2.strings i) →
    (∀ i, 0 ≤ i → i < a1.length → mapLookup a1.numbers i = mapLookup a2.numbers i) →
    (∀ i, 0 ≤ i → i < a1.length → mapLookup a1.bools i = mapLookup a2.bools i) →
    (∀ i, 0 ≤ i → i < a1.length → mapLookup a1.nulls i = mapLookup a2.nulls i) →
    (∀ i, 0 ≤ i → i < a1.length →
      (mapLookup a1.objects i).isSome = (mapLookup a2.objects i).isSome) →
    (∀ i v1 v2, 0 ≤ i → i < a1.length → mapLookup a1.objects i = some v1 →
      mapLookup a2.objects i = some v2 → ObjEquiv v1 v2) →
    (∀ i, 0 ≤ i → i < a1.length →
      (mapLookup a1.arrays i).isSome = (mapLookup a2.arrays i).isSome) →
    (∀ i v1 v2, 0 ≤ i → i < a1.length → mapLookup a1.arrays i = some v1 →
      mapLookup a2.arrays i = some v2 → ArrEquiv v1 v2) →
    ArrEquiv a1 a2
end

end GoJson

namespace GoJson

/-- The escaping behavior of the C7 claim: both predicates always false. -/
def noShorthandBehavior : StringCharacterEscapingBehavior :=
  ⟨fun _ => false, fun _ => false⟩

/-- `ParseObject` then `GetNumber`, the composition the number-fidelity claims
are about. -/
def parseThenGetNumber (s k : List Char) : Except String (List Char) :=
  match ParseObject s with
  | .ok o => o.GetNumber k
  | .error e => .error e

/-- Keys a, b, c inserted as numbers in that order, then `SetString "a"`
again: the order-preservation example of the spec. -/
def keyOrderExample : ObjectStruct :=
  ((((emptyObject.SetNumber (str "a") (str "1")).SetNumber (str "b") (str "2")).SetNumber
      (str "c") (str "3")).SetString (str "a") (str "x"))

/-- A character that cannot extend a number token: not a digit, not a dot,
not an exponent marker, and not the replacement character. The structural
characters after an embedded number (comma and both closing brackets) all
qualify. -/
def numberBoundary (c : Char) : Bool :=
  !isDigitCharacter c && !(c = '.') && !(c = 'e') && !(c = 'E') && !(c = replacementChar)

/-- The parser-side invariant of the member loop: `o2` is the object built
from the members of `o` processed so far (the keys in `done`, in order). On
those keys the scalar maps agree exactly and the container maps agree up to
the recursive equivalences; every other key is absent from `o2`. -/
structure ObjRestrict (o : ObjectStruct) (done : List (List Char)) (o2 : ObjectStruct) :
    Prop where
  keys_eq : o2.keys = done
  str_mem : ∀ k, k ∈ done → mapLookup o2.strings k = mapLookup o.strings k
  num_mem : ∀ k, k ∈ done → mapLookup o2.numbers k = mapLookup o.numbers k
  bool_mem : ∀ k, k ∈ done → mapLookup o2.bools k = mapLookup o.bools k
  null_mem : ∀ k, k ∈ done → mapLookup o2.nulls k = mapLookup o.nulls k
  obj_some : ∀ k, k ∈ done → (mapLookup o2.objects k).isSome = (mapLookup o.objects k).isSome
  obj_mem : ∀ k v2, k ∈ done → mapLookup o2.objects k = some v2 →
    ∃ v1, mapLookup o.objects k = some v1 ∧ ObjEquiv v1 v2
  arr_some : ∀ k, k ∈ done → (mapLookup o2.arrays k).isSome = (mapLookup o.arrays k).isSome
  arr_mem : ∀ k v2, k ∈ done → mapLookup o2.arrays k = some v2 →
    ∃ v1, mapLookup o.arrays k = some v1 ∧ ArrEquiv v1 v2
  str_out : ∀ k, ¬ k ∈ done → mapLookup o2.strings k = none
  num_out : ∀ k, ¬ k ∈ done → mapLookup o2.numbers k = none
  bool_out : ∀ k, ¬ k ∈ done → mapLookup o2.bools k = none
  null_out : ∀ k, ¬ k ∈ done → mapLookup o2.nulls k = none
  obj_out : ∀ k, ¬ k ∈ done → mapLookup o2.objects k = none
  arr_out : ∀ k, ¬ k ∈ done → mapLookup o2.arrays k = none

/-- The parser-side invariant of the element loop: `a2` holds the first `n`
elements of `a` (indices `0..n-1`), and nothing else. -/
structure ArrRestrict (a : ArrayStruct) (n : Int) (a2 : ArrayStruct) : Prop where
  nonneg : 0 ≤ n
  len_eq : a2.length = n
  str_mem : ∀ i, 0 ≤ i → i < n → mapLookup a2.strings i = mapLookup a.strings i
  num_mem : ∀ i, 0 ≤ i → i < n → mapLookup a2.numbers i = mapLookup a.numbers i
  bool_mem : ∀ i, 0 ≤ i → i < n → mapLookup a2.bools i = mapLookup a.bools i
  null_mem : ∀ i, 0 ≤ i → i < n → mapLookup a2.nulls i = mapLookup a.nulls i
  obj_some : ∀ i, 0 ≤ i → i < n →
    (mapLookup a2.objects i).isSome = (mapLookup a.objects i).isSome
  obj_mem : ∀ i v2, 0 ≤ i → i < n → mapLookup a2.objects i = some v2 →
    ∃ v1, mapLookup a.objects i = some v1 ∧ ObjEquiv v1 v2
  arr_some : ∀ i, 0 ≤ i → i < n →
    (mapLookup a2.arrays i).isSome = (mapLookup a.arrays i).isSome
  arr_mem : ∀ i v2, 0 ≤ i → i < n → mapLookup a2.arrays i = some v2 →
    ∃ v1, mapLookup a.arrays i = some v1 ∧ ArrEquiv v1 v2
  str_out : ∀ i, ¬ (0 ≤ i ∧ i < n) → mapLookup a2.strings i = none
  num_out : ∀ i, ¬ (0 ≤ i ∧ i < n) → mapLookup a2.numbers i = none
  bool_out : ∀ i, ¬ (0 ≤ i ∧ i < n) → mapLookup a2.bools i = none
  null_out : ∀ i, ¬ (0 ≤ i ∧ i < n) → mapLookup a2.nulls i = none
  obj_out : ∀ i, ¬ (0 ≤ i ∧ i < n) → mapLookup a2.objects i = none
  arr_out : ∀ i, ¬ (0 ≤ i ∧ i < n) → mapLookup a2.arrays i = none

end GoJson

namespace GoJson

/-- The text of one member's value, exactly as `objectMembersFold` appends it
for a key bound in at least one kind map (first hit in the fold's order). -/
def objectValueText (behavior : StringCharacterEscapingBehavior) (o : ObjectStruct)
    (k : List Char) : List Char :=
  match mapLookup o.strings k with
  | some v => encodeString v behavior
  | none =>
  match mapLookup o.numbers k with
  | some v => v
  | none =>
  match mapLookup o.bools k with
  | some v => if v then trueChars else falseChars
  | none =>
  match mapLookup o.nulls k with
  | some _ => nullChars
  | none =>
  match mapLookup o.objects k with
  | some v => ObjectStruct.String behavior v
  | none =>
  match mapLookup o.arrays k with
  | some v => ArrayStruct.String behavior v
  | none => []

/-- The text of one member: encoded name, colon, value text. -/
def objectMemberPiece (behavior : StringCharacterEscapingBehavior) (o : ObjectStruct)
    (k : List Char) : List Char :=
  encodeString k behavior ++ ':' :: objectValueText behavior o k

/-- The text between the braces of a serialised object: the member pieces for
the listed keys, separated by commas. -/
def objectMembersText (behavior : StringCharacterEscapingBehavior) (o : ObjectStruct) :
    List (List Char) → List Char
  | [] => []
  | [k] => objectMemberPiece behavior o k
  | k :: ks => objectMemberPiece behavior o k ++ ',' :: objectMembersText behavior o ks

/-- The text of one element's value, exactly as `arrayElementsFold` appends it
for a slot bound in at least one kind map. -/
def arrayValueText (behavior : StringCharacterEscapingBehavior) (a : ArrayStruct)
    (i : Int) : List Char :=
  match mapLookup a.strings i with
  | some v => encodeString v behavior
  | none =>
  match mapLookup a.numbers i with
  | some v => v
  | none =>
  match mapLookup a.bools i with
  | some v => if v then trueChars else falseChars
  | none =>
  match mapLookup a.nulls i with
  | some _ => nullChars
  | none =>
  match mapLookup a.objects i with
  | some v => ObjectStruct.String behavior v
  | none =>
  match mapLookup a.arrays i with
  | some v => ArrayStruct.String behavior v
  | none => []

/-- The text between the brackets of a serialised array: the element texts for
the listed slots, separated by commas. -/
def arrayElementsText (behavior : StringCharacterEscapingBehavior) (a : ArrayStruct) :
    List Int → List Char
  | [] => []
  | [i] => arrayValueText behavior a i
  | i :: is => arrayValueText behavior a i ++ ',' :: arrayElementsText behavior a is

mutual
/-- A fuel bound sufficient for `parseEmbeddedObject` to parse this object's
serialisation: one step to enter, plus the member loop's needs. -/
def objectFuelNeed (o : ObjectStruct) : Nat :=
  1 + objectKeysFuelNeed o o.keys
termination_by (sizeOf o, o.keys.length + 1)
decreasing_by
  exact Prod.Lex.right _ (by omega)

/-- Fuel needed by the member loop along the key list: one step per member
plus whatever a nested container consumes, and one final step to read the
closing brace. -/
def objectKeysFuelNeed (o : ObjectStruct) : List (List Char) → Nat
  | [] => 1
  | k :: ks =>
    1 +
    max
      (match h5 : mapLookup o.objects k with
       | some v => objectFuelNeed v
       | none =>
         match h6 : mapLookup o.arrays k with
         | some v => arrayFuelNeed v
         | none => 0)
      (objectKeysFuelNeed o ks)
termination_by ks => (sizeOf o, ks.length)
decreasing_by
  all_goals simp only [List.length_cons]
  all_goals first
  | exact Prod.Lex.right _ (by omega)
  | exact Prod.Lex.left _ _
      (lt_trans (mapLookup_sizeOf_lt (by assumption)) (objects_sizeOf_lt o))
  | exact Prod.Lex.left _ _
      (lt_trans (mapLookup_sizeOf_lt (by assumption)) (arraysField_sizeOf_lt o))

/-- A fuel bound sufficient for `parseEmbeddedArray` to parse this array's
serialisation. -/
def arrayFuelNeed (a : ArrayStruct) : Nat :=
  1 + arraySlotsFuelNeed a (arrayIndexList a)
termination_by (sizeOf a, (arrayIndexList a).length + 1)
decreasing_by
  exact Prod.Lex.right _ (by omega)

/-- Fuel needed by the element loop along the slot list. -/
def arraySlotsFuelNeed (a : ArrayStruct) : List Int → Nat
  | [] => 1
  | i :: is =>
    1 +
    max
      (match h5 : mapLookup a.objects i with
       | some v => objectFuelNeed v
       | none =>
         match h6 : mapLookup a.arrays i with
         | some v => arrayFuelNeed v
         | none => 0)
      (arraySlotsFuelNeed a is)
termination_by is => (sizeOf a, is.length)
decreasing_by
  all_goals simp only [List.length_cons]
  all_goals first
  | exact Prod.Lex.right _ (by omega)
  | exact Prod.Lex.left _ _
      (lt_trans (mapLookup_sizeOf_lt (by assumption)) (arrObjects_sizeOf_lt a))
  | exact Prod.Lex.left _ _
      (lt_trans (mapLookup_sizeOf_lt (by assumption)) (arrArrays_sizeOf_lt a))
end

end GoJson



namespace GoJson

/-- Looking up the key just written finds the written value. -/
theorem mapLookup_mapInsert_self [DecidableEq κ] (m : List (κ × α)) (k : κ) (v : α) :
    mapLookup (mapInsert m k v) k = some v := by
  induction m with
  | nil => simp [mapInsert, mapLookup]
  | cons hd tl ih =>
    match hd with
    | (k1, v1) =>
      by_cases hk : k1 = k
      · simp [mapInsert, mapLookup, hk]
      · simp [mapInsert, mapLookup, hk, ih]

/-- `removeElement` does not touch the length field. -/
theorem ArrayStruct.removeElement_length (a : ArrayStruct) (i : Int) :
    (a.removeElement i).length = a.length := by
  cases a with
  | mk ss ns bs us os ars len => simp [ArrayStruct.removeElement, ArrayStruct.length]

/-- `addKey` preserves the key order for present keys and appends fresh ones. -/
theorem addKey_keys_eq (o : ObjectStruct) (k : List Char) :
    (o.addKey k).keys = if o.Has k = true then o.keys else o.keys ++ [k] := by
  cases o with
  | mk ss ns bs us os ars ks =>
    simp only [ObjectStruct.addKey, ObjectStruct.Has, ObjectStruct.keys, ObjectStruct.strings,
      ObjectStruct.numbers, ObjectStruct.bools, ObjectStruct.nulls, ObjectStruct.objects,
      ObjectStruct.arrays]
    split_ifs with h1 h2 h3 h4 h5 h6 h7 <;>
      simp_all [ObjectStruct.keys]

/-- C8: an array `Set*` call at an index at or beyond the length is a fatal
precondition fault (modelled as `none`), which resizes nothing and leaves the
array unchanged; a `Set*` call below the length never faults and never
changes the length. -/
theorem c8_array_set_bounds (a : ArrayStruct) (i : Int) (v : List Char) (bv : Bool)
    (ov : ObjectStruct) (av : ArrayStruct) :
    (a.length ≤ i →
      a.SetString i v = none ∧ a.SetNumber i v = none ∧ a.SetBool i bv = none ∧
        a.SetNull i = none ∧ a.SetJSONObject i ov = none ∧ a.SetJSONArray i av = none) ∧
    (i < a.length →
      (a.SetString i v).isSome = true ∧ (a.SetNumber i v).isSome = true ∧
        (a.SetBool i bv).isSome = true ∧ (a.SetNull i).isSome = true ∧
        (a.SetJSONObject i ov).isSome = true ∧ (a.SetJSONArray i av).isSome = true) ∧
    (∀ r, a.SetString i v = some r → r.length = a.length) ∧
    (∀ r, a.SetNumber i v = some r → r.length = a.length) ∧
    (∀ r, a.SetBool i bv = some r → r.length = a.length) ∧
    (∀ r, a.SetNull i = some r → r.length = a.length) ∧
    (∀ r, a.SetJSONObject i ov = some r → r.length = a.length) ∧
    (∀ r, a.SetJSONArray i av = some r → r.length = a.length) := by
  cases a with
  | mk ss ns bs us os ars len =>
    by_cases hc : (len : Int) ≤ i
    · refine ⟨fun _ => ?_, fun h => ?_, ?_, ?_, ?_, ?_, ?_, ?_⟩
      · simp [ArrayStruct.SetString, ArrayStruct.SetNumber, ArrayStruct.SetBool,
          ArrayStruct.SetNull, ArrayStruct.SetJSONObject, ArrayStruct.SetJSONArray,
          ArrayStruct.length, hc]
      · exact absurd h (by simp [ArrayStruct.length]; omega)
      all_goals
        intro r hr
        simp [ArrayStruct.SetString, ArrayStruct.SetNumber, ArrayStruct.SetBool,
          ArrayStruct.SetNull, ArrayStruct.SetJSONObject, ArrayStruct.SetJSONArray,
          ArrayStruct.length, hc] at hr
    · refine ⟨fun h => ?_, fun _ => ?_, ?_, ?_, ?_, ?_, ?_, ?_⟩
      · exact absurd h (by simp [ArrayStruct.length]; omega)
      · simp [ArrayStruct.SetString, ArrayStruct.SetNumber, ArrayStruct.SetBool,
          ArrayStruct.SetNull, ArrayStruct.SetJSONObject, ArrayStruct.SetJSONArray,
          ArrayStruct.length, hc]
      all_goals
        intro r hr
        simp [ArrayStruct.SetString, ArrayStruct.SetNumber, ArrayStruct.SetBool,
          ArrayStruct.SetNull, ArrayStruct.SetJSONObject, ArrayStruct.SetJSONArray,
          ArrayStruct.removeElement, hc] at hr
        rw [← hr.2]
        simp [ArrayStruct.length]

/-- Witness for C8 at a concrete two-element array: `SetString 5` faults,
`SetString 1` succeeds with the length unchanged. -/
theorem c8_array_set_bounds_witness :
    ((NewArray.AddString (str "x")).AddString (str "y")).SetString 5 (str "z") = none ∧
      (((NewArray.AddString (str "x")).AddString (str "y")).SetString 1 (str "z")).isSome =
        true := by
  constructor
  · exact (c8_array_set_bounds ((NewArray.AddString (str "x")).AddString (str "y")) 5
      (str "z") true emptyObject NewArray).1 (by decide) |>.1
  · exact ((c8_array_set_bounds ((NewArray.AddString (str "x")).AddString (str "y")) 1
      (str "z") true emptyObject NewArray).2.1 (by decide)).1

/-- C10: an array `Set*` at a negative index passes the `index >= length`
bounds check, faults nothing, stores the value at that slot without changing
the length, and a `Get*` at the same negative index returns it. -/
theorem c10_negative_index_set (a : ArrayStruct) (i : Int) (v : List Char)
    (h1 : i < 0) (h2 : 0 ≤ a.length) :
    ∃ r, a.SetString i v = some r ∧ r.length = a.length ∧ r.GetString i = .ok v := by
  cases a with
  | mk ss ns bs us os ars len =>
    have hc : ¬ ((len : Int) ≤ i) := by
      simp [ArrayStruct.length] at h2
      omega
    refine ⟨?_, ?_, ?_, ?_⟩
    · exact .mk (mapInsert (mapDelete ss i) i v) (mapDelete ns i) (mapDelete bs i)
        (mapDelete us i) (mapDelete os i) (mapDelete ars i) len
    · simp [ArrayStruct.SetString, ArrayStruct.removeElement, ArrayStruct.length, hc]
    · simp [ArrayStruct.length]
    · simp [ArrayStruct.GetString, ArrayStruct.strings, mapLookup_mapInsert_self]

/-- Witness for C10: `SetString (-1)` on a two-element array stores a value
readable back at index -1 with the length still 2. -/
theorem c10_negative_index_set_witness :
    ∃ r, ((NewArray.AddString (str "x")).AddString (str "y")).SetString (-1) (str "z") =
        some r ∧
      r.length = ((NewArray.AddString (str "x")).AddString (str "y")).length ∧
      r.GetString (-1) = .ok (str "z") :=
  c10_negative_index_set ((NewArray.AddString (str "x")).AddString (str "y")) (-1)
    (str "z") (by decide) (by decide)

/-- C9: `ObjectStruct.GetInt32` parses the stored number text with
`strconv.ParseUint(..., 10, 32)` and reports every parse failure as
"no matching member". So a stored `-5` (representable as int32) fails with
the NoMatchingMember error, a stored `4294967295` (not representable as
int32) succeeds and returns -1 by unsigned-to-signed truncation, and the
parse-failure error is not distinct from the missing-member error — while
the array accessor `ArrayStruct.GetInt32` (which uses `ParseInt(..., 10, 32)`
and distinct wrapped errors) accepts `-5` and range-rejects `4294967295`. -/
theorem c9_getint32_gap :
    (emptyObject.SetNumber (str "x") (str "-5")).GetInt32 (str "x") =
        .error "no matching member" ∧
      (emptyObject.SetNumber (str "x") (str "4294967295")).GetInt32 (str "x") = .ok (-1) ∧
      (emptyObject.SetNumber (str "x") (str "5")).GetInt32 (str "x") = .ok 5 ∧
      (emptyObject.GetInt32 (str "x") = .error "no matching member") ∧
      (NewArray.AddNumber (str "-5")).GetInt32 0 = .ok (-5) ∧
      (NewArray.AddNumber (str "4294967295")).GetInt32 0 =
        .error "failed to parse int32: value out of range" := by
  refine ⟨by decide, by decide, by decide, by decide, by decide, by decide⟩

/-- C5: the number token `1.` (a decimal point with no following digit) does
not match the spec's number grammar, yet the parser accepts it and stores it
verbatim: the fraction digit loop of `extractNumber` does not require a digit
after the '.'. The other malformed shapes the claim lists are rejected:
a leading zero before other digits and an exponent with no digits both make
the parse fail. -/
theorem c5_number_grammar_gap :
    parseThenGetNumber (str "\x7b\"x\":1.\x7d") (str "x") = .ok (str "1.") ∧
      jsonNumberMatch (str "1.") = false ∧
      parseThenGetNumber (str "\x7b\"x\":1.e5\x7d") (str "x") = .ok (str "1.e5") ∧
      jsonNumberMatch (str "1.e5") = false ∧
      isError (ParseObject (str "\x7b\"x\":01\x7d")) = true ∧
      isError (ParseObject (str "\x7b\"x\":1e\x7d")) = true := by
  refine ⟨by decide, by decide, by decide, by decide, by decide, by decide⟩

/-- C9 helper examples are closed; C7: under the all-false escaping behavior
the quote and the newline are encoded as `\u0022` and `\u000a` exactly as the
claim says, but under the default minimal behavior the newline is written
raw (the control-character guard consults `UseCharacter`, which is always
true for the minimal behavior), not as the shorthand `\n` the claim states. -/
theorem c7_escaping_policy_gap :
    encodeString (str "\"\n") noShorthandBehavior = str "\"\\u0022\\u000a\"" ∧
      encodeString (str "\"\n") MinimalStringCharacterEscapingBehavior =
        ['"', '\\', '"', '\n', '"'] ∧
      encodeString (str "\"\n") MinimalStringCharacterEscapingBehavior ≠
        str "\"\\\"\\n\"" := by
  refine ⟨by decide, by decide, by decide⟩

/-- C3: `addKey` (hence every `Set*`) preserves the key list when the key is
already present and appends it otherwise; every object setter changes the key
list exactly as `addKey` does; and the a, b, c example serializes its members
in first-insertion order a, b, c even after `SetString "a"` re-sets the first
key (the member names appear as the minimal behavior's `\u0061`, `\u0062`,
`\u0063` escapes of a, b, c). -/
theorem c3_insertion_order :
    (∀ (o : ObjectStruct) (k : List Char),
      (o.addKey k).keys = if o.Has k = true then o.keys else o.keys ++ [k]) ∧
    (∀ (o : ObjectStruct) (k v : List Char), (o.SetString k v).keys = (o.addKey k).keys) ∧
    (∀ (o : ObjectStruct) (k v : List Char), (o.SetNumber k v).keys = (o.addKey k).keys) ∧
    (∀ (o : ObjectStruct) (k : List Char) (v : Bool), (o.SetBool k v).keys = (o.addKey k).keys) ∧
    (∀ (o : ObjectStruct) (k : List Char), (o.SetNull k).keys = (o.addKey k).keys) ∧
    (∀ (o : ObjectStruct) (k : List Char) (v : ObjectStruct),
      (o.SetJSONObject k v).keys = (o.addKey k).keys) ∧
    (∀ (o : ObjectStruct) (k : List Char) (v : ArrayStruct),
      (o.SetJSONArray k v).keys = (o.addKey k).keys) ∧
    keyOrderExample.keys = [str "a", str "b", str "c"] ∧
    ObjectStruct.String MinimalStringCharacterEscapingBehavior keyOrderExample =
      str "\x7b\"\\u0061\":\"\\u0078\",\"\\u0062\":2,\"\\u0063\":3\x7d" := by
  refine ⟨addKey_keys_eq, ?_, ?_, ?_, ?_, ?_, ?_, by decide, ?_⟩
  · intro o k v
    cases h : o.addKey k with
    | mk ss ns bs us os ars ks => simp [ObjectStruct.SetString, h, ObjectStruct.keys]
  · intro o k v
    cases h : o.addKey k with
    | mk ss ns bs us os ars ks => simp [ObjectStruct.SetNumber, h, ObjectStruct.keys]
  · intro o k v
    cases h : o.addKey k with
    | mk ss ns bs us os ars ks => simp [ObjectStruct.SetBool, h, ObjectStruct.keys]
  · intro o k
    cases h : o.addKey k with
    | mk ss ns bs us os ars ks => simp [ObjectStruct.SetNull, h, ObjectStruct.keys]
  · intro o k v
    cases h : o.addKey k with
    | mk ss ns bs us os ars ks => simp [ObjectStruct.SetJSONObject, h, ObjectStruct.keys]
  · intro o k v
    cases h : o.addKey k with
    | mk ss ns bs us os ars ks => simp [ObjectStruct.SetJSONArray, h, ObjectStruct.keys]
  · simp only [ObjectStruct.String]
    simp +decide [objectMembersFold, keyOrderExample, emptyObject, ObjectStruct.SetNumber,
      ObjectStruct.SetString, ObjectStruct.addKey, mapInsert, mapDelete, mapLookup,
      ObjectStruct.strings, ObjectStruct.numbers, ObjectStruct.bools, ObjectStruct.nulls,
      ObjectStruct.objects, ObjectStruct.arrays, ObjectStruct.keys, str,
      ObjectBuilderStruct.Done, ObjectBuilderStruct.AddJSON, ObjectBuilderStruct.AddString,
      NewObjectBuilder, encodeString, encodeCharacter, encodeCharacterHex,
      shorthandStringCharacterEscapeSequences, toStringHexEscapeSequence,
      MinimalStringCharacterEscapingBehavior, leftBraceChar, rightBraceChar]

/-- Witness for C3 at concrete inputs: re-setting the existing key "a" leaves
the keys [a, b, c]; setting the fresh key "d" appends it. -/
theorem c3_insertion_order_witness :
    (keyOrderExample.addKey (str "a")).keys = keyOrderExample.keys ∧
      (keyOrderExample.addKey (str "d")).keys = keyOrderExample.keys ++ [str "d"] := by
  constructor
  · rw [c3_insertion_order.1 keyOrderExample (str "a"), if_pos (by decide)]
  · rw [c3_insertion_order.1 keyOrderExample (str "d"), if_neg (by decide)]

end GoJson

namespace GoJson

/-- A successful `parseString` implies the input began with a quote. -/
theorem parseString_ok_head {l : List Char} {p : List Char × List Char}
    (h : parseString l = .ok p) : ∃ l2, l = '"' :: l2 := by
  match l with
  | [] => simp [parseString] at h
  | c :: rest =>
    simp only [parseString] at h
    by_cases h1 : c = replacementChar
    · simp [h1] at h
    · rw [if_neg h1] at h
      by_cases h2 : c = '"'
      · exact ⟨rest, by rw [h2]⟩
      · simp [h2] at h

/-- `readHex4` on four hex digits decodes their folded value. -/
theorem readHex4_cons {h1 h2 h3 h4 : Char} {v1 v2 v3 v4 : Nat} {t : List Char}
    (e1 : hexDigitValue h1 = some v1) (e2 : hexDigitValue h2 = some v2)
    (e3 : hexDigitValue h3 = some v3) (e4 : hexDigitValue h4 = some v4) :
    readHex4 (h1 :: h2 :: h3 :: h4 :: t) =
      .ok (((v1 * 16 + v2) * 16 + v3) * 16 + v4, t) := by
  rw [readHex4.eq_def]
  simp only [e1, e2, e3, e4]

/-- A combination with the high surrogate 0xD834 fails unless the second
value is a low surrogate. -/
theorem utf16DecodeRune_d834_fail {v : Nat} (h : ¬(0xDC00 ≤ v ∧ v < 0xE000)) :
    utf16DecodeRune 0xD834 v = 0xFFFD := by
  rw [utf16DecodeRune, if_neg]
  simp only [Bool.and_eq_true, decide_eq_true_eq]
  omega

/-- Evaluating `parseString` through the concrete prefix `"\uD834` leaves the
string loop with the pending high surrogate 0xD834. -/
theorem parseString_d834_start (X : List Char) :
    parseString (str "\"\\uD834" ++ X) = parseStringLoop 0xD834 X := rfl

/-- C6: parsing the string escape pair `\uD834\uDD1E` yields the single code
point U+1D11E; a lone high surrogate before the closing quote fails; a
pending high surrogate followed by any raw character, or by any escape other
than `\u`, fails; and a pending high surrogate followed by a `\u` escape
whose four hex digits do not form a low surrogate fails. -/
theorem c6_surrogate_pairs :
    parseString (str "\"\\uD834\\uDD1E\"") = .ok ([Char.ofNat 0x1D11E], []) ∧
    isError (parseString (str "\"\\uD834\"")) = true ∧
    (∀ (c : Char) (t : List Char), c ≠ '"' → c ≠ '\\' →
      isError (parseString (str "\"\\uD834" ++ c :: t)) = true) ∧
    (∀ (e : Char) (t : List Char), e ≠ 'u' →
      isError (parseString (str "\"\\uD834" ++ '\\' :: e :: t)) = true) ∧
    (∀ (h1 h2 h3 h4 : Char) (v1 v2 v3 v4 : Nat) (t : List Char),
      hexDigitValue h1 = some v1 → hexDigitValue h2 = some v2 →
      hexDigitValue h3 = some v3 → hexDigitValue h4 = some v4 →
      ¬(0xDC00 ≤ ((v1 * 16 + v2) * 16 + v3) * 16 + v4 ∧
          ((v1 * 16 + v2) * 16 + v3) * 16 + v4 < 0xE000) →
      isError (parseString (str "\"\\uD834" ++ '\\' :: 'u' :: h1 :: h2 :: h3 :: h4 :: t)) =
        true) := by
  refine ⟨by decide, by decide, ?_, ?_, ?_⟩
  · intro c t hq hb
    rw [parseString_d834_start, parseStringLoop.eq_def]
    simp +decide [hq, hb, isError]
  · intro e t hu
    rw [parseString_d834_start, parseStringLoop.eq_def]
    simp +decide [hu, isError]
  · intro h1 h2 h3 h4 v1 v2 v3 v4 t hv1 hv2 hv3 hv4 hlow
    have hdec := utf16DecodeRune_d834_fail hlow
    rw [parseString_d834_start, parseStringLoop.eq_def]
    simp +decide only [readHex4_cons hv1 hv2 hv3 hv4, isError, hdec]
    simp

/-- Witness for C6 at concrete continuations: a raw `x`, the escape `\n`, and
the non-low-surrogate escape `\u0061` each abort the parse after `\uD834`. -/
theorem c6_surrogate_pairs_witness :
    isError (parseString (str "\"\\uD834" ++ 'x' :: [('"' : Char)])) = true ∧
      isError (parseString (str "\"\\uD834" ++ '\\' :: 'n' :: [('"' : Char)])) = true ∧
      isError
        (parseString (str "\"\\uD834" ++ '\\' :: 'u' :: '0' :: '0' :: '6' :: '1' ::
          [('"' : Char)])) = true := by
  refine ⟨?_, ?_, ?_⟩
  · exact c6_surrogate_pairs.2.2.1 'x' ['"'] (by decide) (by decide)
  · exact c6_surrogate_pairs.2.2.2.1 'n' ['"'] (by decide)
  · exact c6_surrogate_pairs.2.2.2.2 '0' '0' '6' '1' 0 0 6 1 ['"'] (by decide) (by decide)
      (by decide) (by decide) (by omega)

/-- C4: whenever the member loop of the object parser reaches a member name
that the object built so far already has (names compare after escape
resolution, since `parseString` resolves escapes before the `Has` check), the
parse fails — for any fuel, any partially built object, and any input whose
head parses as that string. In particular both `ParseObject({"a":1,"a":2})`
and `ParseObject({"a":1,"\u0061":2})` fail. -/
theorem c4_duplicate_member :
    (∀ (fuel : Nat) (o : ObjectStruct) (input k rest : List Char),
      parseString input = .ok (k, rest) → o.Has k = true →
      isError (parseObjectMembers fuel o input) = true) ∧
    isError (ParseObject (str "\x7b\"a\":1,\"a\":2\x7d")) = true ∧
    isError (ParseObject (str "\x7b\"a\":1,\"\\u0061\":2\x7d")) = true := by
  refine ⟨?_, by decide, by decide⟩
  intro fuel o input k rest h hHas
  match fuel with
  | 0 => simp [parseObjectMembers, isError]
  | fuel + 1 =>
    obtain ⟨l2, rfl⟩ := parseString_ok_head h
    simp +decide [parseObjectMembers, skipWhitespace, isWhitespaceCharacter, h, hHas, isError]

/-- Witness for C4: the member loop rejects a second `"a"` member against an
object that already has the key a. -/
theorem c4_duplicate_member_witness :
    isError
      (parseObjectMembers 3 (emptyObject.SetNumber (str "a") (str "1"))
        (str "\"a\":2\x7d")) = true := by
  exact c4_duplicate_member.1 3 (emptyObject.SetNumber (str "a") (str "1"))
    (str "\"a\":2\x7d") (str "a") (str ":2\x7d") (by decide) (by decide)

end GoJson

namespace GoJson

/-- A list that `dropWhile` did not empty starts with a failing character. -/
theorem dropWhile_head_false {p : Char → Bool} :
    ∀ {l : List Char} {c : Char} {cs : List Char}, l.dropWhile p = c :: cs → p c = false := by
  intro l
  induction l with
  | nil => intro c cs h; simp [List.dropWhile] at h
  | cons x xs ih =>
    intro c cs h
    rw [List.dropWhile_cons] at h
    by_cases hx : p x = true
    · exact ih (by simpa [hx] using h)
    · simp only [Bool.not_eq_true] at hx
      simp [hx] at h
      rw [← h.1]
      exact hx

/-- A digit is none of the delimiter or structural characters the parser
tests against before and after a number. -/
theorem digit_char_facts {c : Char} (h : isDigitCharacter c = true) :
    c ≠ replacementChar ∧ isWhitespaceCharacter c = false ∧ c ≠ leftBraceChar ∧
      c ≠ rightBraceChar ∧ c ≠ '[' ∧ c ≠ '"' ∧ c ≠ '-' ∧ c ≠ '+' ∧ c ≠ '.' ∧
      c ≠ 'e' ∧ c ≠ 'E' := by
  simp only [isDigitCharacter, Bool.and_eq_true, decide_eq_true_eq] at h
  obtain ⟨h1, h2⟩ := h
  rw [Char.le_def] at h1 h2
  refine ⟨?_, ?_, ?_, ?_, ?_, ?_, ?_, ?_, ?_, ?_, ?_⟩ <;>
    first
    | (intro hc; subst hc; revert h1 h2; decide)
    | (simp only [isWhitespaceCharacter, Bool.or_eq_false_iff, decide_eq_false_iff_not]
       refine ⟨⟨⟨?_, ?_⟩, ?_⟩, ?_⟩ <;> (intro hc; subst hc; revert h1 h2; decide))

/-- The integer-part digit loop consumes exactly a leading run of digits when
the remainder starts with a non-digit that is not the replacement character. -/
theorem intDigitsLoop_append {ds : List Char} (hds : ∀ x ∈ ds, isDigitCharacter x = true)
    {c : Char} (hc1 : isDigitCharacter c = false) (hc2 : c ≠ replacementChar)
    (t : List Char) : intDigitsLoop (ds ++ c :: t) = .ok (ds, c :: t) := by
  induction ds with
  | nil => simp [intDigitsLoop, hc1, hc2]
  | cons d dr ih =>
    have hd := hds d (by simp)
    have hfacts := digit_char_facts hd
    have ih2 := ih (fun x hx => hds x (by simp [hx]))
    simp [intDigitsLoop, hfacts.1, hd, ih2]

/-- The fraction digit loop, same consumption behavior. -/
theorem fracDigitsLoop_append {ds : List Char} (hds : ∀ x ∈ ds, isDigitCharacter x = true)
    {c : Char} (hc1 : isDigitCharacter c = false) (hc2 : c ≠ replacementChar)
    (t : List Char) : fracDigitsLoop (ds ++ c :: t) = .ok (ds, c :: t) := by
  induction ds with
  | nil => simp [fracDigitsLoop, hc1, hc2]
  | cons d dr ih =>
    have hd := hds d (by simp)
    have hfacts := digit_char_facts hd
    have ih2 := ih (fun x hx => hds x (by simp [hx]))
    simp [fracDigitsLoop, hfacts.1, hd, ih2]

/-- The exponent digit loop, same consumption behavior. -/
theorem expDigitsLoop_append {ds : List Char} (hds : ∀ x ∈ ds, isDigitCharacter x = true)
    {c : Char} (hc1 : isDigitCharacter c = false) (hc2 : c ≠ replacementChar)
    (t : List Char) : expDigitsLoop (ds ++ c :: t) = .ok (ds, c :: t) := by
  induction ds with
  | nil => simp [expDigitsLoop, hc1, hc2]
  | cons d dr ih =>
    have hd := hds d (by simp)
    have hfacts := digit_char_facts hd
    have ih2 := ih (fun x hx => hds x (by simp [hx]))
    simp [expDigitsLoop, hfacts.1, hd, ih2]

end GoJson

namespace GoJson

theorem numberBoundary_props {c : Char} (h : numberBoundary c = true) :
    isDigitCharacter c = false ∧ c ≠ '.' ∧ c ≠ 'e' ∧ c ≠ 'E' ∧ c ≠ replacementChar := by
  simp only [numberBoundary, Bool.and_eq_true, Bool.not_eq_true', decide_eq_false_iff_not]
  at h
  exact ⟨h.1.1.1.1, h.1.1.1.2, h.1.1.2, h.1.2, h.2⟩

/-- Shape of a successful integer-part match: a lone zero, or a nonzero
digit followed by a digit run, with the remainder not digit-headed. -/
theorem matchIntPart_decomp {N r1 : List Char} (h : matchIntPart N = some r1) :
    N = '0' :: r1 ∨
      ∃ d ds, N = d :: (ds ++ r1) ∧ isDigitCharacter d = true ∧ d ≠ '0' ∧
        (∀ x ∈ ds, isDigitCharacter x = true) ∧
        (∀ c cs, r1 = c :: cs → isDigitCharacter c = false) := by
  match N with
  | [] => simp [matchIntPart] at h
  | c :: rest =>
    simp only [matchIntPart] at h
    by_cases h0 : c = '0'
    · rw [if_pos h0] at h
      cases h
      exact Or.inl (by rw [h0])
    · rw [if_neg h0] at h
      by_cases hd : isDigitCharacter c = true
      · rw [if_pos hd] at h
        cases h
        refine Or.inr ⟨c, rest.takeWhile isDigitCharacter, ?_, hd, h0, ?_, ?_⟩
        · rw [List.takeWhile_append_dropWhile]
        · intro x hx
          exact List.mem_takeWhile_imp hx
        · intro a cs hcs
          simpa using dropWhile_head_false hcs
      · simp [hd] at h

/-- Shape of a successful fraction-part match: a dot with a nonempty digit
run, or nothing consumed (and then the list is not dot-headed). -/
theorem matchFracPart_decomp {r1 r2 : List Char} (h : matchFracPart r1 = some r2) :
    (∃ fds, r1 = '.' :: (fds ++ r2) ∧ fds ≠ [] ∧ (∀ x ∈ fds, isDigitCharacter x = true) ∧
      (∀ c cs, r2 = c :: cs → isDigitCharacter c = false)) ∨
    (r1 = r2 ∧ ∀ cs, r1 ≠ '.' :: cs) := by
  match r1 with
  | [] =>
    simp only [matchFracPart] at h
    cases h
    exact Or.inr ⟨rfl, by simp⟩
  | c :: rest =>
    by_cases hdot : c = '.'
    · subst hdot
      simp only [matchFracPart] at h
      by_cases he : (rest.takeWhile isDigitCharacter).isEmpty = true
      · simp [he] at h
      · rw [if_neg he] at h
        cases h
        refine Or.inl ⟨rest.takeWhile isDigitCharacter, ?_, ?_, ?_, ?_⟩
        · rw [List.takeWhile_append_dropWhile]
        · simpa [List.isEmpty_iff] using he
        · intro x hx
          exact List.mem_takeWhile_imp hx
        · intro a cs hcs
          simpa using dropWhile_head_false hcs
    · have heq : matchFracPart (c :: rest) = some (c :: rest) := by
        rw [matchFracPart.eq_def]
        split
        · rename_i heq2
          injection heq2 with h1 h2
          exact absurd h1 hdot
        · rfl
      rw [heq] at h
      cases h
      exact Or.inr ⟨rfl, fun cs hcs => hdot (by injection hcs)⟩

/-- Shape of a successful exponent-part match: an exponent marker, an
optional sign, and a nonempty digit run, or nothing consumed (and then the
list is not marker-headed). -/
theorem matchExpPart_decomp {r2 r3 : List Char} (h : matchExpPart r2 = some r3) :
    (∃ ec sn eds, r2 = ec :: (sn ++ (eds ++ r3)) ∧ (ec = 'e' ∨ ec = 'E') ∧
      (sn = [] ∨ sn = ['+'] ∨ sn = ['-']) ∧ eds ≠ [] ∧
      (∀ x ∈ eds, isDigitCharacter x = true) ∧
      (∀ c cs, r3 = c :: cs → isDigitCharacter c = false)) ∨
    (r2 = r3 ∧ ∀ c cs, r2 = c :: cs → c ≠ 'e' ∧ c ≠ 'E') := by
  match r2 with
  | [] =>
    simp only [matchExpPart] at h
    cases h
    exact Or.inr ⟨rfl, by simp⟩
  | c :: rest =>
    simp only [matchExpPart] at h
    by_cases hec : (c = 'e' || c = 'E') = true
    · rw [if_pos hec] at h
      match rest with
      | [] => simp at h
      | s :: rest1 =>
        simp only at h
        by_cases hsn : (s = '+' || s = '-') = true
        · rw [if_pos hsn] at h
          by_cases hemp : (rest1.takeWhile isDigitCharacter).isEmpty = true
          · simp [hemp] at h
          · rw [if_neg hemp] at h
            cases h
            refine Or.inl ⟨c, [s], rest1.takeWhile isDigitCharacter, ?_, ?_, ?_, ?_, ?_, ?_⟩
            · simp [List.takeWhile_append_dropWhile]
            · simpa using hec
            · rcases (by simpa using hsn : s = '+' ∨ s = '-') with h | h <;> simp [h]
            · simpa [List.isEmpty_iff] using hemp
            · intro x hx
              exact List.mem_takeWhile_imp hx
            · intro a cs hcs
              simpa using dropWhile_head_false hcs
        · rw [if_neg hsn] at h
          by_cases hemp : ((s :: rest1).takeWhile isDigitCharacter).isEmpty = true
          · simp [hemp] at h
          · rw [if_neg hemp] at h
            cases h
            refine Or.inl ⟨c, [], (s :: rest1).takeWhile isDigitCharacter, ?_, ?_, ?_, ?_, ?_, ?_⟩
            · simp [List.takeWhile_append_dropWhile]
            · simpa using hec
            · simp
            · simpa [List.isEmpty_iff] using hemp
            · intro x hx
              exact List.mem_takeWhile_imp hx
            · intro a cs hcs
              simpa using dropWhile_head_false hcs
    · rw [if_neg hec] at h
      cases h
      refine Or.inr ⟨rfl, fun a cs hcs => ?_⟩
      have : a = c := by injection hcs with h1 h2; exact h1.symm
      subst this
      constructor <;> (intro hx; subst hx; simp at hec)

end GoJson

namespace GoJson

/-- A list fully consumed by the exponent matcher is empty or starts with an
exponent marker. -/
theorem matchExpPart_nil_head {r2 : List Char} (h : matchExpPart r2 = some []) :
    r2 = [] ∨ ∃ cs, r2 = 'e' :: cs ∨ r2 = 'E' :: cs := by
  rcases matchExpPart_decomp h with ⟨ec, sn, eds, hr2, hec, _, _, _, _⟩ | ⟨hr2, _⟩
  · rcases hec with hec | hec <;> subst hec
    · exact Or.inr ⟨sn ++ (eds ++ []), Or.inl hr2⟩
    · exact Or.inr ⟨sn ++ (eds ++ []), Or.inr hr2⟩
  · exact Or.inl hr2

/-- The exponent stage of `extractNumber` consumes exactly the text the
exponent matcher accepts, up to a number boundary. -/
theorem numberExpPart_eval {r2 : List Char} (h : matchExpPart r2 = some [])
    {c0 : Char} (hb : numberBoundary c0 = true) (acc t : List Char) :
    numberExpPart acc (r2 ++ c0 :: t) = .ok (acc ++ r2, c0 :: t) := by
  obtain ⟨hnd, hndot, hne, hnE, hnr⟩ := numberBoundary_props hb
  rcases matchExpPart_decomp h with ⟨ec, sn, eds, hr2, hec, hsn, hne2, heds, _⟩ | ⟨hr2, _⟩
  · subst hr2
    match eds, hne2 with
    | d :: ds, _ =>
      have hd : isDigitCharacter d = true := heds d (by simp)
      obtain ⟨hdr, _, _, _, _, _, hdm, hdp, _, _, _⟩ := digit_char_facts hd
      have hloop : expDigitsLoop (ds ++ c0 :: t) = .ok (ds, c0 :: t) :=
        expDigitsLoop_append (fun x hx => heds x (by simp [hx])) hnd hnr t
      rcases hec with hec | hec <;> rcases hsn with hsn | hsn | hsn <;> subst hec <;>
        subst hsn <;>
        (rw [numberExpPart.eq_def]
         simp +decide [hdr, hdm, hdp, hd, hloop])
  · subst hr2
    rw [numberExpPart.eq_def]
    simp +decide [hnr, hne, hnE]

/-- The fraction-then-exponent stages of `extractNumber` consume exactly the
text the fraction and exponent matchers accept, up to a number boundary. -/
theorem numberFracPart_eval {r1 r2 : List Char} (hf : matchFracPart r1 = some r2)
    (he : matchExpPart r2 = some []) {c0 : Char} (hb : numberBoundary c0 = true)
    (acc t : List Char) :
    numberFracPart acc (r1 ++ c0 :: t) = .ok (acc ++ r1, c0 :: t) := by
  obtain ⟨hnd, hndot, hne, hnE, hnr⟩ := numberBoundary_props hb
  rcases matchFracPart_decomp hf with ⟨fds, hr1, hfne, hfds, _⟩ | ⟨hr1, hhd⟩
  · subst hr1
    have hfloop : fracDigitsLoop (fds ++ (r2 ++ c0 :: t)) = .ok (fds, r2 ++ c0 :: t) := by
      rcases matchExpPart_nil_head he with hr2 | ⟨cs, hr2 | hr2⟩ <;> subst hr2
      · exact fracDigitsLoop_append hfds hnd hnr t
      · exact fracDigitsLoop_append hfds (by decide) (by decide) (cs ++ c0 :: t)
      · exact fracDigitsLoop_append hfds (by decide) (by decide) (cs ++ c0 :: t)
    rw [numberFracPart.eq_def]
    simp +decide only [List.cons_append, List.append_assoc]
    simp only [hfloop]
    have := numberExpPart_eval he hb (acc ++ '.' :: fds) t
    rw [this]
    simp
  · subst hr1
    rcases matchExpPart_nil_head he with hr2 | ⟨cs, hr2 | hr2⟩ <;> subst hr2
    · rw [numberFracPart.eq_def]
      simp +decide [hnr, hndot]
      simpa using numberExpPart_eval he hb acc t
    all_goals
      rw [numberFracPart.eq_def]
      simp +decide only [List.cons_append]
      have := numberExpPart_eval he hb acc t
      simp +decide at this ⊢
      simp [this]

end GoJson

namespace GoJson

/-- A digit other than '0' passes the parser's 1..9 test. -/
theorem digit_ne_zero_range {d : Char} (h1 : isDigitCharacter d = true) (h2 : d ≠ '0') :
    ('1' ≤ d && d ≤ '9') = true := by
  simp only [isDigitCharacter, Bool.and_eq_true, decide_eq_true_eq] at h1 ⊢
  obtain ⟨ha, hb⟩ := h1
  refine ⟨?_, hb⟩
  have ha2 : (48 : Nat) ≤ d.val.toNat := ha
  have hne : d.val.toNat ≠ 48 := by
    intro hc
    exact h2 (Char.ext (UInt32.ext hc))
  show (49 : Nat) ≤ d.val.toNat
  omega

/-- `extractNumber` consumes exactly a grammar-matching (minus-free) number
and returns it verbatim, for any continuation starting at a number boundary. -/
theorem extractNumber_eval {N : List Char} (h : posNumberMatch N = true)
    {c0 : Char} (hb : numberBoundary c0 = true) (t : List Char) :
    extractNumber (N ++ c0 :: t) = .ok (N, c0 :: t) := by
  obtain ⟨hnd, hndot, hne, hnE, hnr⟩ := numberBoundary_props hb
  obtain ⟨r1, h1, r2, h2, h3⟩ :
      ∃ r1, matchIntPart N = some r1 ∧
        ∃ r2, matchFracPart r1 = some r2 ∧ matchExpPart r2 = some [] := by
    simp only [posNumberMatch] at h
    split at h
    · exact absurd h (by simp)
    · rename_i r1 h1
      split at h
      · exact absurd h (by simp)
      · rename_i r2 h2
        split at h
        · exact absurd h (by simp)
        · rename_i r3 h3
          have hr3 : r3 = [] := by simpa [List.isEmpty_iff] using h
          subst hr3
          exact ⟨r1, h1, r2, h2, h3⟩
  rcases matchIntPart_decomp h1 with hN | ⟨d, ds, hN, hdig, hne0, hds, hr1h⟩
  · subst hN
    rw [extractNumber.eq_def]
    simp +decide only [List.cons_append]
    have := numberFracPart_eval h2 h3 hb ['0'] t
    simp +decide [this]
  · subst hN
    have hdf := digit_char_facts hdig
    have hrange := digit_ne_zero_range hdig hne0
    have hloop : intDigitsLoop (ds ++ (r1 ++ c0 :: t)) = .ok (ds, r1 ++ c0 :: t) := by
      cases r1 with
      | nil => exact intDigitsLoop_append hds hnd hnr t
      | cons c cs =>
        have hcnd : isDigitCharacter c = false := hr1h c cs rfl
        have hcs : c = '.' ∨ c = 'e' ∨ c = 'E' := by
          rcases matchFracPart_decomp h2 with ⟨fds, hr1, _, _, _⟩ | ⟨hr1, _⟩
          · exact Or.inl (by injection hr1 with hh htl)
          · rcases matchExpPart_nil_head (hr1 ▸ h3) with hr2 | ⟨zs, hr2 | hr2⟩
            · exact absurd hr2 (by simp)
            · exact Or.inr (Or.inl (by injection hr2 with hh htl))
            · exact Or.inr (Or.inr (by injection hr2 with hh htl))
        have hcr : c ≠ replacementChar := by
          rcases hcs with hc | hc | hc <;> subst hc <;> decide
        exact intDigitsLoop_append hds hcnd hcr (cs ++ c0 :: t)
    rw [extractNumber.eq_def]
    simp +decide only [List.cons_append, List.append_assoc]
    have hfrac := numberFracPart_eval h2 h3 hb (d :: ds) t
    simp +decide [hdf.1, hdf.2.2.2.2.2.2.1, hne0, hrange, hloop, hfrac]

end GoJson

namespace GoJson

/-- A grammar-matching number is nonempty and starts with a digit. -/
theorem posNumberMatch_head {N : List Char} (h : posNumberMatch N = true) :
    ∃ n0 nr, N = n0 :: nr ∧ isDigitCharacter n0 = true := by
  have h1 : ∃ r1, matchIntPart N = some r1 := by
    simp only [posNumberMatch] at h
    split at h
    · exact absurd h (by simp)
    · rename_i r1 h1
      exact ⟨r1, h1⟩
  obtain ⟨r1, h1⟩ := h1
  rcases matchIntPart_decomp h1 with hN | ⟨d, ds, hN, hdig, _, _, _⟩
  · exact ⟨'0', r1, hN, by decide⟩
  · exact ⟨d, ds ++ r1, hN, hdig⟩

/-- `parseString` on the concrete literal `"x"` and any continuation. -/
theorem parseString_x (X : List Char) :
    parseString ('"' :: 'x' :: '"' :: X) = .ok (['x'], X) := by
  rw [parseString]
  simp +decide only []
  rw [parseStringLoop.eq_def]
  simp +decide
  rw [parseStringLoop.eq_def]
  simp +decide

/-- `skipWhitespace` leaves a non-whitespace head in place. -/
theorem skipWhitespace_nows {c : Char} (h1 : c ≠ replacementChar)
    (h2 : isWhitespaceCharacter c = false) (t : List Char) :
    skipWhitespace (c :: t) = .ok (c :: t) := by
  rw [skipWhitespace.eq_def]
  simp [h1, h2]

/-- The object-member loop on the single member `"x": N` with a
grammar-matching number N stores the lexical text N verbatim and stops at
the closing brace. -/
theorem parseObjectMembers_single_number {N : List Char} (h : posNumberMatch N = true)
    (fuel : Nat) :
    parseObjectMembers (fuel + 1) emptyObject
        ('"' :: 'x' :: '"' :: ':' :: (N ++ [rightBraceChar])) =
      .ok (emptyObject.SetNumber (str "x") N, []) := by
  obtain ⟨n0, nr, hN, hdig⟩ := posNumberMatch_head h
  have hdf := digit_char_facts hdig
  have hnum : extractNumber (N ++ [rightBraceChar]) = .ok (N, [rightBraceChar]) :=
    extractNumber_eval h (by decide) []
  have heq : N ++ [rightBraceChar] = n0 :: (nr ++ [rightBraceChar]) := by rw [hN]; rfl
  rw [heq] at hnum
  rw [parseObjectMembers.eq_def]
  rw [skipWhitespace_nows (by decide) (by decide)]
  simp +decide only [parseString_x]
  rw [skipWhitespace_nows (by decide) (by decide)]
  simp +decide only []
  rw [heq, skipWhitespace_nows hdf.1 hdf.2.1]
  simp +decide only [hdf.2.2.1, hdf.2.2.2.2.1, hdf.2.2.2.2.2.1, hdig, hnum, if_true,
    if_false]
  rw [skipWhitespace_nows (by decide) (by decide)]
  simp +decide
  rfl

/-- The embedded-object parser on `{"x":N}`. -/
theorem parseEmbeddedObject_x_number {N : List Char} (h : posNumberMatch N = true)
    (fuel : Nat) :
    parseEmbeddedObject (fuel + 2)
        (leftBraceChar :: '"' :: 'x' :: '"' :: ':' :: (N ++ [rightBraceChar])) =
      .ok (emptyObject.SetNumber (str "x") N, []) := by
  rw [parseEmbeddedObject.eq_def]
  rw [skipWhitespace_nows (by decide) (by decide)]
  simp +decide only []
  exact parseObjectMembers_single_number h fuel

/-- `ParseObject` on the full document `{"x":N}` yields the one-member
object storing the number text N. -/
theorem ParseObject_x_number {N : List Char} (h : posNumberMatch N = true) :
    ParseObject (str "\x7b\"x\":" ++ (N ++ str "\x7d")) =
      .ok (emptyObject.SetNumber (str "x") N) := by
  have hl : str "\x7b\"x\":" ++ (N ++ str "\x7d") =
      leftBraceChar :: '"' :: 'x' :: '"' :: ':' :: (N ++ [rightBraceChar]) := by
    simp [str, leftBraceChar, rightBraceChar]
  rw [ParseObject, hl]
  have hlen : (leftBraceChar :: '"' :: 'x' :: '"' :: ':' :: (N ++ [rightBraceChar])).length + 1 =
      (5 + N.length) + 2 := by
    simp
    omega
  rw [hlen, parseEmbeddedObject_x_number h (5 + N.length)]
  rfl

/-- C2, amended to number literals without a leading minus (see the
counterexample theorem: the parser's value dispatch sends a '-' to the
identifier parser, so a negative number literal never reaches
`extractNumber` and the parse fails): for every N matching
`(0|[1-9][0-9]*)(\.[0-9]+)?([eE][+-]?[0-9]+)?`, parsing the text `{"x":N}`
and then calling GetNumber("x") returns exactly the original lexical text N,
unmodified. In particular parsing `{"x":1.50}` then GetNumber("x") returns
"1.50" (the witness instantiates exactly that). -/
theorem c2_number_fidelity (N : List Char) (h : posNumberMatch N = true) :
    parseThenGetNumber (str "\x7b\"x\":" ++ (N ++ str "\x7d")) (str "x") = .ok N := by
  rw [parseThenGetNumber, ParseObject_x_number h]
  simp +decide [ObjectStruct.SetNumber, ObjectStruct.GetNumber, emptyObject,
    ObjectStruct.addKey, mapLookup, mapInsert, ObjectStruct.numbers, ObjectStruct.strings,
    ObjectStruct.bools, ObjectStruct.nulls, ObjectStruct.objects, ObjectStruct.arrays]


/-- Witness for C2 at N = "1.50": the parsed number text is returned
verbatim, not normalised to "1.5". -/
theorem c2_number_fidelity_witness :
    parseThenGetNumber (str "\x7b\"x\":" ++ (str "1.50" ++ str "\x7d")) (str "x") =
      .ok (str "1.50") :=
  c2_number_fidelity (str "1.50") (by decide)

/-- C2 counterexample: "-1" is a JSON number literal (it matches the full
number grammar), yet `ParseObject` fails on `{"x":-1}`: the value dispatch
only sends digit-headed tokens to `extractNumber`, so the '-' is parsed as
an identifier and rejected. -/
theorem c2_counterexample_negative_number :
    jsonNumberMatch (str "-1") = true ∧
      isError (ParseObject (str "\x7b\"x\":-1\x7d")) = true := by
  exact ⟨by decide, by decide⟩

end GoJson

namespace GoJson

/-- Looking up after an insert: the inserted key hits the new value, any other
key sees the old map. -/
theorem mapLookup_mapInsert [DecidableEq κ] (m : List (κ × α)) (k k2 : κ) (v : α) :
    mapLookup (mapInsert m k v) k2 = if k2 = k then some v else mapLookup m k2 := by
  induction m with
  | nil =>
    by_cases h : k2 = k
    · subst h; simp [mapInsert, mapLookup]
    · simp only [mapInsert, mapLookup, if_neg h, if_neg (fun hh : k = k2 => h hh.symm)]
  | cons p rest ih =>
    obtain ⟨k1, v1⟩ := p
    by_cases h1 : k1 = k
    · subst h1
      by_cases h2 : k2 = k1
      · subst h2; simp [mapInsert, mapLookup]
      · simp only [mapInsert, if_pos rfl, mapLookup,
          if_neg (fun hh : k1 = k2 => h2 hh.symm), if_neg h2]
    · simp only [mapInsert, if_neg h1, mapLookup]
      by_cases h2 : k1 = k2
      · subst h2
        simp [h1]
      · simp [h2, ih]

/-- `Has` is false exactly when all six kind maps miss the key. -/
theorem ObjectStruct.has_false_parts {o : ObjectStruct} {k : List Char}
    (h : o.Has k = false) :
    (mapLookup o.strings k).isSome = false ∧ (mapLookup o.numbers k).isSome = false ∧
    (mapLookup o.bools k).isSome = false ∧ (mapLookup o.nulls k).isSome = false ∧
    (mapLookup o.objects k).isSome = false ∧ (mapLookup o.arrays k).isSome = false := by
  simp only [ObjectStruct.Has, Bool.or_eq_false_iff] at h
  exact ⟨h.1.1.1.1.1, h.1.1.1.1.2, h.1.1.1.2, h.1.1.2, h.1.2, h.2⟩

/-- Setting a string under a key the object does not have: the key list grows
by the key, the strings map gains the binding, everything else is unchanged. -/
theorem ObjectStruct.SetString_fresh (o : ObjectStruct) (k v : List Char)
    (h : o.Has k = false) :
    o.SetString k v = .mk (mapInsert o.strings k v) o.numbers o.bools o.nulls o.objects
      o.arrays (o.keys ++ [k]) := by
  obtain ⟨h1, h2, h3, h4, h5, h6⟩ := ObjectStruct.has_false_parts h
  cases o with
  | mk ss ns bs us os ars ks =>
    simp only [ObjectStruct.strings, ObjectStruct.numbers, ObjectStruct.bools,
      ObjectStruct.nulls, ObjectStruct.objects, ObjectStruct.arrays, ObjectStruct.keys]
      at h1 h2 h3 h4 h5 h6 ⊢
    simp [ObjectStruct.SetString, ObjectStruct.addKey, h1, h2, h3, h4, h5, h6]

/-- `SetNumber` on a fresh key. -/
theorem ObjectStruct.SetNumber_fresh (o : ObjectStruct) (k v : List Char)
    (h : o.Has k = false) :
    o.SetNumber k v = .mk o.strings (mapInsert o.numbers k v) o.bools o.nulls o.objects
      o.arrays (o.keys ++ [k]) := by
  obtain ⟨h1, h2, h3, h4, h5, h6⟩ := ObjectStruct.has_false_parts h
  cases o with
  | mk ss ns bs us os ars ks =>
    simp only [ObjectStruct.strings, ObjectStruct.numbers, ObjectStruct.bools,
      ObjectStruct.nulls, ObjectStruct.objects, ObjectStruct.arrays, ObjectStruct.keys]
      at h1 h2 h3 h4 h5 h6 ⊢
    simp [ObjectStruct.SetNumber, ObjectStruct.addKey, h1, h2, h3, h4, h5, h6]

/-- `SetBool` on a fresh key. -/
theorem ObjectStruct.SetBool_fresh (o : ObjectStruct) (k : List Char) (v : Bool)
    (h : o.Has k = false) :
    o.SetBool k v = .mk o.strings o.numbers (mapInsert o.bools k v) o.nulls o.objects
      o.arrays (o.keys ++ [k]) := by
  obtain ⟨h1, h2, h3, h4, h5, h6⟩ := ObjectStruct.has_false_parts h
  cases o with
  | mk ss ns bs us os ars ks =>
    simp only [ObjectStruct.strings, ObjectStruct.numbers, ObjectStruct.bools,
      ObjectStruct.nulls, ObjectStruct.objects, ObjectStruct.arrays, ObjectStruct.keys]
      at h1 h2 h3 h4 h5 h6 ⊢
    simp [ObjectStruct.SetBool, ObjectStruct.addKey, h1, h2, h3, h4, h5, h6]

/-- `SetNull` on a fresh key. -/
theorem ObjectStruct.SetNull_fresh (o : ObjectStruct) (k : List Char)
    (h : o.Has k = false) :
    o.SetNull k = .mk o.strings o.numbers o.bools (mapInsert o.nulls k ()) o.objects
      o.arrays (o.keys ++ [k]) := by
  obtain ⟨h1, h2, h3, h4, h5, h6⟩ := ObjectStruct.has_false_parts h
  cases o with
  | mk ss ns bs us os ars ks =>
    simp only [ObjectStruct.strings, ObjectStruct.numbers, ObjectStruct.bools,
      ObjectStruct.nulls, ObjectStruct.objects, ObjectStruct.arrays, ObjectStruct.keys]
      at h1 h2 h3 h4 h5 h6 ⊢
    simp [ObjectStruct.SetNull, ObjectStruct.addKey, h1, h2, h3, h4, h5, h6]

/-- `SetJSONObject` on a fresh key. -/
theorem ObjectStruct.SetJSONObject_fresh (o : ObjectStruct) (k : List Char)
    (v : ObjectStruct) (h : o.Has k = false) :
    o.SetJSONObject k v = .mk o.strings o.numbers o.bools o.nulls
      (mapInsert o.objects k v) o.arrays (o.keys ++ [k]) := by
  obtain ⟨h1, h2, h3, h4, h5, h6⟩ := ObjectStruct.has_false_parts h
  cases o with
  | mk ss ns bs us os ars ks =>
    simp only [ObjectStruct.strings, ObjectStruct.numbers, ObjectStruct.bools,
      ObjectStruct.nulls, ObjectStruct.objects, ObjectStruct.arrays, ObjectStruct.keys]
      at h1 h2 h3 h4 h5 h6 ⊢
    simp [ObjectStruct.SetJSONObject, ObjectStruct.addKey, h1, h2, h3, h4, h5, h6]

/-- `SetJSONArray` on a fresh key. -/
theorem ObjectStruct.SetJSONArray_fresh (o : ObjectStruct) (k : List Char)
    (v : ArrayStruct) (h : o.Has k = false) :
    o.SetJSONArray k v = .mk o.strings o.numbers o.bools o.nulls o.objects
      (mapInsert o.arrays k v) (o.keys ++ [k]) := by
  obtain ⟨h1, h2, h3, h4, h5, h6⟩ := ObjectStruct.has_false_parts h
  cases o with
  | mk ss ns bs us os ars ks =>
    simp only [ObjectStruct.strings, ObjectStruct.numbers, ObjectStruct.bools,
      ObjectStruct.nulls, ObjectStruct.objects, ObjectStruct.arrays, ObjectStruct.keys]
      at h1 h2 h3 h4 h5 h6 ⊢
    simp [ObjectStruct.SetJSONArray, ObjectStruct.addKey, h1, h2, h3, h4, h5, h6]

/-- `AddString` in field form. -/
theorem ArrayStruct.AddString_fields (a : ArrayStruct) (v : List Char) :
    a.AddString v = .mk (mapInsert a.strings a.length v) a.numbers a.bools a.nulls
      a.objects a.arrays (a.length + 1) := by
  cases a with
  | mk ss ns bs us os ars len => rfl

/-- `AddNumber` in field form. -/
theorem ArrayStruct.AddNumber_fields (a : ArrayStruct) (v : List Char) :
    a.AddNumber v = .mk a.strings (mapInsert a.numbers a.length v) a.bools a.nulls
      a.objects a.arrays (a.length + 1) := by
  cases a with
  | mk ss ns bs us os ars len => rfl

/-- `AddBool` in field form. -/
theorem ArrayStruct.AddBool_fields (a : ArrayStruct) (v : Bool) :
    a.AddBool v = .mk a.strings a.numbers (mapInsert a.bools a.length v) a.nulls
      a.objects a.arrays (a.length + 1) := by
  cases a with
  | mk ss ns bs us os ars len => rfl

/-- `AddNull` in field form. -/
theorem ArrayStruct.AddNull_fields (a : ArrayStruct) :
    a.AddNull = .mk a.strings a.numbers a.bools (mapInsert a.nulls a.length ())
      a.objects a.arrays (a.length + 1) := by
  cases a with
  | mk ss ns bs us os ars len => rfl

/-- `AddJSONObject` in field form. -/
theorem ArrayStruct.AddJSONObject_fields (a : ArrayStruct) (v : ObjectStruct) :
    a.AddJSONObject v = .mk a.strings a.numbers a.bools a.nulls
      (mapInsert a.objects a.length v) a.arrays (a.length + 1) := by
  cases a with
  | mk ss ns bs us os ars len => rfl

/-- `AddJSONArray` in field form. -/
theorem ArrayStruct.AddJSONArray_fields (a : ArrayStruct) (v : ArrayStruct) :
    a.AddJSONArray v = .mk a.strings a.numbers a.bools a.nulls a.objects
      (mapInsert a.arrays a.length v) (a.length + 1) := by
  cases a with
  | mk ss ns bs us os ars len => rfl

/-- Projection of a literal object. -/
theorem objStrings_mk (ss : List (List Char × List Char)) (ns bs us os ars ks) :
    (ObjectStruct.mk ss ns bs us os ars ks).strings = ss := rfl

/-- Projection of a literal object. -/
theorem objNumbers_mk (ss : List (List Char × List Char)) (ns bs us os ars ks) :
    (ObjectStruct.mk ss ns bs us os ars ks).numbers = ns := rfl

/-- Projection of a literal object. -/
theorem objBools_mk (ss : List (List Char × List Char)) (ns bs us os ars ks) :
    (ObjectStruct.mk ss ns bs us os ars ks).bools = bs := rfl

/-- Projection of a literal object. -/
theorem objNulls_mk (ss : List (List Char × List Char)) (ns bs us os ars ks) :
    (ObjectStruct.mk ss ns bs us os ars ks).nulls = us := rfl

/-- Projection of a literal object. -/
theorem objObjects_mk (ss : List (List Char × List Char)) (ns bs us os ars ks) :
    (ObjectStruct.mk ss ns bs us os ars ks).objects = os := rfl

/-- Projection of a literal object. -/
theorem objArrays_mk (ss : List (List Char × List Char)) (ns bs us os ars ks) :
    (ObjectStruct.mk ss ns bs us os ars ks).arrays = ars := rfl

/-- Projection of a literal object. -/
theorem objKeys_mk (ss : List (List Char × List Char)) (ns bs us os ars ks) :
    (ObjectStruct.mk ss ns bs us os ars ks).keys = ks := rfl

/-- Projection of a literal array. -/
theorem arrStrings_mk (ss : List (Int × List Char)) (ns bs us os ars len) :
    (ArrayStruct.mk ss ns bs us os ars len).strings = ss := rfl

/-- Projection of a literal array. -/
theorem arrNumbers_mk (ss : List (Int × List Char)) (ns bs us os ars len) :
    (ArrayStruct.mk ss ns bs us os ars len).numbers = ns := rfl

/-- Projection of a literal array. -/
theorem arrBools_mk (ss : List (Int × List Char)) (ns bs us os ars len) :
    (ArrayStruct.mk ss ns bs us os ars len).bools = bs := rfl

/-- Projection of a literal array. -/
theorem arrNulls_mk (ss : List (Int × List Char)) (ns bs us os ars len) :
    (ArrayStruct.mk ss ns bs us os ars len).nulls = us := rfl

/-- Projection of a literal array. -/
theorem arrObjects_mk (ss : List (Int × List Char)) (ns bs us os ars len) :
    (ArrayStruct.mk ss ns bs us os ars len).objects = os := rfl

/-- Projection of a literal array. -/
theorem arrArrays_mk (ss : List (Int × List Char)) (ns bs us os ars len) :
    (ArrayStruct.mk ss ns bs us os ars len).arrays = ars := rfl

/-- Projection of a literal array. -/
theorem arrLength_mk (ss : List (Int × List Char)) (ns bs us os ars len) :
    (ArrayStruct.mk ss ns bs us os ars len).length = len := rfl

/-- A key outside `done` is absent from the partial object entirely. -/
theorem ObjRestrict.has_false {o : ObjectStruct} {done : List (List Char)}
    {o2 : ObjectStruct} (h : ObjRestrict o done o2) {k : List Char}
    (hk : ¬ k ∈ done) : o2.Has k = false := by
  simp [ObjectStruct.Has, h.str_out k hk, h.num_out k hk, h.bool_out k hk,
    h.null_out k hk, h.obj_out k hk, h.arr_out k hk]

/-- The loop starts from the zero object, which restricts any model to no
keys. -/
theorem ObjRestrict.objInit (o : ObjectStruct) : ObjRestrict o [] emptyObject := by
  refine ⟨rfl, ?_, ?_, ?_, ?_, ?_, ?_, ?_, ?_, ?_, ?_, ?_, ?_, ?_, ?_⟩ <;>
    intro k <;> simp [emptyObject, ObjectStruct.strings, ObjectStruct.numbers,
      ObjectStruct.bools, ObjectStruct.nulls, ObjectStruct.objects, ObjectStruct.arrays,
      mapLookup]

/-- The loop starts from the zero array, which restricts any model to no
elements. -/
theorem ArrRestrict.arrInit (a : ArrayStruct) : ArrRestrict a 0 NewArray := by
  refine ⟨le_refl 0, rfl, ?_, ?_, ?_, ?_, ?_, ?_, ?_, ?_, ?_, ?_, ?_, ?_, ?_, ?_⟩ <;>
    intro i <;> simp [NewArray, ArrayStruct.strings, ArrayStruct.numbers,
      ArrayStruct.bools, ArrayStruct.nulls, ArrayStruct.objects, ArrayStruct.arrays,
      mapLookup] <;> omega

/-- Processing one string member extends the invariant by its key. -/
theorem ObjRestrict.objStepString {o : ObjectStruct} {done : List (List Char)}
    {o2 : ObjectStruct} (h : ObjRestrict o done o2) {k v : List Char}
    (hk : ¬ k ∈ done) (hv : mapLookup o.strings k = some v)
    (h2 : mapLookup o.numbers k = none) (h3 : mapLookup o.bools k = none)
    (h4 : mapLookup o.nulls k = none) (h5 : mapLookup o.objects k = none)
    (h6 : mapLookup o.arrays k = none) :
    ObjRestrict o (done ++ [k]) (o2.SetString k v) := by
  rw [ObjectStruct.SetString_fresh o2 k v (h.has_false hk)]
  refine ⟨?_, ?_, ?_, ?_, ?_, ?_, ?_, ?_, ?_, ?_, ?_, ?_, ?_, ?_, ?_⟩ <;>
    simp only [objStrings_mk, objNumbers_mk, objBools_mk,
      objNulls_mk, objObjects_mk, objArrays_mk,
      objKeys_mk]
  · rw [h.keys_eq]
  · intro k2 hk2
    rw [mapLookup_mapInsert]
    rcases (by simpa using hk2 : k2 ∈ done ∨ k2 = k) with hin | heq
    · rw [if_neg (fun hh : k2 = k => hk (hh ▸ hin)), h.str_mem k2 hin]
    · subst heq; rw [if_pos rfl, hv]
  · intro k2 hk2
    rcases (by simpa using hk2 : k2 ∈ done ∨ k2 = k) with hin | heq
    · exact h.num_mem k2 hin
    · subst heq; rw [h.num_out k2 hk, h2]
  · intro k2 hk2
    rcases (by simpa using hk2 : k2 ∈ done ∨ k2 = k) with hin | heq
    · exact h.bool_mem k2 hin
    · subst heq; rw [h.bool_out k2 hk, h3]
  · intro k2 hk2
    rcases (by simpa using hk2 : k2 ∈ done ∨ k2 = k) with hin | heq
    · exact h.null_mem k2 hin
    · subst heq; rw [h.null_out k2 hk, h4]
  · intro k2 hk2
    rcases (by simpa using hk2 : k2 ∈ done ∨ k2 = k) with hin | heq
    · exact h.obj_some k2 hin
    · subst heq; rw [h.obj_out k2 hk, h5]
  · intro k2 v2 hk2 hv2
    rcases (by simpa using hk2 : k2 ∈ done ∨ k2 = k) with hin | heq
    · exact h.obj_mem k2 v2 hin hv2
    · subst heq; rw [h.obj_out k2 hk] at hv2; exact absurd hv2 (by simp)
  · intro k2 hk2
    rcases (by simpa using hk2 : k2 ∈ done ∨ k2 = k) with hin | heq
    · exact h.arr_some k2 hin
    · subst heq; rw [h.arr_out k2 hk, h6]
  · intro k2 v2 hk2 hv2
    rcases (by simpa using hk2 : k2 ∈ done ∨ k2 = k) with hin | heq
    · exact h.arr_mem k2 v2 hin hv2
    · subst heq; rw [h.arr_out k2 hk] at hv2; exact absurd hv2 (by simp)
  · intro k2 hk2
    have hout : ¬ k2 ∈ done ∧ ¬ k2 = k := by
      constructor <;> intro hh <;> exact hk2 (by simp [hh])
    rw [mapLookup_mapInsert, if_neg hout.2, h.str_out k2 hout.1]
  · intro k2 hk2
    have hout : ¬ k2 ∈ done ∧ ¬ k2 = k := by
      constructor <;> intro hh <;> exact hk2 (by simp [hh])
    exact h.num_out k2 hout.1
  · intro k2 hk2
    have hout : ¬ k2 ∈ done ∧ ¬ k2 = k := by
      constructor <;> intro hh <;> exact hk2 (by simp [hh])
    exact h.bool_out k2 hout.1
  · intro k2 hk2
    have hout : ¬ k2 ∈ done ∧ ¬ k2 = k := by
      constructor <;> intro hh <;> exact hk2 (by simp [hh])
    exact h.null_out k2 hout.1
  · intro k2 hk2
    have hout : ¬ k2 ∈ done ∧ ¬ k2 = k := by
      constructor <;> intro hh <;> exact hk2 (by simp [hh])
    exact h.obj_out k2 hout.1
  · intro k2 hk2
    have hout : ¬ k2 ∈ done ∧ ¬ k2 = k := by
      constructor <;> intro hh <;> exact hk2 (by simp [hh])
    exact h.arr_out k2 hout.1

/-- Processing one number member extends the invariant by its key. -/
theorem ObjRestrict.objStepNumber {o : ObjectStruct} {done : List (List Char)}
    {o2 : ObjectStruct} (h : ObjRestrict o done o2) {k v : List Char}
    (hk : ¬ k ∈ done) (hv : mapLookup o.numbers k = some v)
    (h1 : mapLookup o.strings k = none) (h3 : mapLookup o.bools k = none)
    (h4 : mapLookup o.nulls k = none) (h5 : mapLookup o.objects k = none)
    (h6 : mapLookup o.arrays k = none) :
    ObjRestrict o (done ++ [k]) (o2.SetNumber k v) := by
  rw [ObjectStruct.SetNumber_fresh o2 k v (h.has_false hk)]
  refine ⟨?_, ?_, ?_, ?_, ?_, ?_, ?_, ?_, ?_, ?_, ?_, ?_, ?_, ?_, ?_⟩ <;>
    simp only [objStrings_mk, objNumbers_mk, objBools_mk,
      objNulls_mk, objObjects_mk, objArrays_mk,
      objKeys_mk]
  · rw [h.keys_eq]
  · intro k2 hk2
    rcases (by simpa using hk2 : k2 ∈ done ∨ k2 = k) with hin | heq
    · exact h.str_mem k2 hin
    · subst heq; rw [h.str_out k2 hk, h1]
  · intro k2 hk2
    rw [mapLookup_mapInsert]
    rcases (by simpa using hk2 : k2 ∈ done ∨ k2 = k) with hin | heq
    · rw [if_neg (fun hh : k2 = k => hk (hh ▸ hin)), h.num_mem k2 hin]
    · subst heq; rw [if_pos rfl, hv]
  · intro k2 hk2
    rcases (by simpa using hk2 : k2 ∈ done ∨ k2 = k) with hin | heq
    · exact h.bool_mem k2 hin
    · subst heq; rw [h.bool_out k2 hk, h3]
  · intro k2 hk2
    rcases (by simpa using hk2 : k2 ∈ done ∨ k2 = k) with hin | heq
    · exact h.null_mem k2 hin
    · subst heq; rw [h.null_out k2 hk, h4]
  · intro k2 hk2
    rcases (by simpa using hk2 : k2 ∈ done ∨ k2 = k) with hin | heq
    · exact h.obj_some k2 hin
    · subst heq; rw [h.obj_out k2 hk, h5]
  · intro k2 v2 hk2 hv2
    rcases (by simpa using hk2 : k2 ∈ done ∨ k2 = k) with hin | heq
    · exact h.obj_mem k2 v2 hin hv2
    · subst heq; rw [h.obj_out k2 hk] at hv2; exact absurd hv2 (by simp)
  · intro k2 hk2
    rcases (by simpa using hk2 : k2 ∈ done ∨ k2 = k) with hin | heq
    · exact h.arr_some k2 hin
    · subst heq; rw [h.arr_out k2 hk, h6]
  · intro k2 v2 hk2 hv2
    rcases (by simpa using hk2 : k2 ∈ done ∨ k2 = k) with hin | heq
    · exact h.arr_mem k2 v2 hin hv2
    · subst heq; rw [h.arr_out k2 hk] at hv2; exact absurd hv2 (by simp)
  · intro k2 hk2
    have hout : ¬ k2 ∈ done ∧ ¬ k2 = k := by
      constructor <;> intro hh <;> exact hk2 (by simp [hh])
    exact h.str_out k2 hout.1
  · intro k2 hk2
    have hout : ¬ k2 ∈ done ∧ ¬ k2 = k := by
      constructor <;> intro hh <;> exact hk2 (by simp [hh])
    rw [mapLookup_mapInsert, if_neg hout.2, h.num_out k2 hout.1]
  · intro k2 hk2
    have hout : ¬ k2 ∈ done ∧ ¬ k2 = k := by
      constructor <;> intro hh <;> exact hk2 (by simp [hh])
    exact h.bool_out k2 hout.1
  · intro k2 hk2
    have hout : ¬ k2 ∈ done ∧ ¬ k2 = k := by
      constructor <;> intro hh <;> exact hk2 (by simp [hh])
    exact h.null_out k2 hout.1
  · intro k2 hk2
    have hout : ¬ k2 ∈ done ∧ ¬ k2 = k := by
      constructor <;> intro hh <;> exact hk2 (by simp [hh])
    exact h.obj_out k2 hout.1
  · intro k2 hk2
    have hout : ¬ k2 ∈ done ∧ ¬ k2 = k := by
      constructor <;> intro hh <;> exact hk2 (by simp [hh])
    exact h.arr_out k2 hout.1

/-- Processing one boolean member extends the invariant by its key. -/
theorem ObjRestrict.objStepBool {o : ObjectStruct} {done : List (List Char)}
    {o2 : ObjectStruct} (h : ObjRestrict o done o2) {k : List Char} {v : Bool}
    (hk : ¬ k ∈ done) (hv : mapLookup o.bools k = some v)
    (h1 : mapLookup o.strings k = none) (h2 : mapLookup o.numbers k = none)
    (h4 : mapLookup o.nulls k = none) (h5 : mapLookup o.objects k = none)
    (h6 : mapLookup o.arrays k = none) :
    ObjRestrict o (done ++ [k]) (o2.SetBool k v) := by
  rw [ObjectStruct.SetBool_fresh o2 k v (h.has_false hk)]
  refine ⟨?_, ?_, ?_, ?_, ?_, ?_, ?_, ?_, ?_, ?_, ?_, ?_, ?_, ?_, ?_⟩ <;>
    simp only [objStrings_mk, objNumbers_mk, objBools_mk,
      objNulls_mk, objObjects_mk, objArrays_mk,
      objKeys_mk]
  · rw [h.keys_eq]
  · intro k2 hk2
    rcases (by simpa using hk2 : k2 ∈ done ∨ k2 = k) with hin | heq
    · exact h.str_mem k2 hin
    · subst heq; rw [h.str_out k2 hk, h1]
  · intro k2 hk2
    rcases (by simpa using hk2 : k2 ∈ done ∨ k2 = k) with hin | heq
    · exact h.num_mem k2 hin
    · subst heq; rw [h.num_out k2 hk, h2]
  · intro k2 hk2
    rw [mapLookup_mapInsert]
    rcases (by simpa using hk2 : k2 ∈ done ∨ k2 = k) with hin | heq
    · rw [if_neg (fun hh : k2 = k => hk (hh ▸ hin)), h.bool_mem k2 hin]
    · subst heq; rw [if_pos rfl, hv]
  · intro k2 hk2
    rcases (by simpa using hk2 : k2 ∈ done ∨ k2 = k) with hin | heq
    · exact h.null_mem k2 hin
    · subst heq; rw [h.null_out k2 hk, h4]
  · intro k2 hk2
    rcases (by simpa using hk2 : k2 ∈ done ∨ k2 = k) with hin | heq
    · exact h.obj_some k2 hin
    · subst heq; rw [h.obj_out k2 hk, h5]
  · intro k2 v2 hk2 hv2
    rcases (by simpa using hk2 : k2 ∈ done ∨ k2 = k) with hin | heq
    · exact h.obj_mem k2 v2 hin hv2
    · subst heq; rw [h.obj_out k2 hk] at hv2; exact absurd hv2 (by simp)
  · intro k2 hk2
    rcases (by simpa using hk2 : k2 ∈ done ∨ k2 = k) with hin | heq
    · exact h.arr_some k2 hin
    · subst heq; rw [h.arr_out k2 hk, h6]
  · intro k2 v2 hk2 hv2
    rcases (by simpa using hk2 : k2 ∈ done ∨ k2 = k) with hin | heq
    · exact h.arr_mem k2 v2 hin hv2
    · subst heq; rw [h.arr_out k2 hk] at hv2; exact absurd hv2 (by simp)
  · intro k2 hk2
    have hout : ¬ k2 ∈ done ∧ ¬ k2 = k := by
      constructor <;> intro hh <;> exact hk2 (by simp [hh])
    exact h.str_out k2 hout.1
  · intro k2 hk2
    have hout : ¬ k2 ∈ done ∧ ¬ k2 = k := by
      constructor <;> intro hh <;> exact hk2 (by simp [hh])
    exact h.num_out k2 hout.1
  · intro k2 hk2
    have hout : ¬ k2 ∈ done ∧ ¬ k2 = k := by
      constructor <;> intro hh <;> exact hk2 (by simp [hh])
    rw [mapLookup_mapInsert, if_neg hout.2, h.bool_out k2 hout.1]
  · intro k2 hk2
    have hout : ¬ k2 ∈ done ∧ ¬ k2 = k := by
      constructor <;> intro hh <;> exact hk2 (by simp [hh])
    exact h.null_out k2 hout.1
  · intro k2 hk2
    have hout : ¬ k2 ∈ done ∧ ¬ k2 = k := by
      constructor <;> intro hh <;> exact hk2 (by simp [hh])
    exact h.obj_out k2 hout.1
  · intro k2 hk2
    have hout : ¬ k2 ∈ done ∧ ¬ k2 = k := by
      constructor <;> intro hh <;> exact hk2 (by simp [hh])
    exact h.arr_out k2 hout.1

/-- Processing one null member extends the invariant by its key. -/
theorem ObjRestrict.objStepNull {o : ObjectStruct} {done : List (List Char)}
    {o2 : ObjectStruct} (h : ObjRestrict o done o2) {k : List Char}
    (hk : ¬ k ∈ done) (hv : mapLookup o.nulls k = some ())
    (h1 : mapLookup o.strings k = none) (h2 : mapLookup o.numbers k = none)
    (h3 : mapLookup o.bools k = none) (h5 : mapLookup o.objects k = none)
    (h6 : mapLookup o.arrays k = none) :
    ObjRestrict o (done ++ [k]) (o2.SetNull k) := by
  rw [ObjectStruct.SetNull_fresh o2 k (h.has_false hk)]
  refine ⟨?_, ?_, ?_, ?_, ?_, ?_, ?_, ?_, ?_, ?_, ?_, ?_, ?_, ?_, ?_⟩ <;>
    simp only [objStrings_mk, objNumbers_mk, objBools_mk,
      objNulls_mk, objObjects_mk, objArrays_mk,
      objKeys_mk]
  · rw [h.keys_eq]
  · intro k2 hk2
    rcases (by simpa using hk2 : k2 ∈ done ∨ k2 = k) with hin | heq
    · exact h.str_mem k2 hin
    · subst heq; rw [h.str_out k2 hk, h1]
  · intro k2 hk2
    rcases (by simpa using hk2 : k2 ∈ done ∨ k2 = k) with hin | heq
    · exact h.num_mem k2 hin
    · subst heq; rw [h.num_out k2 hk, h2]
  · intro k2 hk2
    rcases (by simpa using hk2 : k2 ∈ done ∨ k2 = k) with hin | heq
    · exact h.bool_mem k2 hin
    · subst heq; rw [h.bool_out k2 hk, h3]
  · intro k2 hk2
    rw [mapLookup_mapInsert]
    rcases (by simpa using hk2 : k2 ∈ done ∨ k2 = k) with hin | heq
    · rw [if_neg (fun hh : k2 = k => hk (hh ▸ hin)), h.null_mem k2 hin]
    · subst heq; rw [if_pos rfl, hv]
  · intro k2 hk2
    rcases (by simpa using hk2 : k2 ∈ done ∨ k2 = k) with hin | heq
    · exact h.obj_some k2 hin
    · subst heq; rw [h.obj_out k2 hk, h5]
  · intro k2 v2 hk2 hv2
    rcases (by simpa using hk2 : k2 ∈ done ∨ k2 = k) with hin | heq
    · exact h.obj_mem k2 v2 hin hv2
    · subst heq; rw [h.obj_out k2 hk] at hv2; exact absurd hv2 (by simp)
  · intro k2 hk2
    rcases (by simpa using hk2 : k2 ∈ done ∨ k2 = k) with hin | heq
    · exact h.arr_some k2 hin
    · subst heq; rw [h.arr_out k2 hk, h6]
  · intro k2 v2 hk2 hv2
    rcases (by simpa using hk2 : k2 ∈ done ∨ k2 = k) with hin | heq
    · exact h.arr_mem k2 v2 hin hv2
    · subst heq; rw [h.arr_out k2 hk] at hv2; exact absurd hv2 (by simp)
  · intro k2 hk2
    have hout : ¬ k2 ∈ done ∧ ¬ k2 = k := by
      constructor <;> intro hh <;> exact hk2 (by simp [hh])
    exact h.str_out k2 hout.1
  · intro k2 hk2
    have hout : ¬ k2 ∈ done ∧ ¬ k2 = k := by
      constructor <;> intro hh <;> exact hk2 (by simp [hh])
    exact h.num_out k2 hout.1
  · intro k2 hk2
    have hout : ¬ k2 ∈ done ∧ ¬ k2 = k := by
      constructor <;> intro hh <;> exact hk2 (by simp [hh])
    exact h.bool_out k2 hout.1
  · intro k2 hk2
    have hout : ¬ k2 ∈ done ∧ ¬ k2 = k := by
      constructor <;> intro hh <;> exact hk2 (by simp [hh])
    rw [mapLookup_mapInsert, if_neg hout.2, h.null_out k2 hout.1]
  · intro k2 hk2
    have hout : ¬ k2 ∈ done ∧ ¬ k2 = k := by
      constructor <;> intro hh <;> exact hk2 (by simp [hh])
    exact h.obj_out k2 hout.1
  · intro k2 hk2
    have hout : ¬ k2 ∈ done ∧ ¬ k2 = k := by
      constructor <;> intro hh <;> exact hk2 (by simp [hh])
    exact h.arr_out k2 hout.1

/-- Processing one nested-object member extends the invariant by its key,
storing any object equivalent to the model's value. -/
theorem ObjRestrict.objStepObject {o : ObjectStruct} {done : List (List Char)}
    {o2 : ObjectStruct} (h : ObjRestrict o done o2) {k : List Char}
    {v1 v2 : ObjectStruct}
    (hk : ¬ k ∈ done) (hv : mapLookup o.objects k = some v1) (he : ObjEquiv v1 v2)
    (h1 : mapLookup o.strings k = none) (h2 : mapLookup o.numbers k = none)
    (h3 : mapLookup o.bools k = none) (h4 : mapLookup o.nulls k = none)
    (h6 : mapLookup o.arrays k = none) :
    ObjRestrict o (done ++ [k]) (o2.SetJSONObject k v2) := by
  rw [ObjectStruct.SetJSONObject_fresh o2 k v2 (h.has_false hk)]
  refine ⟨?_, ?_, ?_, ?_, ?_, ?_, ?_, ?_, ?_, ?_, ?_, ?_, ?_, ?_, ?_⟩ <;>
    simp only [objStrings_mk, objNumbers_mk, objBools_mk,
      objNulls_mk, objObjects_mk, objArrays_mk,
      objKeys_mk]
  · rw [h.keys_eq]
  · intro k2 hk2
    rcases (by simpa using hk2 : k2 ∈ done ∨ k2 = k) with hin | heq
    · exact h.str_mem k2 hin
    · subst heq; rw [h.str_out k2 hk, h1]
  · intro k2 hk2
    rcases (by simpa using hk2 : k2 ∈ done ∨ k2 = k) with hin | heq
    · exact h.num_mem k2 hin
    · subst heq; rw [h.num_out k2 hk, h2]
  · intro k2 hk2
    rcases (by simpa using hk2 : k2 ∈ done ∨ k2 = k) with hin | heq
    · exact h.bool_mem k2 hin
    · subst heq; rw [h.bool_out k2 hk, h3]
  · intro k2 hk2
    rcases (by simpa using hk2 : k2 ∈ done ∨ k2 = k) with hin | heq
    · exact h.null_mem k2 hin
    · subst heq; rw [h.null_out k2 hk, h4]
  · intro k2 hk2
    rw [mapLookup_mapInsert]
    rcases (by simpa using hk2 : k2 ∈ done ∨ k2 = k) with hin | heq
    · rw [if_neg (fun hh : k2 = k => hk (hh ▸ hin))]
      exact h.obj_some k2 hin
    · subst heq; rw [if_pos rfl, hv]; rfl
  · intro k2 v2x hk2 hv2
    rw [mapLookup_mapInsert] at hv2
    rcases (by simpa using hk2 : k2 ∈ done ∨ k2 = k) with hin | heq
    · rw [if_neg (fun hh : k2 = k => hk (hh ▸ hin))] at hv2
      exact h.obj_mem k2 v2x hin hv2
    · subst heq
      rw [if_pos rfl] at hv2
      injection hv2 with hv2e
      exact ⟨v1, hv, hv2e ▸ he⟩
  · intro k2 hk2
    rcases (by simpa using hk2 : k2 ∈ done ∨ k2 = k) with hin | heq
    · exact h.arr_some k2 hin
    · subst heq; rw [h.arr_out k2 hk, h6]
  · intro k2 v2x hk2 hv2
    rcases (by simpa using hk2 : k2 ∈ done ∨ k2 = k) with hin | heq
    · exact h.arr_mem k2 v2x hin hv2
    · subst heq; rw [h.arr_out k2 hk] at hv2; exact absurd hv2 (by simp)
  · intro k2 hk2
    have hout : ¬ k2 ∈ done ∧ ¬ k2 = k := by
      constructor <;> intro hh <;> exact hk2 (by simp [hh])
    exact h.str_out k2 hout.1
  · intro k2 hk2
    have hout : ¬ k2 ∈ done ∧ ¬ k2 = k := by
      constructor <;> intro hh <;> exact hk2 (by simp [hh])
    exact h.num_out k2 hout.1
  · intro k2 hk2
    have hout : ¬ k2 ∈ done ∧ ¬ k2 = k := by
      constructor <;> intro hh <;> exact hk2 (by simp [hh])
    exact h.bool_out k2 hout.1
  · intro k2 hk2
    have hout : ¬ k2 ∈ done ∧ ¬ k2 = k := by
      constructor <;> intro hh <;> exact hk2 (by simp [hh])
    exact h.null_out k2 hout.1
  · intro k2 hk2
    have hout : ¬ k2 ∈ done ∧ ¬ k2 = k := by
      constructor <;> intro hh <;> exact hk2 (by simp [hh])
    rw [mapLookup_mapInsert, if_neg hout.2, h.obj_out k2 hout.1]
  · intro k2 hk2
    have hout : ¬ k2 ∈ done ∧ ¬ k2 = k := by
      constructor <;> intro hh <;> exact hk2 (by simp [hh])
    exact h.arr_out k2 hout.1

/-- Processing one nested-array member extends the invariant by its key,
storing any array equivalent to the model's value. -/
theorem ObjRestrict.objStepArray {o : ObjectStruct} {done : List (List Char)}
    {o2 : ObjectStruct} (h : ObjRestrict o done o2) {k : List Char}
    {v1 v2 : ArrayStruct}
    (hk : ¬ k ∈ done) (hv : mapLookup o.arrays k = some v1) (he : ArrEquiv v1 v2)
    (h1 : mapLookup o.strings k = none) (h2 : mapLookup o.numbers k = none)
    (h3 : mapLookup o.bools k = none) (h4 : mapLookup o.nulls k = none)
    (h5 : mapLookup o.objects k = none) :
    ObjRestrict o (done ++ [k]) (o2.SetJSONArray k v2) := by
  rw [ObjectStruct.SetJSONArray_fresh o2 k v2 (h.has_false hk)]
  refine ⟨?_, ?_, ?_, ?_, ?_, ?_, ?_, ?_, ?_, ?_, ?_, ?_, ?_, ?_, ?_⟩ <;>
    simp only [objStrings_mk, objNumbers_mk, objBools_mk,
      objNulls_mk, objObjects_mk, objArrays_mk,
      objKeys_mk]
  · rw [h.keys_eq]
  · intro k2 hk2
    rcases (by simpa using hk2 : k2 ∈ done ∨ k2 = k) with hin | heq
    · exact h.str_mem k2 hin
    · subst heq; rw [h.str_out k2 hk, h1]
  · intro k2 hk2
    rcases (by simpa using hk2 : k2 ∈ done ∨ k2 = k) with hin | heq
    · exact h.num_mem k2 hin
    · subst heq; rw [h.num_out k2 hk, h2]
  · intro k2 hk2
    rcases (by simpa using hk2 : k2 ∈ done ∨ k2 = k) with hin | heq
    · exact h.bool_mem k2 hin
    · subst heq; rw [h.bool_out k2 hk, h3]
  · intro k2 hk2
    rcases (by simpa using hk2 : k2 ∈ done ∨ k2 = k) with hin | heq
    · exact h.null_mem k2 hin
    · subst heq; rw [h.null_out k2 hk, h4]
  · intro k2 hk2
    rcases (by simpa using hk2 : k2 ∈ done ∨ k2 = k) with hin | heq
    · exact h.obj_some k2 hin
    · subst heq; rw [h.obj_out k2 hk, h5]
  · intro k2 v2x hk2 hv2
    rcases (by simpa using hk2 : k2 ∈ done ∨ k2 = k) with hin | heq
    · exact h.obj_mem k2 v2x hin hv2
    · subst heq; rw [h.obj_out k2 hk] at hv2; exact absurd hv2 (by simp)
  · intro k2 hk2
    rw [mapLookup_mapInsert]
    rcases (by simpa using hk2 : k2 ∈ done ∨ k2 = k) with hin | heq
    · rw [if_neg (fun hh : k2 = k => hk (hh ▸ hin))]
      exact h.arr_some k2 hin
    · subst heq; rw [if_pos rfl, hv]; rfl
  · intro k2 v2x hk2 hv2
    rw [mapLookup_mapInsert] at hv2
    rcases (by simpa using hk2 : k2 ∈ done ∨ k2 = k) with hin | heq
    · rw [if_neg (fun hh : k2 = k => hk (hh ▸ hin))] at hv2
      exact h.arr_mem k2 v2x hin hv2
    · subst heq
      rw [if_pos rfl] at hv2
      injection hv2 with hv2e
      exact ⟨v1, hv, hv2e ▸ he⟩
  · intro k2 hk2
    have hout : ¬ k2 ∈ done ∧ ¬ k2 = k := by
      constructor <;> intro hh <;> exact hk2 (by simp [hh])
    exact h.str_out k2 hout.1
  · intro k2 hk2
    have hout : ¬ k2 ∈ done ∧ ¬ k2 = k := by
      constructor <;> intro hh <;> exact hk2 (by simp [hh])
    exact h.num_out k2 hout.1
  · intro k2 hk2
    have hout : ¬ k2 ∈ done ∧ ¬ k2 = k := by
      constructor <;> intro hh <;> exact hk2 (by simp [hh])
    exact h.bool_out k2 hout.1
  · intro k2 hk2
    have hout : ¬ k2 ∈ done ∧ ¬ k2 = k := by
      constructor <;> intro hh <;> exact hk2 (by simp [hh])
    exact h.null_out k2 hout.1
  · intro k2 hk2
    have hout : ¬ k2 ∈ done ∧ ¬ k2 = k := by
      constructor <;> intro hh <;> exact hk2 (by simp [hh])
    exact h.obj_out k2 hout.1
  · intro k2 hk2
    have hout : ¬ k2 ∈ done ∧ ¬ k2 = k := by
      constructor <;> intro hh <;> exact hk2 (by simp [hh])
    rw [mapLookup_mapInsert, if_neg hout.2, h.arr_out k2 hout.1]

/-- Appending one string element extends the invariant by one slot. -/
theorem ArrRestrict.arrStepString {a : ArrayStruct} {n : Int} {a2 : ArrayStruct}
    (h : ArrRestrict a n a2) {v : List Char}
    (hv : mapLookup a.strings n = some v)
    (h2 : mapLookup a.numbers n = none) (h3 : mapLookup a.bools n = none)
    (h4 : mapLookup a.nulls n = none) (h5 : mapLookup a.objects n = none)
    (h6 : mapLookup a.arrays n = none) :
    ArrRestrict a (n + 1) (a2.AddString v) := by
  have hnn := h.nonneg
  rw [ArrayStruct.AddString_fields, h.len_eq]
  refine ⟨by omega, ?_, ?_, ?_, ?_, ?_, ?_, ?_, ?_, ?_, ?_, ?_, ?_, ?_, ?_, ?_⟩ <;>
    simp only [arrStrings_mk, arrNumbers_mk, arrBools_mk,
      arrNulls_mk, arrObjects_mk, arrArrays_mk,
      arrLength_mk]
  · intro i h0 hi
    rw [mapLookup_mapInsert]
    by_cases hin : i = n
    · subst hin; rw [if_pos rfl, hv]
    · rw [if_neg hin, h.str_mem i h0 (by omega)]
  · intro i h0 hi
    by_cases hin : i = n
    · subst hin; rw [h.num_out i (by omega), h2]
    · rw [h.num_mem i h0 (by omega)]
  · intro i h0 hi
    by_cases hin : i = n
    · subst hin; rw [h.bool_out i (by omega), h3]
    · rw [h.bool_mem i h0 (by omega)]
  · intro i h0 hi
    by_cases hin : i = n
    · subst hin; rw [h.null_out i (by omega), h4]
    · rw [h.null_mem i h0 (by omega)]
  · intro i h0 hi
    by_cases hin : i = n
    · subst hin; rw [h.obj_out i (by omega), h5]
    · rw [h.obj_some i h0 (by omega)]
  · intro i v2 h0 hi hv2
    by_cases hin : i = n
    · subst hin; rw [h.obj_out i (by omega)] at hv2; exact absurd hv2 (by simp)
    · exact h.obj_mem i v2 h0 (by omega) hv2
  · intro i h0 hi
    by_cases hin : i = n
    · subst hin; rw [h.arr_out i (by omega), h6]
    · rw [h.arr_some i h0 (by omega)]
  · intro i v2 h0 hi hv2
    by_cases hin : i = n
    · subst hin; rw [h.arr_out i (by omega)] at hv2; exact absurd hv2 (by simp)
    · exact h.arr_mem i v2 h0 (by omega) hv2
  · intro i hi
    rw [mapLookup_mapInsert, if_neg (fun hh : i = n => hi (by omega)),
      h.str_out i (fun hh => hi (by omega))]
  · intro i hi
    exact h.num_out i (fun hh => hi (by omega))
  · intro i hi
    exact h.bool_out i (fun hh => hi (by omega))
  · intro i hi
    exact h.null_out i (fun hh => hi (by omega))
  · intro i hi
    exact h.obj_out i (fun hh => hi (by omega))
  · intro i hi
    exact h.arr_out i (fun hh => hi (by omega))

/-- Appending one number element extends the invariant by one slot. -/
theorem ArrRestrict.arrStepNumber {a : ArrayStruct} {n : Int} {a2 : ArrayStruct}
    (h : ArrRestrict a n a2) {v : List Char}
    (hv : mapLookup a.numbers n = some v)
    (h1 : mapLookup a.strings n = none) (h3 : mapLookup a.bools n = none)
    (h4 : mapLookup a.nulls n = none) (h5 : mapLookup a.objects n = none)
    (h6 : mapLookup a.arrays n = none) :
    ArrRestrict a (n + 1) (a2.AddNumber v) := by
  have hnn := h.nonneg
  rw [ArrayStruct.AddNumber_fields, h.len_eq]
  refine ⟨by omega, ?_, ?_, ?_, ?_, ?_, ?_, ?_, ?_, ?_, ?_, ?_, ?_, ?_, ?_, ?_⟩ <;>
    simp only [arrStrings_mk, arrNumbers_mk, arrBools_mk,
      arrNulls_mk, arrObjects_mk, arrArrays_mk,
      arrLength_mk]
  · intro i h0 hi
    by_cases hin : i = n
    · subst hin; rw [h.str_out i (by omega), h1]
    · rw [h.str_mem i h0 (by omega)]
  · intro i h0 hi
    rw [mapLookup_mapInsert]
    by_cases hin : i = n
    · subst hin; rw [if_pos rfl, hv]
    · rw [if_neg hin, h.num_mem i h0 (by omega)]
  · intro i h0 hi
    by_cases hin : i = n
    · subst hin; rw [h.bool_out i (by omega), h3]
    · rw [h.bool_mem i h0 (by omega)]
  · intro i h0 hi
    by_cases hin : i = n
    · subst hin; rw [h.null_out i (by omega), h4]
    · rw [h.null_mem i h0 (by omega)]
  · intro i h0 hi
    by_cases hin : i = n
    · subst hin; rw [h.obj_out i (by omega), h5]
    · rw [h.obj_some i h0 (by omega)]
  · intro i v2 h0 hi hv2
    by_cases hin : i = n
    · subst hin; rw [h.obj_out i (by omega)] at hv2; exact absurd hv2 (by simp)
    · exact h.obj_mem i v2 h0 (by omega) hv2
  · intro i h0 hi
    by_cases hin : i = n
    · subst hin; rw [h.arr_out i (by omega), h6]
    · rw [h.arr_some i h0 (by omega)]
  · intro i v2 h0 hi hv2
    by_cases hin : i = n
    · subst hin; rw [h.arr_out i (by omega)] at hv2; exact absurd hv2 (by simp)
    · exact h.arr_mem i v2 h0 (by omega) hv2
  · intro i hi
    exact h.str_out i (fun hh => hi (by omega))
  · intro i hi
    rw [mapLookup_mapInsert, if_neg (fun hh : i = n => hi (by omega)),
      h.num_out i (fun hh => hi (by omega))]
  · intro i hi
    exact h.bool_out i (fun hh => hi (by omega))
  · intro i hi
    exact h.null_out i (fun hh => hi (by omega))
  · intro i hi
    exact h.obj_out i (fun hh => hi (by omega))
  · intro i hi
    exact h.arr_out i (fun hh => hi (by omega))

/-- Appending one boolean element extends the invariant by one slot. -/
theorem ArrRestrict.arrStepBool {a : ArrayStruct} {n : Int} {a2 : ArrayStruct}
    (h : ArrRestrict a n a2) {v : Bool}
    (hv : mapLookup a.bools n = some v)
    (h1 : mapLookup a.strings n = none) (h2 : mapLookup a.numbers n = none)
    (h4 : mapLookup a.nulls n = none) (h5 : mapLookup a.objects n = none)
    (h6 : mapLookup a.arrays n = none) :
    ArrRestrict a (n + 1) (a2.AddBool v) := by
  have hnn := h.nonneg
  rw [ArrayStruct.AddBool_fields, h.len_eq]
  refine ⟨by omega, ?_, ?_, ?_, ?_, ?_, ?_, ?_, ?_, ?_, ?_, ?_, ?_, ?_, ?_, ?_⟩ <;>
    simp only [arrStrings_mk, arrNumbers_mk, arrBools_mk,
      arrNulls_mk, arrObjects_mk, arrArrays_mk,
      arrLength_mk]
  · intro i h0 hi
    by_cases hin : i = n
    · subst hin; rw [h.str_out i (by omega), h1]
    · rw [h.str_mem i h0 (by omega)]
  · intro i h0 hi
    by_cases hin : i = n
    · subst hin; rw [h.num_out i (by omega), h2]
    · rw [h.num_mem i h0 (by omega)]
  · intro i h0 hi
    rw [mapLookup_mapInsert]
    by_cases hin : i = n
    · subst hin; rw [if_pos rfl, hv]
    · rw [if_neg hin, h.bool_mem i h0 (by omega)]
  · intro i h0 hi
    by_cases hin : i = n
    · subst hin; rw [h.null_out i (by omega), h4]
    · rw [h.null_mem i h0 (by omega)]
  · intro i h0 hi
    by_cases hin : i = n
    · subst hin; rw [h.obj_out i (by omega), h5]
    · rw [h.obj_some i h0 (by omega)]
  · intro i v2 h0 hi hv2
    by_cases hin : i = n
    · subst hin; rw [h.obj_out i (by omega)] at hv2; exact absurd hv2 (by simp)
    · exact h.obj_mem i v2 h0 (by omega) hv2
  · intro i h0 hi
    by_cases hin : i = n
    · subst hin; rw [h.arr_out i (by omega), h6]
    · rw [h.arr_some i h0 (by omega)]
  · intro i v2 h0 hi hv2
    by_cases hin : i = n
    · subst hin; rw [h.arr_out i (by omega)] at hv2; exact absurd hv2 (by simp)
    · exact h.arr_mem i v2 h0 (by omega) hv2
  · intro i hi
    exact h.str_out i (fun hh => hi (by omega))
  · intro i hi
    exact h.num_out i (fun hh => hi (by omega))
  · intro i hi
    rw [mapLookup_mapInsert, if_neg (fun hh : i = n => hi (by omega)),
      h.bool_out i (fun hh => hi (by omega))]
  · intro i hi
    exact h.null_out i (fun hh => hi (by omega))
  · intro i hi
    exact h.obj_out i (fun hh => hi (by omega))
  · intro i hi
    exact h.arr_out i (fun hh => hi (by omega))

/-- Appending one null element extends the invariant by one slot. -/
theorem ArrRestrict.arrStepNull {a : ArrayStruct} {n : Int} {a2 : ArrayStruct}
    (h : ArrRestrict a n a2)
    (hv : mapLookup a.nulls n = some ())
    (h1 : mapLookup a.strings n = none) (h2 : mapLookup a.numbers n = none)
    (h3 : mapLookup a.bools n = none) (h5 : mapLookup a.objects n = none)
    (h6 : mapLookup a.arrays n = none) :
    ArrRestrict a (n + 1) a2.AddNull := by
  have hnn := h.nonneg
  rw [ArrayStruct.AddNull_fields, h.len_eq]
  refine ⟨by omega, ?_, ?_, ?_, ?_, ?_, ?_, ?_, ?_, ?_, ?_, ?_, ?_, ?_, ?_, ?_⟩ <;>
    simp only [arrStrings_mk, arrNumbers_mk, arrBools_mk,
      arrNulls_mk, arrObjects_mk, arrArrays_mk,
      arrLength_mk]
  · intro i h0 hi
    by_cases hin : i = n
    · subst hin; rw [h.str_out i (by omega), h1]
    · rw [h.str_mem i h0 (by omega)]
  · intro i h0 hi
    by_cases hin : i = n
    · subst hin; rw [h.num_out i (by omega), h2]
    · rw [h.num_mem i h0 (by omega)]
  · intro i h0 hi
    by_cases hin : i = n
    · subst hin; rw [h.bool_out i (by omega), h3]
    · rw [h.bool_mem i h0 (by omega)]
  · intro i h0 hi
    rw [mapLookup_mapInsert]
    by_cases hin : i = n
    · subst hin; rw [if_pos rfl, hv]
    · rw [if_neg hin, h.null_mem i h0 (by omega)]
  · intro i h0 hi
    by_cases hin : i = n
    · subst hin; rw [h.obj_out i (by omega), h5]
    · rw [h.obj_some i h0 (by omega)]
  · intro i v2 h0 hi hv2
    by_cases hin : i = n
    · subst hin; rw [h.obj_out i (by omega)] at hv2; exact absurd hv2 (by simp)
    · exact h.obj_mem i v2 h0 (by omega) hv2
  · intro i h0 hi
    by_cases hin : i = n
    · subst hin; rw [h.arr_out i (by omega), h6]
    · rw [h.arr_some i h0 (by omega)]
  · intro i v2 h0 hi hv2
    by_cases hin : i = n
    · subst hin; rw [h.arr_out i (by omega)] at hv2; exact absurd hv2 (by simp)
    · exact h.arr_mem i v2 h0 (by omega) hv2
  · intro i hi
    exact h.str_out i (fun hh => hi (by omega))
  · intro i hi
    exact h.num_out i (fun hh => hi (by omega))
  · intro i hi
    exact h.bool_out i (fun hh => hi (by omega))
  · intro i hi
    rw [mapLookup_mapInsert, if_neg (fun hh : i = n => hi (by omega)),
      h.null_out i (fun hh => hi (by omega))]
  · intro i hi
    exact h.obj_out i (fun hh => hi (by omega))
  · intro i hi
    exact h.arr_out i (fun hh => hi (by omega))

/-- Appending one nested-object element extends the invariant by one slot,
storing any object equivalent to the model's value. -/
theorem ArrRestrict.arrStepObject {a : ArrayStruct} {n : Int} {a2 : ArrayStruct}
    (h : ArrRestrict a n a2) {v1 v2 : ObjectStruct}
    (hv : mapLookup a.objects n = some v1) (he : ObjEquiv v1 v2)
    (h1 : mapLookup a.strings n = none) (h2 : mapLookup a.numbers n = none)
    (h3 : mapLookup a.bools n = none) (h4 : mapLookup a.nulls n = none)
    (h6 : mapLookup a.arrays n = none) :
    ArrRestrict a (n + 1) (a2.AddJSONObject v2) := by
  have hnn := h.nonneg
  rw [ArrayStruct.AddJSONObject_fields, h.len_eq]
  refine ⟨by omega, ?_, ?_, ?_, ?_, ?_, ?_, ?_, ?_, ?_, ?_, ?_, ?_, ?_, ?_, ?_⟩ <;>
    simp only [arrStrings_mk, arrNumbers_mk, arrBools_mk,
      arrNulls_mk, arrObjects_mk, arrArrays_mk,
      arrLength_mk]
  · intro i h0 hi
    by_cases hin : i = n
    · subst hin; rw [h.str_out i (by omega), h1]
    · rw [h.str_mem i h0 (by omega)]
  · intro i h0 hi
    by_cases hin : i = n
    · subst hin; rw [h.num_out i (by omega), h2]
    · rw [h.num_mem i h0 (by omega)]
  · intro i h0 hi
    by_cases hin : i = n
    · subst hin; rw [h.bool_out i (by omega), h3]
    · rw [h.bool_mem i h0 (by omega)]
  · intro i h0 hi
    by_cases hin : i = n
    · subst hin; rw [h.null_out i (by omega), h4]
    · rw [h.null_mem i h0 (by omega)]
  · intro i h0 hi
    rw [mapLookup_mapInsert]
    by_cases hin : i = n
    · subst hin; rw [if_pos rfl, hv]; rfl
    · rw [if_neg hin, h.obj_some i h0 (by omega)]
  · intro i v2x h0 hi hv2
    rw [mapLookup_mapInsert] at hv2
    by_cases hin : i = n
    · subst hin
      rw [if_pos rfl] at hv2
      injection hv2 with hv2e
      exact ⟨v1, hv, hv2e ▸ he⟩
    · rw [if_neg hin] at hv2
      exact h.obj_mem i v2x h0 (by omega) hv2
  · intro i h0 hi
    by_cases hin : i = n
    · subst hin; rw [h.arr_out i (by omega), h6]
    · rw [h.arr_some i h0 (by omega)]
  · intro i v2x h0 hi hv2
    by_cases hin : i = n
    · subst hin; rw [h.arr_out i (by omega)] at hv2; exact absurd hv2 (by simp)
    · exact h.arr_mem i v2x h0 (by omega) hv2
  · intro i hi
    exact h.str_out i (fun hh => hi (by omega))
  · intro i hi
    exact h.num_out i (fun hh => hi (by omega))
  · intro i hi
    exact h.bool_out i (fun hh => hi (by omega))
  · intro i hi
    exact h.null_out i (fun hh => hi (by omega))
  · intro i hi
    rw [mapLookup_mapInsert, if_neg (fun hh : i = n => hi (by omega)),
      h.obj_out i (fun hh => hi (by omega))]
  · intro i hi
    exact h.arr_out i (fun hh => hi (by omega))

/-- Appending one nested-array element extends the invariant by one slot,
storing any array equivalent to the model's value. -/
theorem ArrRestrict.arrStepArray {a : ArrayStruct} {n : Int} {a2 : ArrayStruct}
    (h : ArrRestrict a n a2) {v1 v2 : ArrayStruct}
    (hv : mapLookup a.arrays n = some v1) (he : ArrEquiv v1 v2)
    (h1 : mapLookup a.strings n = none) (h2 : mapLookup a.numbers n = none)
    (h3 : mapLookup a.bools n = none) (h4 : mapLookup a.nulls n = none)
    (h5 : mapLookup a.objects n = none) :
    ArrRestrict a (n + 1) (a2.AddJSONArray v2) := by
  have hnn := h.nonneg
  rw [ArrayStruct.AddJSONArray_fields, h.len_eq]
  refine ⟨by omega, ?_, ?_, ?_, ?_, ?_, ?_, ?_, ?_, ?_, ?_, ?_, ?_, ?_, ?_, ?_⟩ <;>
    simp only [arrStrings_mk, arrNumbers_mk, arrBools_mk,
      arrNulls_mk, arrObjects_mk, arrArrays_mk,
      arrLength_mk]
  · intro i h0 hi
    by_cases hin : i = n
    · subst hin; rw [h.str_out i (by omega), h1]
    · rw [h.str_mem i h0 (by omega)]
  · intro i h0 hi
    by_cases hin : i = n
    · subst hin; rw [h.num_out i (by omega), h2]
    · rw [h.num_mem i h0 (by omega)]
  · intro i h0 hi
    by_cases hin : i = n
    · subst hin; rw [h.bool_out i (by omega), h3]
    · rw [h.bool_mem i h0 (by omega)]
  · intro i h0 hi
    by_cases hin : i = n
    · subst hin; rw [h.null_out i (by omega), h4]
    · rw [h.null_mem i h0 (by omega)]
  · intro i h0 hi
    by_cases hin : i = n
    · subst hin; rw [h.obj_out i (by omega), h5]
    · rw [h.obj_some i h0 (by omega)]
  · intro i v2x h0 hi hv2
    by_cases hin : i = n
    · subst hin; rw [h.obj_out i (by omega)] at hv2; exact absurd hv2 (by simp)
    · exact h.obj_mem i v2x h0 (by omega) hv2
  · intro i h0 hi
    rw [mapLookup_mapInsert]
    by_cases hin : i = n
    · subst hin; rw [if_pos rfl, hv]; rfl
    · rw [if_neg hin, h.arr_some i h0 (by omega)]
  · intro i v2x h0 hi hv2
    rw [mapLookup_mapInsert] at hv2
    by_cases hin : i = n
    · subst hin
      rw [if_pos rfl] at hv2
      injection hv2 with hv2e
      exact ⟨v1, hv, hv2e ▸ he⟩
    · rw [if_neg hin] at hv2
      exact h.arr_mem i v2x h0 (by omega) hv2
  · intro i hi
    exact h.str_out i (fun hh => hi (by omega))
  · intro i hi
    exact h.num_out i (fun hh => hi (by omega))
  · intro i hi
    exact h.bool_out i (fun hh => hi (by omega))
  · intro i hi
    exact h.null_out i (fun hh => hi (by omega))
  · intro i hi
    exact h.obj_out i (fun hh => hi (by omega))
  · intro i hi
    rw [mapLookup_mapInsert, if_neg (fun hh : i = n => hi (by omega)),
      h.arr_out i (fun hh => hi (by omega))]

/-- When every key has been processed, the invariant is the round-trip
equivalence. -/
theorem ObjRestrict.objToEquiv {o o2 : ObjectStruct} (h : ObjRestrict o o.keys o2) :
    ObjEquiv o o2 := by
  refine ObjEquiv.intro h.keys_eq.symm
    (fun k hk => (h.str_mem k hk).symm)
    (fun k hk => (h.num_mem k hk).symm)
    (fun k hk => (h.bool_mem k hk).symm)
    (fun k hk => (h.null_mem k hk).symm)
    (fun k hk => (h.obj_some k hk).symm)
    ?_
    (fun k hk => (h.arr_some k hk).symm)
    ?_
  · intro k v1 v2 hk hv1 hv2
    obtain ⟨v1x, hv1x, hex⟩ := h.obj_mem k v2 hk hv2
    rw [hv1] at hv1x
    injection hv1x with hv1e
    exact hv1e ▸ hex
  · intro k v1 v2 hk hv1 hv2
    obtain ⟨v1x, hv1x, hex⟩ := h.arr_mem k v2 hk hv2
    rw [hv1] at hv1x
    injection hv1x with hv1e
    exact hv1e ▸ hex

/-- When every slot has been processed, the invariant is the round-trip
equivalence. -/
theorem ArrRestrict.arrToEquiv {a a2 : ArrayStruct} (h : ArrRestrict a a.length a2) :
    ArrEquiv a a2 := by
  refine ArrEquiv.intro h.len_eq.symm
    (fun i h0 hi => (h.str_mem i h0 hi).symm)
    (fun i h0 hi => (h.num_mem i h0 hi).symm)
    (fun i h0 hi => (h.bool_mem i h0 hi).symm)
    (fun i h0 hi => (h.null_mem i h0 hi).symm)
    (fun i h0 hi => (h.obj_some i h0 hi).symm)
    ?_
    (fun i h0 hi => (h.arr_some i h0 hi).symm)
    ?_
  · intro i v1 v2 h0 hi hv1 hv2
    obtain ⟨v1x, hv1x, hex⟩ := h.obj_mem i v2 h0 hi hv2
    rw [hv1] at hv1x
    injection hv1x with hv1e
    exact hv1e ▸ hex
  · intro i v1 v2 h0 hi hv1 hv2
    obtain ⟨v1x, hv1x, hex⟩ := h.arr_mem i v2 h0 hi hv2
    rw [hv1] at hv1x
    injection hv1x with hv1e
    exact hv1e ▸ hex

/-- A key bound in the strings map and in exactly one kind map is bound in no
other kind map. -/
theorem kindCount_one_strings {o : ObjectStruct} {k v : List Char}
    (h : mapLookup o.strings k = some v) (hc : kindCount o k = 1) :
    mapLookup o.numbers k = none ∧ mapLookup o.bools k = none ∧
    mapLookup o.nulls k = none ∧ mapLookup o.objects k = none ∧
    mapLookup o.arrays k = none := by
  simp only [kindCount, h, Option.isSome_some, if_true] at hc
  refine ⟨?_, ?_, ?_, ?_, ?_⟩ <;>
    · rw [← Option.not_isSome_iff_eq_none]
      intro hs
      simp only [hs, if_true] at hc
      split_ifs at hc <;> omega

/-- A key bound in the numbers map and in exactly one kind map is bound in no
other kind map. -/
theorem kindCount_one_numbers {o : ObjectStruct} {k v : List Char}
    (h : mapLookup o.numbers k = some v) (hc : kindCount o k = 1) :
    mapLookup o.strings k = none ∧ mapLookup o.bools k = none ∧
    mapLookup o.nulls k = none ∧ mapLookup o.objects k = none ∧
    mapLookup o.arrays k = none := by
  simp only [kindCount, h, Option.isSome_some, if_true] at hc
  refine ⟨?_, ?_, ?_, ?_, ?_⟩ <;>
    · rw [← Option.not_isSome_iff_eq_none]
      intro hs
      simp only [hs, if_true] at hc
      split_ifs at hc <;> omega

/-- A key bound in the bools map and in exactly one kind map is bound in no
other kind map. -/
theorem kindCount_one_bools {o : ObjectStruct} {k : List Char} {v : Bool}
    (h : mapLookup o.bools k = some v) (hc : kindCount o k = 1) :
    mapLookup o.strings k = none ∧ mapLookup o.numbers k = none ∧
    mapLookup o.nulls k = none ∧ mapLookup o.objects k = none ∧
    mapLookup o.arrays k = none := by
  simp only [kindCount, h, Option.isSome_some, if_true] at hc
  refine ⟨?_, ?_, ?_, ?_, ?_⟩ <;>
    · rw [← Option.not_isSome_iff_eq_none]
      intro hs
      simp only [hs, if_true] at hc
      split_ifs at hc <;> omega

/-- A key bound in the nulls map and in exactly one kind map is bound in no
other kind map. -/
theorem kindCount_one_nulls {o : ObjectStruct} {k : List Char} {v : Unit}
    (h : mapLookup o.nulls k = some v) (hc : kindCount o k = 1) :
    mapLookup o.strings k = none ∧ mapLookup o.numbers k = none ∧
    mapLookup o.bools k = none ∧ mapLookup o.objects k = none ∧
    mapLookup o.arrays k = none := by
  simp only [kindCount, h, Option.isSome_some, if_true] at hc
  refine ⟨?_, ?_, ?_, ?_, ?_⟩ <;>
    · rw [← Option.not_isSome_iff_eq_none]
      intro hs
      simp only [hs, if_true] at hc
      split_ifs at hc <;> omega

/-- A key bound in the objects map and in exactly one kind map is bound in no
other kind map. -/
theorem kindCount_one_objects {o : ObjectStruct} {k : List Char} {v : ObjectStruct}
    (h : mapLookup o.objects k = some v) (hc : kindCount o k = 1) :
    mapLookup o.strings k = none ∧ mapLookup o.numbers k = none ∧
    mapLookup o.bools k = none ∧ mapLookup o.nulls k = none ∧
    mapLookup o.arrays k = none := by
  simp only [kindCount, h, Option.isSome_some, if_true] at hc
  refine ⟨?_, ?_, ?_, ?_, ?_⟩ <;>
    · rw [← Option.not_isSome_iff_eq_none]
      intro hs
      simp only [hs, if_true] at hc
      split_ifs at hc <;> omega

/-- A key bound in the arrays map and in exactly one kind map is bound in no
other kind map. -/
theorem kindCount_one_arrays {o : ObjectStruct} {k : List Char} {v : ArrayStruct}
    (h : mapLookup o.arrays k = some v) (hc : kindCount o k = 1) :
    mapLookup o.strings k = none ∧ mapLookup o.numbers k = none ∧
    mapLookup o.bools k = none ∧ mapLookup o.nulls k = none ∧
    mapLookup o.objects k = none := by
  simp only [kindCount, h, Option.isSome_some, if_true] at hc
  refine ⟨?_, ?_, ?_, ?_, ?_⟩ <;>
    · rw [← Option.not_isSome_iff_eq_none]
      intro hs
      simp only [hs, if_true] at hc
      split_ifs at hc <;> omega

/-- A slot bound in the strings map and in exactly one kind map is bound in no
other kind map. -/
theorem arrKindCount_one_strings {a : ArrayStruct} {i : Int} {v : List Char}
    (h : mapLookup a.strings i = some v) (hc : arrKindCount a i = 1) :
    mapLookup a.numbers i = none ∧ mapLookup a.bools i = none ∧
    mapLookup a.nulls i = none ∧ mapLookup a.objects i = none ∧
    mapLookup a.arrays i = none := by
  simp only [arrKindCount, h, Option.isSome_some, if_true] at hc
  refine ⟨?_, ?_, ?_, ?_, ?_⟩ <;>
    · rw [← Option.not_isSome_iff_eq_none]
      intro hs
      simp only [hs, if_true] at hc
      split_ifs at hc <;> omega

/-- A slot bound in the numbers map and in exactly one kind map is bound in no
other kind map. -/
theorem arrKindCount_one_numbers {a : ArrayStruct} {i : Int} {v : List Char}
    (h : mapLookup a.numbers i = some v) (hc : arrKindCount a i = 1) :
    mapLookup a.strings i = none ∧ mapLookup a.bools i = none ∧
    mapLookup a.nulls i = none ∧ mapLookup a.objects i = none ∧
    mapLookup a.arrays i = none := by
  simp only [arrKindCount, h, Option.isSome_some, if_true] at hc
  refine ⟨?_, ?_, ?_, ?_, ?_⟩ <;>
    · rw [← Option.not_isSome_iff_eq_none]
      intro hs
      simp only [hs, if_true] at hc
      split_ifs at hc <;> omega

/-- A slot bound in the bools map and in exactly one kind map is bound in no
other kind map. -/
theorem arrKindCount_one_bools {a : ArrayStruct} {i : Int} {v : Bool}
    (h : mapLookup a.bools i = some v) (hc : arrKindCount a i = 1) :
    mapLookup a.strings i = none ∧ mapLookup a.numbers i = none ∧
    mapLookup a.nulls i = none ∧ mapLookup a.objects i = none ∧
    mapLookup a.arrays i = none := by
  simp only [arrKindCount, h, Option.isSome_some, if_true] at hc
  refine ⟨?_, ?_, ?_, ?_, ?_⟩ <;>
    · rw [← Option.not_isSome_iff_eq_none]
      intro hs
      simp only [hs, if_true] at hc
      split_ifs at hc <;> omega

/-- A slot bound in the nulls map and in exactly one kind map is bound in no
other kind map. -/
theorem arrKindCount_one_nulls {a : ArrayStruct} {i : Int} {v : Unit}
    (h : mapLookup a.nulls i = some v) (hc : arrKindCount a i = 1) :
    mapLookup a.strings i = none ∧ mapLookup a.numbers i = none ∧
    mapLookup a.bools i = none ∧ mapLookup a.objects i = none ∧
    mapLookup a.arrays i = none := by
  simp only [arrKindCount, h, Option.isSome_some, if_true] at hc
  refine ⟨?_, ?_, ?_, ?_, ?_⟩ <;>
    · rw [← Option.not_isSome_iff_eq_none]
      intro hs
      simp only [hs, if_true] at hc
      split_ifs at hc <;> omega

/-- A slot bound in the objects map and in exactly one kind map is bound in no
other kind map. -/
theorem arrKindCount_one_objects {a : ArrayStruct} {i : Int} {v : ObjectStruct}
    (h : mapLookup a.objects i = some v) (hc : arrKindCount a i = 1) :
    mapLookup a.strings i = none ∧ mapLookup a.numbers i = none ∧
    mapLookup a.bools i = none ∧ mapLookup a.nulls i = none ∧
    mapLookup a.arrays i = none := by
  simp only [arrKindCount, h, Option.isSome_some, if_true] at hc
  refine ⟨?_, ?_, ?_, ?_, ?_⟩ <;>
    · rw [← Option.not_isSome_iff_eq_none]
      intro hs
      simp only [hs, if_true] at hc
      split_ifs at hc <;> omega

/-- A slot bound in the arrays map and in exactly one kind map is bound in no
other kind map. -/
theorem arrKindCount_one_arrays {a : ArrayStruct} {i : Int} {v : ArrayStruct}
    (h : mapLookup a.arrays i = some v) (hc : arrKindCount a i = 1) :
    mapLookup a.strings i = none ∧ mapLookup a.numbers i = none ∧
    mapLookup a.bools i = none ∧ mapLookup a.nulls i = none ∧
    mapLookup a.objects i = none := by
  simp only [arrKindCount, h, Option.isSome_some, if_true] at hc
  refine ⟨?_, ?_, ?_, ?_, ?_⟩ <;>
    · rw [← Option.not_isSome_iff_eq_none]
      intro hs
      simp only [hs, if_true] at hc
      split_ifs at hc <;> omega

end GoJson


namespace GoJson

/-- `ObjectBuilderStruct.AddJSON` on an opened builder with at least one
member: a comma and the member are appended. -/
theorem objectBuilderAddJSON_opened (ob : ObjectBuilderStruct)
    (name value : List Char) (hb : ob.b ≠ []) (hc : 0 < ob.memberCount) :
    (ob.AddJSON name value).b =
      ob.b ++ ',' :: (encodeString name ob.stringCharacterEscapingBehavior ++ ':' :: value) ∧
    (ob.AddJSON name value).stringCharacterEscapingBehavior =
      ob.stringCharacterEscapingBehavior ∧
    0 < (ob.AddJSON name value).memberCount := by
  have hlen : ¬ ob.b.length = 0 := fun h => hb (List.length_eq_zero.mp h)
  simp [ObjectBuilderStruct.AddJSON, hlen, hc]

/-- `ObjectBuilderStruct.AddJSON` on a fresh builder: the opening brace and
the member are written. -/
theorem objectBuilderAddJSON_fresh (ob : ObjectBuilderStruct)
    (name value : List Char) (hb : ob.b = []) (hc : ob.memberCount = 0) :
    (ob.AddJSON name value).b =
      leftBraceChar :: (encodeString name ob.stringCharacterEscapingBehavior ++ ':' :: value) ∧
    (ob.AddJSON name value).stringCharacterEscapingBehavior =
      ob.stringCharacterEscapingBehavior ∧
    0 < (ob.AddJSON name value).memberCount := by
  simp [ObjectBuilderStruct.AddJSON, hb, hc]

/-- One step of the member fold, for a key bound in at least one kind map:
whatever the kind, the step is an `AddJSON` of the member's value text. -/
theorem objectMembersFold_cons (behavior : StringCharacterEscapingBehavior)
    (o : ObjectStruct) (k : List Char) (ks : List (List Char))
    (bld : ObjectBuilderStruct)
    (hbeh : bld.stringCharacterEscapingBehavior = behavior)
    (hbound : 0 < kindCount o k) :
    objectMembersFold behavior o (k :: ks) bld =
      objectMembersFold behavior o ks (bld.AddJSON k (objectValueText behavior o k)) := by
  rw [objectMembersFold.eq_def]
  rcases h1 : mapLookup o.strings k with _ | v
  · rcases h2 : mapLookup o.numbers k with _ | v
    · rcases h3 : mapLookup o.bools k with _ | v
      · rcases h4 : mapLookup o.nulls k with _ | v
        · rcases h5 : mapLookup o.objects k with _ | v
          · rcases h6 : mapLookup o.arrays k with _ | v
            · exfalso
              simp [kindCount, h1, h2, h3, h4, h5, h6] at hbound
            · simp only [h1, h2, h3, h4, objectValueText, h5, h6]
              split
              · rename_i v2 hv2
                rw [h5] at hv2
                exact absurd hv2 (by simp)
              · split
                · rename_i v2 hv2
                  rw [h6] at hv2
                  injection hv2 with he
                  rw [he]
                · rename_i hv2
                  rw [h6] at hv2
                  exact absurd hv2 (by simp)
          · simp only [h1, h2, h3, h4, objectValueText, h5]
            split
            · rename_i v2 hv2
              rw [h5] at hv2
              injection hv2 with he
              rw [he]
            · rename_i hv2
              rw [h5] at hv2
              exact absurd hv2 (by simp)
        · simp only [h1, h2, h3, h4, objectValueText, ObjectBuilderStruct.AddNull]
      · simp only [h1, h2, h3, objectValueText, ObjectBuilderStruct.AddBool]
        cases v <;> simp
    · simp only [h1, h2, objectValueText]
  · simp only [h1, objectValueText, ObjectBuilderStruct.AddString, hbeh]

/-- Running the member fold over an opened builder appends one comma-prefixed
piece per key. -/
theorem objectMembersFold_buffer (behavior : StringCharacterEscapingBehavior)
    (o : ObjectStruct) :
    ∀ ks (bld : ObjectBuilderStruct), bld.stringCharacterEscapingBehavior = behavior →
      bld.b ≠ [] → 0 < bld.memberCount → (∀ k ∈ ks, 0 < kindCount o k) →
      (objectMembersFold behavior o ks bld).b =
        bld.b ++ (ks.map (fun k => ',' :: objectMemberPiece behavior o k)).flatten ∧
      (objectMembersFold behavior o ks bld).stringCharacterEscapingBehavior = behavior ∧
      0 < (objectMembersFold behavior o ks bld).memberCount := by
  intro ks
  induction ks with
  | nil =>
    intro bld hbeh hb hc _
    rw [objectMembersFold.eq_def]
    simp [hbeh, hc]
  | cons k ks ih =>
    intro bld hbeh hb hc hall
    rw [objectMembersFold_cons behavior o k ks bld hbeh (hall k (by simp))]
    obtain ⟨hab, habe, hac⟩ :=
      objectBuilderAddJSON_opened bld k (objectValueText behavior o k) hb hc
    have hbeh2 : (bld.AddJSON k (objectValueText behavior o k)).stringCharacterEscapingBehavior
        = behavior := by rw [habe, hbeh]
    have hb2 : (bld.AddJSON k (objectValueText behavior o k)).b ≠ [] := by
      rw [hab]; simp
    obtain ⟨ihb, ihbe, ihc⟩ := ih _ hbeh2 hb2 hac (fun k2 hk2 => hall k2 (by simp [hk2]))
    refine ⟨?_, ihbe, ihc⟩
    rw [ihb, hab, hbeh]
    simp [objectMemberPiece]

/-- The members text of a nonempty key list is the head piece followed by the
comma-prefixed remaining pieces. -/
theorem objectMembersText_eq_flatten (behavior : StringCharacterEscapingBehavior)
    (o : ObjectStruct) :
    ∀ ks k, objectMembersText behavior o (k :: ks) =
      objectMemberPiece behavior o k ++
        (ks.map (fun k2 => ',' :: objectMemberPiece behavior o k2)).flatten := by
  intro ks
  induction ks with
  | nil => intro k; simp [objectMembersText]
  | cons k2 ks2 ih =>
    intro k
    have hstep : objectMembersText behavior o (k :: k2 :: ks2) =
        objectMemberPiece behavior o k ++ ',' :: objectMembersText behavior o (k2 :: ks2) :=
      rfl
    rw [hstep, ih k2]
    simp

/-- `ObjectStruct.String` in closed form, for objects whose keys are all
bound: braces around the comma-separated member pieces. -/
theorem objectString_decomp (behavior : StringCharacterEscapingBehavior)
    (o : ObjectStruct) (hall : ∀ k ∈ o.keys, 0 < kindCount o k) :
    ObjectStruct.String behavior o =
      if o.keys = [] then [leftBraceChar, rightBraceChar]
      else leftBraceChar :: (objectMembersText behavior o o.keys ++ [rightBraceChar]) := by
  rw [ObjectStruct.String.eq_def]
  rcases hk : o.keys with _ | ⟨k, ks⟩
  · rw [if_pos rfl, objectMembersFold.eq_def]
    simp [NewObjectBuilder, ObjectBuilderStruct.Done]
  · rw [if_neg (by simp)]
    rw [objectMembersFold_cons behavior o k ks _ rfl
      (hall k (by rw [hk]; simp))]
    obtain ⟨hab, habe, hac⟩ :=
      objectBuilderAddJSON_fresh (NewObjectBuilder behavior) k
        (objectValueText behavior o k) rfl rfl
    obtain ⟨hfb, hfbe, hfc⟩ := objectMembersFold_buffer behavior o ks _
      (by rw [habe]; rfl) (by rw [hab]; simp) hac
      (fun k2 hk2 => hall k2 (by rw [hk]; simp [hk2]))
    rw [ObjectBuilderStruct.Done, hfb, hab]
    rw [if_neg (by simp)]
    rw [objectMembersText_eq_flatten]
    simp [objectMemberPiece, NewObjectBuilder]

/-- `ArrayBuilderStruct.AddJSON` on an opened builder with at least one
element: a comma and the element are appended. -/
theorem arrayBuilderAddJSON_opened (ab : ArrayBuilderStruct)
    (value : List Char) (hb : ab.b ≠ []) (hc : 0 < ab.elementCount) :
    (ab.AddJSON value).b = ab.b ++ ',' :: value ∧
    (ab.AddJSON value).stringCharacterEscapingBehavior =
      ab.stringCharacterEscapingBehavior ∧
    0 < (ab.AddJSON value).elementCount := by
  have hlen : ¬ ab.b.length = 0 := fun h => hb (List.length_eq_zero.mp h)
  simp [ArrayBuilderStruct.AddJSON, hlen, hc]

/-- `ArrayBuilderStruct.AddJSON` on a fresh builder: the opening bracket and
the element are written. -/
theorem arrayBuilderAddJSON_fresh (ab : ArrayBuilderStruct)
    (value : List Char) (hb : ab.b = []) (hc : ab.elementCount = 0) :
    (ab.AddJSON value).b = '[' :: value ∧
    (ab.AddJSON value).stringCharacterEscapingBehavior =
      ab.stringCharacterEscapingBehavior ∧
    0 < (ab.AddJSON value).elementCount := by
  simp [ArrayBuilderStruct.AddJSON, hb, hc]

/-- One step of the element fold, for a slot bound in at least one kind map. -/
theorem arrayElementsFold_cons (behavior : StringCharacterEscapingBehavior)
    (a : ArrayStruct) (i : Int) (is : List Int) (bld : ArrayBuilderStruct)
    (hbeh : bld.stringCharacterEscapingBehavior = behavior)
    (hbound : 0 < arrKindCount a i) :
    arrayElementsFold behavior a (i :: is) bld =
      arrayElementsFold behavior a is (bld.AddJSON (arrayValueText behavior a i)) := by
  rw [arrayElementsFold.eq_def]
  rcases h1 : mapLookup a.strings i with _ | v
  · rcases h2 : mapLookup a.numbers i with _ | v
    · rcases h3 : mapLookup a.bools i with _ | v
      · rcases h4 : mapLookup a.nulls i with _ | v
        · rcases h5 : mapLookup a.objects i with _ | v
          · rcases h6 : mapLookup a.arrays i with _ | v
            · exfalso
              simp [arrKindCount, h1, h2, h3, h4, h5, h6] at hbound
            · simp only [h1, h2, h3, h4, arrayValueText, h5, h6]
              split
              · rename_i v2 hv2
                rw [h5] at hv2
                exact absurd hv2 (by simp)
              · split
                · rename_i v2 hv2
                  rw [h6] at hv2
                  injection hv2 with he
                  rw [he]
                · rename_i hv2
                  rw [h6] at hv2
                  exact absurd hv2 (by simp)
          · simp only [h1, h2, h3, h4, arrayValueText, h5]
            split
            · rename_i v2 hv2
              rw [h5] at hv2
              injection hv2 with he
              rw [he]
            · rename_i hv2
              rw [h5] at hv2
              exact absurd hv2 (by simp)
        · simp only [h1, h2, h3, h4, arrayValueText, ArrayBuilderStruct.AddNull]
      · simp only [h1, h2, h3, arrayValueText, ArrayBuilderStruct.AddBool]
        cases v <;> simp
    · simp only [h1, h2, arrayValueText]
  · simp only [h1, arrayValueText, ArrayBuilderStruct.AddString, hbeh]

/-- Running the element fold over an opened builder appends one comma-prefixed
value text per slot. -/
theorem arrayElementsFold_buffer (behavior : StringCharacterEscapingBehavior)
    (a : ArrayStruct) :
    ∀ is (bld : ArrayBuilderStruct), bld.stringCharacterEscapingBehavior = behavior →
      bld.b ≠ [] → 0 < bld.elementCount → (∀ i ∈ is, 0 < arrKindCount a i) →
      (arrayElementsFold behavior a is bld).b =
        bld.b ++ (is.map (fun i => ',' :: arrayValueText behavior a i)).flatten ∧
      (arrayElementsFold behavior a is bld).stringCharacterEscapingBehavior = behavior ∧
      0 < (arrayElementsFold behavior a is bld).elementCount := by
  intro is
  induction is with
  | nil =>
    intro bld hbeh hb hc _
    rw [arrayElementsFold.eq_def]
    simp [hbeh, hc]
  | cons i is ih =>
    intro bld hbeh hb hc hall
    rw [arrayElementsFold_cons behavior a i is bld hbeh (hall i (by simp))]
    obtain ⟨hab, habe, hac⟩ :=
      arrayBuilderAddJSON_opened bld (arrayValueText behavior a i) hb hc
    have hbeh2 : (bld.AddJSON (arrayValueText behavior a i)).stringCharacterEscapingBehavior
        = behavior := by rw [habe, hbeh]
    have hb2 : (bld.AddJSON (arrayValueText behavior a i)).b ≠ [] := by
      rw [hab]; simp
    obtain ⟨ihb, ihbe, ihc⟩ := ih _ hbeh2 hb2 hac (fun i2 hi2 => hall i2 (by simp [hi2]))
    refine ⟨?_, ihbe, ihc⟩
    rw [ihb, hab]
    simp

/-- The elements text of a nonempty slot list is the head value text followed
by the comma-prefixed remaining value texts. -/
theorem arrayElementsText_eq_flatten (behavior : StringCharacterEscapingBehavior)
    (a : ArrayStruct) :
    ∀ is i, arrayElementsText behavior a (i :: is) =
      arrayValueText behavior a i ++
        (is.map (fun i2 => ',' :: arrayValueText behavior a i2)).flatten := by
  intro is
  induction is with
  | nil => intro i; simp [arrayElementsText]
  | cons i2 is2 ih =>
    intro i
    have hstep : arrayElementsText behavior a (i :: i2 :: is2) =
        arrayValueText behavior a i ++ ',' :: arrayElementsText behavior a (i2 :: is2) :=
      rfl
    rw [hstep, ih i2]
    simp

/-- `ArrayStruct.String` in closed form, for arrays whose in-range slots are
all bound: brackets around the comma-separated value texts. -/
theorem arrayString_decomp (behavior : StringCharacterEscapingBehavior)
    (a : ArrayStruct) (hall : ∀ i ∈ arrayIndexList a, 0 < arrKindCount a i) :
    ArrayStruct.String behavior a =
      if arrayIndexList a = [] then ['[', ']']
      else '[' :: (arrayElementsText behavior a (arrayIndexList a) ++ [']']) := by
  rw [ArrayStruct.String.eq_def]
  rcases hk : arrayIndexList a with _ | ⟨i, is⟩
  · rw [if_pos rfl, arrayElementsFold.eq_def]
    simp [NewArrayBuilder, ArrayBuilderStruct.Done]
  · rw [if_neg (by simp)]
    rw [arrayElementsFold_cons behavior a i is _ rfl
      (hall i (by rw [hk]; simp))]
    obtain ⟨hab, habe, hac⟩ :=
      arrayBuilderAddJSON_fresh (NewArrayBuilder behavior)
        (arrayValueText behavior a i) rfl rfl
    obtain ⟨hfb, hfbe, hfc⟩ := arrayElementsFold_buffer behavior a is _
      (by rw [habe]; rfl) (by rw [hab]; simp) hac
      (fun i2 hi2 => hall i2 (by rw [hk]; simp [hi2]))
    rw [ArrayBuilderStruct.Done, hfb, hab]
    rw [if_neg (by simp)]
    rw [arrayElementsText_eq_flatten]
    simp

/-- `wfObject` unpacked: unique keys and the per-key conditions. -/
theorem wfObject_parts {o : ObjectStruct} (h : wfObject o = true) :
    o.keys.Nodup ∧ wfObjectKeys o o.keys = true := by
  rw [wfObject.eq_def] at h
  simp only [Bool.and_eq_true, decide_eq_true_eq] at h
  exact h

/-- `wfArray` unpacked: nonnegative length and the per-slot conditions. -/
theorem wfArray_parts {a : ArrayStruct} (h : wfArray a = true) :
    0 ≤ a.length ∧ wfArraySlots a (arrayIndexList a) = true := by
  rw [wfArray.eq_def] at h
  simp only [Bool.and_eq_true, decide_eq_true_eq] at h
  exact h

/-- `wfObjectKeys` on a cons unpacked into the head key's conditions and the
tail. -/
theorem wfObjectKeys_cons {o : ObjectStruct} {k : List Char} {ks : List (List Char)}
    (h : wfObjectKeys o (k :: ks) = true) :
    controlFree k = true ∧ kindCount o k = 1 ∧
    (∀ v, mapLookup o.strings k = some v → controlFree v = true) ∧
    (∀ v, mapLookup o.numbers k = some v → posNumberMatch v = true) ∧
    (∀ v, mapLookup o.objects k = some v → wfObject v = true) ∧
    (∀ v, mapLookup o.arrays k = some v → wfArray v = true) ∧
    wfObjectKeys o ks = true := by
  rw [wfObjectKeys.eq_def] at h
  simp only [Bool.and_eq_true, beq_iff_eq] at h
  obtain ⟨⟨⟨⟨⟨⟨hcf, hkc⟩, hs⟩, hn⟩, ho⟩, ha⟩, hrest⟩ := h
  refine ⟨hcf, hkc, ?_, ?_, ?_, ?_, hrest⟩
  · intro v hv
    simpa [hv] using hs
  · intro v hv
    simpa [hv] using hn
  · intro v hv
    split at ho
    · rename_i v2 hv2
      rw [hv] at hv2
      injection hv2 with he
      rw [he]
      exact ho
    · rename_i hv2
      rw [hv] at hv2
      exact absurd hv2 (by simp)
  · intro v hv
    split at ha
    · rename_i v2 hv2
      rw [hv] at hv2
      injection hv2 with he
      rw [he]
      exact ha
    · rename_i hv2
      rw [hv] at hv2
      exact absurd hv2 (by simp)

/-- `wfArraySlots` on a cons unpacked into the head slot's conditions and the
tail. -/
theorem wfArraySlots_cons {a : ArrayStruct} {i : Int} {is : List Int}
    (h : wfArraySlots a (i :: is) = true) :
    arrKindCount a i = 1 ∧
    (∀ v, mapLookup a.strings i = some v → controlFree v = true) ∧
    (∀ v, mapLookup a.numbers i = some v → posNumberMatch v = true) ∧
    (∀ v, mapLookup a.objects i = some v → wfObject v = true) ∧
    (∀ v, mapLookup a.arrays i = some v → wfArray v = true) ∧
    wfArraySlots a is = true := by
  rw [wfArraySlots.eq_def] at h
  simp only [Bool.and_eq_true, beq_iff_eq] at h
  obtain ⟨⟨⟨⟨⟨hkc, hs⟩, hn⟩, ho⟩, ha⟩, hrest⟩ := h
  refine ⟨hkc, ?_, ?_, ?_, ?_, hrest⟩
  · intro v hv
    simpa [hv] using hs
  · intro v hv
    simpa [hv] using hn
  · intro v hv
    split at ho
    · rename_i v2 hv2
      rw [hv] at hv2
      injection hv2 with he
      rw [he]
      exact ho
    · rename_i hv2
      rw [hv] at hv2
      exact absurd hv2 (by simp)
  · intro v hv
    split at ha
    · rename_i v2 hv2
      rw [hv] at hv2
      injection hv2 with he
      rw [he]
      exact ha
    · rename_i hv2
      rw [hv] at hv2
      exact absurd hv2 (by simp)

/-- Under `wfObjectKeys`, every listed key is bound in exactly one kind map. -/
theorem wfObjectKeys_all {o : ObjectStruct} :
    ∀ {ks}, wfObjectKeys o ks = true → ∀ k ∈ ks, kindCount o k = 1 := by
  intro ks
  induction ks with
  | nil =>
    intro h k hk
    simp at hk
  | cons k2 ks2 ih =>
    intro h k hk
    obtain ⟨_, hkc, _, _, _, _, hrest⟩ := wfObjectKeys_cons h
    rcases (by simpa using hk : k = k2 ∨ k ∈ ks2) with he | hin
    · subst he; exact hkc
    · exact ih hrest k hin

/-- Under `wfArraySlots`, every listed slot is bound in exactly one kind map. -/
theorem wfArraySlots_all {a : ArrayStruct} :
    ∀ {is}, wfArraySlots a is = true → ∀ i ∈ is, arrKindCount a i = 1 := by
  intro is
  induction is with
  | nil =>
    intro h i hi
    simp at hi
  | cons i2 is2 ih =>
    intro h i hi
    obtain ⟨hkc, _, _, _, _, hrest⟩ := wfArraySlots_cons h
    rcases (by simpa using hi : i = i2 ∨ i ∈ is2) with he | hin
    · subst he; exact hkc
    · exact ih hrest i hin

/-- A serialised object always starts with the opening brace (given bound
keys). -/
theorem objectString_head (behavior : StringCharacterEscapingBehavior)
    (o : ObjectStruct) (hall : ∀ k ∈ o.keys, 0 < kindCount o k) :
    ∃ u, ObjectStruct.String behavior o = leftBraceChar :: u := by
  rw [objectString_decomp behavior o hall]
  split_ifs
  · exact ⟨[rightBraceChar], rfl⟩
  · exact ⟨_, rfl⟩

/-- A serialised array always starts with the opening bracket (given bound
slots). -/
theorem arrayString_head (behavior : StringCharacterEscapingBehavior)
    (a : ArrayStruct) (hall : ∀ i ∈ arrayIndexList a, 0 < arrKindCount a i) :
    ∃ u, ArrayStruct.String behavior a = '[' :: u := by
  rw [arrayString_decomp behavior a hall]
  split_ifs
  · exact ⟨[']'], rfl⟩
  · exact ⟨_, rfl⟩

end GoJson

namespace GoJson

/-- The lowercase hex table used by `toStringHexEscapeSequence` decodes back
through the parser's `hexDigitValue`. -/
theorem hexDigitValue_table {k : Nat} (h : k < 16) :
    hexDigitValue ((String.data "0123456789abcdef").getD k '0') = some k := by
  interval_cases k <;> decide

/-- `readHex4` inverts the four hex digits that `toStringHexEscapeSequence`
emits for a 16-bit value. -/
theorem readHex4_of_hexDigits (r : Nat) (hr : r < 0x10000) (t : List Char) :
    readHex4 ((String.data "0123456789abcdef").getD (r / 4096 % 16) '0' ::
      (String.data "0123456789abcdef").getD (r / 256 % 16) '0' ::
      (String.data "0123456789abcdef").getD (r / 16 % 16) '0' ::
      (String.data "0123456789abcdef").getD (r % 16) '0' :: t) = .ok (r, t) := by
  rw [readHex4]
  simp only [hexDigitValue_table (show r / 4096 % 16 < 16 by omega),
    hexDigitValue_table (show r / 256 % 16 < 16 by omega),
    hexDigitValue_table (show r / 16 % 16 < 16 by omega),
    hexDigitValue_table (show r % 16 < 16 by omega)]
  have harith : ((r / 4096 % 16 * 16 + r / 256 % 16) * 16 + r / 16 % 16) * 16 + r % 16 = r := by
    omega
  rw [harith]

/-- A valid scalar value (any `Char`) is never in the UTF-16 surrogate range. -/
theorem char_not_surrogate (c : Char) : utf16IsSurrogate c.toNat = false := by
  have h : c.toNat < 0xD800 ∨ (0xE000 ≤ c.toNat ∧ c.toNat < 0x110000) := c.valid
  simp only [utf16IsSurrogate, Bool.and_eq_false_iff, decide_eq_false_iff_not]
  omega

/-- A valid scalar value is below 0x110000. -/
theorem char_toNat_lt (c : Char) : c.toNat < 0x110000 := by
  have h : c.toNat < 0xD800 ∨ (0xE000 ≤ c.toNat ∧ c.toNat < 0x110000) := c.valid
  omega

/-- Reading one non-surrogate `\uXXXX` escape appends its character. -/
theorem parseStringLoop_one_hex (r : Nat) (hr : r < 0x10000)
    (hs : utf16IsSurrogate r = false) (rest : List Char) :
    parseStringLoop 0 (toStringHexEscapeSequence r ++ rest) =
      match parseStringLoop 0 rest with
      | .ok (s, rr) => .ok (Char.ofNat r :: s, rr)
      | .error msg => .error msg := by
  rw [toStringHexEscapeSequence]
  simp only [List.cons_append, List.nil_append]
  rw [parseStringLoop.eq_def]
  simp +decide only []
  rw [readHex4_of_hexDigits r hr rest]
  simp +decide [hs]

/-- Reading a high-surrogate `\uXXXX` escape stores it as the pending value. -/
theorem parseStringLoop_hex_high (r : Nat) (h1 : 0xD800 ≤ r) (h2 : r < 0xDC00)
    (rest : List Char) :
    parseStringLoop 0 (toStringHexEscapeSequence r ++ rest) =
      parseStringLoop r rest := by
  rw [toStringHexEscapeSequence]
  simp only [List.cons_append, List.nil_append]
  rw [parseStringLoop.eq_def]
  simp +decide only []
  rw [readHex4_of_hexDigits r (by omega) rest]
  have hs : utf16IsSurrogate r = true := by
    simp only [utf16IsSurrogate, Bool.and_eq_true, decide_eq_true_eq]
    omega
  simp +decide [hs]

/-- With a high surrogate pending, reading the low-surrogate escape appends
the combined character. -/
theorem parseStringLoop_hex_low (hi lo : Nat) (hh1 : 0xD800 ≤ hi) (hh2 : hi < 0xDC00)
    (hl1 : 0xDC00 ≤ lo) (hl2 : lo < 0xE000) (rest : List Char) :
    parseStringLoop hi (toStringHexEscapeSequence lo ++ rest) =
      match parseStringLoop 0 rest with
      | .ok (s, r) => .ok (Char.ofNat (utf16DecodeRune hi lo) :: s, r)
      | .error msg => .error msg := by
  rw [toStringHexEscapeSequence]
  simp only [List.cons_append, List.nil_append]
  rw [parseStringLoop.eq_def]
  simp +decide only []
  rw [readHex4_of_hexDigits lo (by omega) rest]
  have hpos : hi > 0 := by omega
  have hne : ¬ utf16DecodeRune hi lo = 0xFFFD := by
    rw [utf16DecodeRune, if_pos]
    · omega
    · simp only [Bool.and_eq_true, decide_eq_true_eq]
      omega
  simp +decide [hpos, hne]

/-- One loop iteration undoes the minimal policy's encoding of any character
at or above 0x20: raw shorthand-escaped characters come back as themselves,
and hex escapes (single or surrogate pair) decode to the original character. -/
theorem parseStringLoop_encodeCharacter (c : Char) (hc : 0x20 ≤ c.toNat)
    (rest : List Char) :
    parseStringLoop 0 (encodeCharacter MinimalStringCharacterEscapingBehavior c ++ rest) =
      match parseStringLoop 0 rest with
      | .ok (s, r) => .ok (c :: s, r)
      | .error msg => .error msg := by
  by_cases h1 : c = '"'
  · subst h1
    have he : encodeCharacter MinimalStringCharacterEscapingBehavior '"' = ['\\', '"'] := by
      decide
    rw [he]
    simp only [List.cons_append, List.nil_append]
    rw [parseStringLoop.eq_def]
    simp +decide
    rfl
  by_cases h2 : c = '\\'
  · subst h2
    have he : encodeCharacter MinimalStringCharacterEscapingBehavior '\\' = ['\\', '\\'] := by
      decide
    rw [he]
    simp only [List.cons_append, List.nil_append]
    rw [parseStringLoop.eq_def]
    simp +decide
    rfl
  by_cases h3 : c = '/'
  · subst h3
    have he : encodeCharacter MinimalStringCharacterEscapingBehavior '/' = ['\\', '/'] := by
      decide
    rw [he]
    simp only [List.cons_append, List.nil_append]
    rw [parseStringLoop.eq_def]
    simp +decide
    rfl
  have hsh : shorthandStringCharacterEscapeSequences c = none := by
    rw [shorthandStringCharacterEscapeSequences]
    rw [if_neg h1, if_neg h2, if_neg h3,
      if_neg (show ¬ c = Char.ofNat 8 by intro h; subst h; revert hc; decide),
      if_neg (show ¬ c = Char.ofNat 12 by intro h; subst h; revert hc; decide),
      if_neg (show ¬ c = '\n' by intro h; subst h; revert hc; decide),
      if_neg (show ¬ c = '\r' by intro h; subst h; revert hc; decide),
      if_neg (show ¬ c = '\t' by intro h; subst h; revert hc; decide)]
  have hn : ¬ c.toNat ≤ 0x1F := by omega
  have hguard : encodeCharacter MinimalStringCharacterEscapingBehavior c =
      encodeCharacterHex c := by
    simp [encodeCharacter, hsh, hn]
  rw [hguard, encodeCharacterHex]
  by_cases hbig : 0x10000 ≤ c.toNat
  · rw [if_pos hbig, List.append_assoc]
    rw [parseStringLoop_hex_high _ (by omega)
      (by have := char_toNat_lt c; omega)]
    rw [parseStringLoop_hex_low _ _ (by omega)
      (by have := char_toNat_lt c; omega) (by omega) (by omega)]
    have hval : utf16DecodeRune (0xD800 + (c.toNat - 0x10000) / 0x400)
        (0xDC00 + (c.toNat - 0x10000) % 0x400) = c.toNat := by
      rw [utf16DecodeRune, if_pos]
      · omega
      · simp only [Bool.and_eq_true, decide_eq_true_eq]
        have := char_toNat_lt c
        omega
    rw [hval, Char.ofNat_toNat]
  · rw [if_neg hbig]
    rw [parseStringLoop_one_hex c.toNat (by omega) (char_not_surrogate c) rest]
    rw [Char.ofNat_toNat]

/-- The loop undoes the encoding of a whole control-free string body, stopping
at the closing quote. -/
theorem parseStringLoop_encodeBody (s : List Char) (hs : controlFree s = true)
    (t : List Char) :
    parseStringLoop 0
        ((s.map (encodeCharacter MinimalStringCharacterEscapingBehavior)).flatten
          ++ '"' :: t) = .ok (s, t) := by
  induction s with
  | nil =>
    simp only [List.map_nil, List.flatten_nil, List.nil_append]
    rw [parseStringLoop.eq_def]
    simp +decide
  | cons c cs ih =>
    have hparts : 0x20 ≤ c.toNat ∧ controlFree cs = true := by
      simpa [controlFree] using hs
    simp only [List.map_cons, List.flatten_cons, List.append_assoc]
    rw [parseStringLoop_encodeCharacter c hparts.1]
    rw [ih hparts.2]

/-- `parseString` inverts `encodeString` under the minimal policy for
control-free strings, leaving the remainder untouched. -/
theorem parseString_encodeString (s : List Char) (hs : controlFree s = true)
    (t : List Char) :
    parseString (encodeString s MinimalStringCharacterEscapingBehavior ++ t) =
      .ok (s, t) := by
  rw [encodeString]
  simp only [List.cons_append, List.append_assoc, List.singleton_append]
  rw [parseString]
  simp +decide only []
  exact parseStringLoop_encodeBody s hs t

end GoJson

namespace GoJson

/-- `extractIdentifier` consumes exactly the literal `true` when a non-letter
follows. -/
theorem extractIdentifier_true (c : Char) (h1 : c ≠ replacementChar)
    (h2 : isIdentifierCharacter c = false) (t : List Char) :
    extractIdentifier (trueChars ++ c :: t) = .ok (trueChars, c :: t) := by
  simp +decide [trueChars, extractIdentifier, identifierLoop, h1, h2]

/-- `extractIdentifier` consumes exactly the literal `false` when a non-letter
follows. -/
theorem extractIdentifier_false (c : Char) (h1 : c ≠ replacementChar)
    (h2 : isIdentifierCharacter c = false) (t : List Char) :
    extractIdentifier (falseChars ++ c :: t) = .ok (falseChars, c :: t) := by
  simp +decide [falseChars, extractIdentifier, identifierLoop, h1, h2]

/-- `extractIdentifier` consumes exactly the literal `null` when a non-letter
follows. -/
theorem extractIdentifier_null (c : Char) (h1 : c ≠ replacementChar)
    (h2 : isIdentifierCharacter c = false) (t : List Char) :
    extractIdentifier (nullChars ++ c :: t) = .ok (nullChars, c :: t) := by
  simp +decide [nullChars, extractIdentifier, identifierLoop, h1, h2]

end GoJson

namespace GoJson

/-- Parsing one member of a well-formed model from the member loop: the loop
consumes the member's piece, updates the accumulator with exactly that member
(up to nested equivalence), and then either returns at a closing brace or
recurses past a comma. -/
theorem parseObjectMembers_member_step (o : ObjectStruct) (k : List Char)
    (hcf : controlFree k = true) (hkc : kindCount o k = 1)
    (hsv : ∀ v, mapLookup o.strings k = some v → controlFree v = true)
    (hnv : ∀ v, mapLookup o.numbers k = some v → posNumberMatch v = true)
    (hov : ∀ v, mapLookup o.objects k = some v → wfObject v = true)
    (hav : ∀ v, mapLookup o.arrays k = some v → wfArray v = true)
    (f : Nat)
    (oracleO : ∀ v, mapLookup o.objects k = some v → wfObject v = true →
      ∀ t2, objectFuelNeed v ≤ f →
      ∃ v2, parseEmbeddedObject f
          (ObjectStruct.String MinimalStringCharacterEscapingBehavior v ++ t2) =
        .ok (v2, t2) ∧ ObjEquiv v v2)
    (oracleA : ∀ v, mapLookup o.arrays k = some v → wfArray v = true →
      ∀ t2, arrayFuelNeed v ≤ f →
      ∃ v2, parseEmbeddedArray f
          (ArrayStruct.String MinimalStringCharacterEscapingBehavior v ++ t2) =
        .ok (v2, t2) ∧ ArrEquiv v v2)
    (hneedO : ∀ v, mapLookup o.objects k = some v → objectFuelNeed v ≤ f)
    (hneedA : ∀ v, mapLookup o.arrays k = some v → arrayFuelNeed v ≤ f)
    (done : List (List Char)) (acc : ObjectStruct) (hk : ¬ k ∈ done)
    (hacc : ObjRestrict o done acc)
    (b : Char) (hb : b = ',' ∨ b = rightBraceChar) (u : List Char) :
    ∃ acc2, ObjRestrict o (done ++ [k]) acc2 ∧
      parseObjectMembers (f + 1) acc
          (objectMemberPiece MinimalStringCharacterEscapingBehavior o k ++ b :: u) =
        (if b = rightBraceChar then .ok (acc2, u)
         else parseObjectMembers f acc2 u) := by
  have hbfacts : b ≠ replacementChar ∧ isWhitespaceCharacter b = false ∧
      numberBoundary b = true ∧ isIdentifierCharacter b = false ∧
      b ≠ leftBraceChar ∧ b ≠ '[' ∧ b ≠ '"' := by
    rcases hb with h | h <;> subst h <;>
      exact ⟨by decide, by decide, by decide, by decide, by decide, by decide, by decide⟩
  have htext : objectMemberPiece MinimalStringCharacterEscapingBehavior o k ++ b :: u =
      '"' :: (((k.map (encodeCharacter MinimalStringCharacterEscapingBehavior)).flatten
        ++ ['"']) ++ (':' :: (objectValueText MinimalStringCharacterEscapingBehavior o k
          ++ b :: u))) := by
    simp [objectMemberPiece, encodeString]
  rw [htext, parseObjectMembers.eq_def]
  rw [skipWhitespace_nows (by decide) (by decide)]
  simp +decide only []
  have hps : parseString ('"' ::
      (((k.map (encodeCharacter MinimalStringCharacterEscapingBehavior)).flatten
        ++ ['"']) ++ (':' :: (objectValueText MinimalStringCharacterEscapingBehavior o k
          ++ b :: u)))) =
      .ok (k, ':' :: (objectValueText MinimalStringCharacterEscapingBehavior o k
        ++ b :: u)) := by
    have h := parseString_encodeString k hcf
      (':' :: (objectValueText MinimalStringCharacterEscapingBehavior o k ++ b :: u))
    rw [encodeString] at h
    simpa using h
  rw [hps]
  simp +decide only [hacc.has_false hk]
  rw [skipWhitespace_nows (by decide) (by decide)]
  simp +decide only []
  simp only [if_false]
  rcases h1 : mapLookup o.strings k with _ | v
  rotate_left
  · -- string member
    obtain ⟨hn2, hn3, hn4, hn5, hn6⟩ := kindCount_one_strings h1 hkc
    have hcfv := hsv v h1
    have hvt : objectValueText MinimalStringCharacterEscapingBehavior o k =
        encodeString v MinimalStringCharacterEscapingBehavior := by
      simp only [objectValueText, h1]
    rw [hvt]
    have hshape : encodeString v MinimalStringCharacterEscapingBehavior ++ b :: u =
        '"' :: ((v.map (encodeCharacter MinimalStringCharacterEscapingBehavior)).flatten
          ++ ['"'] ++ (b :: u)) := by
      simp [encodeString]
    rw [hshape]
    rw [skipWhitespace_nows (by decide) (by decide)]
    simp +decide only []
    have hps2 : parseString ('"' ::
        ((v.map (encodeCharacter MinimalStringCharacterEscapingBehavior)).flatten
          ++ ['"'] ++ (b :: u))) = .ok (v, b :: u) := by
      have h := parseString_encodeString v hcfv (b :: u)
      rw [encodeString] at h
      simpa using h
    rw [hps2]
    simp +decide only [if_true, if_false]
    rw [skipWhitespace_nows hbfacts.1 hbfacts.2.1]
    simp +decide only []
    refine ⟨acc.SetString k v,
      hacc.objStepString hk h1 hn2 hn3 hn4 hn5 hn6, ?_⟩
    rcases hb with hbe | hbe <;> subst hbe <;> simp +decide
  rcases h2 : mapLookup o.numbers k with _ | v
  rotate_left
  · -- number member
    obtain ⟨hn1, hn3, hn4, hn5, hn6⟩ := kindCount_one_numbers h2 hkc
    have hmatch := hnv v h2
    obtain ⟨n0, nr, hN, hdig⟩ := posNumberMatch_head hmatch
    have hdf := digit_char_facts hdig
    have hvt : objectValueText MinimalStringCharacterEscapingBehavior o k = v := by
      simp only [objectValueText, h1, h2]
    rw [hvt]
    have hnum : extractNumber (v ++ b :: u) = .ok (v, b :: u) :=
      extractNumber_eval hmatch hbfacts.2.2.1 u
    have heq : v ++ b :: u = n0 :: (nr ++ b :: u) := by rw [hN]; rfl
    rw [heq] at hnum ⊢
    rw [skipWhitespace_nows hdf.1 hdf.2.1]
    simp +decide only [hdf.2.2.1, hdf.2.2.2.2.1, hdf.2.2.2.2.2.1, hdig, hnum, if_true,
      if_false]
    rw [skipWhitespace_nows hbfacts.1 hbfacts.2.1]
    simp +decide only []
    refine ⟨acc.SetNumber k v,
      hacc.objStepNumber hk h2 hn1 hn3 hn4 hn5 hn6, ?_⟩
    rw [hN]
    rcases hb with hbe | hbe <;> subst hbe <;> simp +decide
  rcases h3 : mapLookup o.bools k with _ | v
  rotate_left
  · -- boolean member
    obtain ⟨hn1, hn2, hn4, hn5, hn6⟩ := kindCount_one_bools h3 hkc
    cases v
    · -- false
      have hvt : objectValueText MinimalStringCharacterEscapingBehavior o k =
          falseChars := by
        simp [objectValueText, h1, h2, h3]
      rw [hvt]
      have hid := extractIdentifier_false b hbfacts.1 hbfacts.2.2.2.1 u
      simp only [falseChars, List.cons_append, List.nil_append] at hid ⊢
      rw [skipWhitespace_nows (by decide) (by decide)]
      simp +decide only [hid, if_true, if_false]
      rw [skipWhitespace_nows hbfacts.1 hbfacts.2.1]
      simp +decide only []
      refine ⟨acc.SetBool k false,
        hacc.objStepBool hk h3 hn1 hn2 hn4 hn5 hn6, ?_⟩
      rcases hb with hbe | hbe <;> subst hbe <;> simp +decide
    · -- true
      have hvt : objectValueText MinimalStringCharacterEscapingBehavior o k =
          trueChars := by
        simp [objectValueText, h1, h2, h3]
      rw [hvt]
      have hid := extractIdentifier_true b hbfacts.1 hbfacts.2.2.2.1 u
      simp only [trueChars, List.cons_append, List.nil_append] at hid ⊢
      rw [skipWhitespace_nows (by decide) (by decide)]
      simp +decide only [hid, if_true, if_false]
      rw [skipWhitespace_nows hbfacts.1 hbfacts.2.1]
      simp +decide only []
      refine ⟨acc.SetBool k true,
        hacc.objStepBool hk h3 hn1 hn2 hn4 hn5 hn6, ?_⟩
      rcases hb with hbe | hbe <;> subst hbe <;> simp +decide
  rcases h4 : mapLookup o.nulls k with _ | v
  rotate_left
  · -- null member
    obtain ⟨⟩ := v
    obtain ⟨hn1, hn2, hn3, hn5, hn6⟩ := kindCount_one_nulls h4 hkc
    have hvt : objectValueText MinimalStringCharacterEscapingBehavior o k = nullChars := by
      simp only [objectValueText, h1, h2, h3, h4]
    rw [hvt]
    have hid := extractIdentifier_null b hbfacts.1 hbfacts.2.2.2.1 u
    simp only [nullChars, List.cons_append, List.nil_append] at hid ⊢
    rw [skipWhitespace_nows (by decide) (by decide)]
    simp +decide only [hid, if_true, if_false]
    rw [skipWhitespace_nows hbfacts.1 hbfacts.2.1]
    simp +decide only []
    refine ⟨acc.SetNull k,
      hacc.objStepNull hk h4 hn1 hn2 hn3 hn5 hn6, ?_⟩
    rcases hb with hbe | hbe <;> subst hbe <;> simp +decide
  rcases h5 : mapLookup o.objects k with _ | v
  rotate_left
  · -- nested object member
    obtain ⟨hn1, hn2, hn3, hn4, hn6⟩ := kindCount_one_objects h5 hkc
    have hwfv := hov v h5
    have hvt : objectValueText MinimalStringCharacterEscapingBehavior o k =
        ObjectStruct.String MinimalStringCharacterEscapingBehavior v := by
      simp only [objectValueText, h1, h2, h3, h4, h5]
    rw [hvt]
    obtain ⟨w, hw⟩ := objectString_head MinimalStringCharacterEscapingBehavior v
      (fun k2 hk2 => by rw [wfObjectKeys_all (wfObject_parts hwfv).2 k2 hk2]; omega)
    obtain ⟨v2, hpe, hequiv⟩ := oracleO v h5 hwfv (b :: u) (hneedO v h5)
    rw [hw] at hpe ⊢
    simp only [List.cons_append] at hpe ⊢
    rw [skipWhitespace_nows (by decide) (by decide)]
    simp +decide only [hpe, if_true, if_false]
    rw [skipWhitespace_nows hbfacts.1 hbfacts.2.1]
    simp +decide only []
    refine ⟨acc.SetJSONObject k v2,
      hacc.objStepObject hk h5 hequiv hn1 hn2 hn3 hn4 hn6, ?_⟩
    rcases hb with hbe | hbe <;> subst hbe <;> simp +decide
  rcases h6 : mapLookup o.arrays k with _ | v
  rotate_left
  · -- nested array member
    obtain ⟨hn1, hn2, hn3, hn4, hn5⟩ := kindCount_one_arrays h6 hkc
    have hwfv := hav v h6
    have hvt : objectValueText MinimalStringCharacterEscapingBehavior o k =
        ArrayStruct.String MinimalStringCharacterEscapingBehavior v := by
      simp only [objectValueText, h1, h2, h3, h4, h5, h6]
    rw [hvt]
    obtain ⟨w, hw⟩ := arrayString_head MinimalStringCharacterEscapingBehavior v
      (fun i2 hi2 => by rw [wfArraySlots_all (wfArray_parts hwfv).2 i2 hi2]; omega)
    obtain ⟨v2, hpe, hequiv⟩ := oracleA v h6 hwfv (b :: u) (hneedA v h6)
    rw [hw] at hpe ⊢
    simp only [List.cons_append] at hpe ⊢
    rw [skipWhitespace_nows (by decide) (by decide)]
    simp +decide only [hpe, if_true, if_false]
    rw [skipWhitespace_nows hbfacts.1 hbfacts.2.1]
    simp +decide only []
    refine ⟨acc.SetJSONArray k v2,
      hacc.objStepArray hk h6 hequiv hn1 hn2 hn3 hn4 hn5, ?_⟩
    rcases hb with hbe | hbe <;> subst hbe <;> simp +decide
  · -- no kind bound: impossible
    exfalso
    simp [kindCount, h1, h2, h3, h4, h5, h6] at hkc

end GoJson

namespace GoJson

/-- The member loop always needs at least one fuel step. -/
theorem objectKeysFuelNeed_pos (o : ObjectStruct) : ∀ ks, 1 ≤ objectKeysFuelNeed o ks := by
  intro ks
  cases ks with
  | nil =>
    rw [objectKeysFuelNeed.eq_def]
  | cons k ks =>
    rw [objectKeysFuelNeed.eq_def]
    simp only []
    omega

/-- The element loop always needs at least one fuel step. -/
theorem arraySlotsFuelNeed_pos (a : ArrayStruct) : ∀ is, 1 ≤ arraySlotsFuelNeed a is := by
  intro is
  cases is with
  | nil =>
    rw [arraySlotsFuelNeed.eq_def]
  | cons i is =>
    rw [arraySlotsFuelNeed.eq_def]
    simp only []
    omega

/-- The empty member loop needs exactly one step (to read the brace). -/
theorem objectKeysFuelNeed_nil (o : ObjectStruct) : objectKeysFuelNeed o [] = 1 := by
  rw [objectKeysFuelNeed.eq_def]

/-- The empty element loop needs exactly one step (to read the bracket). -/
theorem arraySlotsFuelNeed_nil (a : ArrayStruct) : arraySlotsFuelNeed a [] = 1 := by
  rw [arraySlotsFuelNeed.eq_def]

/-- Splitting the fuel bound of a member loop step: enough fuel for a nested
container value (under the fold's objects-then-arrays priority) and for the
remaining keys. -/
theorem objectKeysFuelNeed_cons_parts {o : ObjectStruct} {k : List Char}
    {ks : List (List Char)} {f : Nat}
    (h : objectKeysFuelNeed o (k :: ks) ≤ f + 1) :
    (∀ v, mapLookup o.objects k = some v → objectFuelNeed v ≤ f) ∧
    (mapLookup o.objects k = none →
      ∀ v, mapLookup o.arrays k = some v → arrayFuelNeed v ≤ f) ∧
    objectKeysFuelNeed o ks ≤ f := by
  have hpos := objectKeysFuelNeed_pos o ks
  rw [objectKeysFuelNeed.eq_def] at h
  simp only [] at h
  split at h
  · rename_i v2 hv2
    refine ⟨?_, ?_, by omega⟩
    · intro v hv
      rw [hv2] at hv
      injection hv with he
      subst he
      omega
    · intro hnone
      rw [hv2] at hnone
      exact absurd hnone (by simp)
  · rename_i hnone
    split at h
    · rename_i v2 hv2
      refine ⟨?_, ?_, by omega⟩
      · intro v hv
        rw [hnone] at hv
        exact absurd hv (by simp)
      · intro _ v hv
        rw [hv2] at hv
        injection hv with he
        subst he
        omega
    · rename_i hnone2
      refine ⟨?_, ?_, by omega⟩
      · intro v hv
        rw [hnone] at hv
        exact absurd hv (by simp)
      · intro _ v hv
        rw [hnone2] at hv
        exact absurd hv (by simp)

/-- Splitting the fuel bound of an element loop step. -/
theorem arraySlotsFuelNeed_cons_parts {a : ArrayStruct} {i : Int}
    {is : List Int} {f : Nat}
    (h : arraySlotsFuelNeed a (i :: is) ≤ f + 1) :
    (∀ v, mapLookup a.objects i = some v → objectFuelNeed v ≤ f) ∧
    (mapLookup a.objects i = none →
      ∀ v, mapLookup a.arrays i = some v → arrayFuelNeed v ≤ f) ∧
    arraySlotsFuelNeed a is ≤ f := by
  have hpos := arraySlotsFuelNeed_pos a is
  rw [arraySlotsFuelNeed.eq_def] at h
  simp only [] at h
  split at h
  · rename_i v2 hv2
    refine ⟨?_, ?_, by omega⟩
    · intro v hv
      rw [hv2] at hv
      injection hv with he
      subst he
      omega
    · intro hnone
      rw [hv2] at hnone
      exact absurd hnone (by simp)
  · rename_i hnone
    split at h
    · rename_i v2 hv2
      refine ⟨?_, ?_, by omega⟩
      · intro v hv
        rw [hnone] at hv
        exact absurd hv (by simp)
      · intro _ v hv
        rw [hv2] at hv
        injection hv with he
        subst he
        omega
    · rename_i hnone2
      refine ⟨?_, ?_, by omega⟩
      · intro v hv
        rw [hnone] at hv
        exact absurd hv (by simp)
      · intro _ v hv
        rw [hnone2] at hv
        exact absurd hv (by simp)

end GoJson

namespace GoJson

/-- The member loop parses the serialised members of a well-formed model key
list, extending the accumulator invariant key by key, and stops at the
closing brace. -/
theorem parseObjectMembers_loop (o : ObjectStruct)
    (oracleO : ∀ k v, mapLookup o.objects k = some v → wfObject v = true →
      ∀ fuel t2, objectFuelNeed v ≤ fuel →
      ∃ v2, parseEmbeddedObject fuel
          (ObjectStruct.String MinimalStringCharacterEscapingBehavior v ++ t2) =
        .ok (v2, t2) ∧ ObjEquiv v v2)
    (oracleA : ∀ k v, mapLookup o.arrays k = some v → wfArray v = true →
      ∀ fuel t2, arrayFuelNeed v ≤ fuel →
      ∃ v2, parseEmbeddedArray fuel
          (ArrayStruct.String MinimalStringCharacterEscapingBehavior v ++ t2) =
        .ok (v2, t2) ∧ ArrEquiv v v2) :
    ∀ ks done acc fuel t,
      wfObjectKeys o ks = true →
      (∀ k, k ∈ ks → ¬ k ∈ done) →
      ks.Nodup →
      ObjRestrict o done acc →
      objectKeysFuelNeed o ks ≤ fuel →
      ∃ o2, parseObjectMembers fuel acc
          (objectMembersText MinimalStringCharacterEscapingBehavior o ks ++
            rightBraceChar :: t) = .ok (o2, t) ∧
        ObjRestrict o (done ++ ks) o2 := by
  intro ks
  induction ks with
  | nil =>
    intro done acc fuel t hwf hdisj hnd hacc hfuel
    rw [objectKeysFuelNeed_nil] at hfuel
    cases fuel with
    | zero => omega
    | succ f =>
      refine ⟨acc, ?_, by simpa using hacc⟩
      have htext : objectMembersText MinimalStringCharacterEscapingBehavior o [] ++
          rightBraceChar :: t = rightBraceChar :: t := rfl
      rw [htext, parseObjectMembers.eq_def]
      rw [skipWhitespace_nows (by decide) (by decide)]
      simp +decide
  | cons k ks ih =>
    intro done acc fuel t hwf hdisj hnd hacc hfuel
    obtain ⟨hcf, hkc, hsv, hnv, hov, hav, hrest⟩ := wfObjectKeys_cons hwf
    cases fuel with
    | zero =>
      have := objectKeysFuelNeed_pos o (k :: ks)
      omega
    | succ f =>
      obtain ⟨hneedO, hneedACond, hneedKs⟩ := objectKeysFuelNeed_cons_parts hfuel
      have hneedA : ∀ v, mapLookup o.arrays k = some v → arrayFuelNeed v ≤ f := by
        intro v hv
        exact hneedACond (kindCount_one_arrays hv hkc).2.2.2.2 v hv
      have hknotdone : ¬ k ∈ done := hdisj k (by simp)
      rcases ks with _ | ⟨k2, ks2⟩
      · have htext : objectMembersText MinimalStringCharacterEscapingBehavior o [k] ++
            rightBraceChar :: t =
            objectMemberPiece MinimalStringCharacterEscapingBehavior o k ++
              rightBraceChar :: t := rfl
        rw [htext]
        obtain ⟨acc2, hrestrict, hparse⟩ := parseObjectMembers_member_step o k hcf hkc
          hsv hnv hov hav f
          (fun v hv hwfv t2 hne => oracleO k v hv hwfv f t2 hne)
          (fun v hv hwfv t2 hne => oracleA k v hv hwfv f t2 hne)
          hneedO hneedA done acc hknotdone hacc rightBraceChar (Or.inr rfl) t
        rw [hparse, if_pos rfl]
        exact ⟨acc2, rfl, hrestrict⟩
      · have htext : objectMembersText MinimalStringCharacterEscapingBehavior o
            (k :: k2 :: ks2) ++ rightBraceChar :: t =
            objectMemberPiece MinimalStringCharacterEscapingBehavior o k ++ ',' ::
              (objectMembersText MinimalStringCharacterEscapingBehavior o (k2 :: ks2) ++
                rightBraceChar :: t) := by
          have hstep : objectMembersText MinimalStringCharacterEscapingBehavior o
              (k :: k2 :: ks2) =
              objectMemberPiece MinimalStringCharacterEscapingBehavior o k ++ ',' ::
                objectMembersText MinimalStringCharacterEscapingBehavior o (k2 :: ks2) :=
            rfl
          rw [hstep]
          simp
        rw [htext]
        obtain ⟨acc2, hrestrict, hparse⟩ := parseObjectMembers_member_step o k hcf hkc
          hsv hnv hov hav f
          (fun v hv hwfv t2 hne => oracleO k v hv hwfv f t2 hne)
          (fun v hv hwfv t2 hne => oracleA k v hv hwfv f t2 hne)
          hneedO hneedA done acc hknotdone hacc ',' (Or.inl rfl)
          (objectMembersText MinimalStringCharacterEscapingBehavior o (k2 :: ks2) ++
            rightBraceChar :: t)
        rw [hparse, if_neg (by decide)]
        have hdisj2 : ∀ k3, k3 ∈ (k2 :: ks2) → ¬ k3 ∈ done ++ [k] := by
          intro k3 hk3
          simp only [List.mem_append, List.mem_singleton]
          rintro (hin | heq)
          · exact hdisj k3 (by simp [hk3]) hin
          · subst heq
            exact (List.nodup_cons.mp hnd).1 hk3
        have hnd2 : (k2 :: ks2).Nodup := (List.nodup_cons.mp hnd).2
        obtain ⟨o2, hp2, hr2⟩ := ih (done ++ [k]) acc2 f t hrest hdisj2 hnd2 hrestrict
          hneedKs
        refine ⟨o2, hp2, ?_⟩
        have hre : done ++ k :: k2 :: ks2 = (done ++ [k]) ++ k2 :: ks2 := by simp
        rw [hre]
        exact hr2

end GoJson

namespace GoJson

/-- Parsing one element of a well-formed model from the element loop: the loop
consumes the element's value text, appends exactly that element to the
accumulator (up to nested equivalence), and then either returns at a closing
bracket or recurses past a comma. -/
theorem parseArrayElements_element_step (a : ArrayStruct) (n : Int)
    (hkc : arrKindCount a n = 1)
    (hsv : ∀ v, mapLookup a.strings n = some v → controlFree v = true)
    (hnv : ∀ v, mapLookup a.numbers n = some v → posNumberMatch v = true)
    (hov : ∀ v, mapLookup a.objects n = some v → wfObject v = true)
    (hav : ∀ v, mapLookup a.arrays n = some v → wfArray v = true)
    (f : Nat)
    (oracleO : ∀ v, mapLookup a.objects n = some v → wfObject v = true →
      ∀ t2, objectFuelNeed v ≤ f →
      ∃ v2, parseEmbeddedObject f
          (ObjectStruct.String MinimalStringCharacterEscapingBehavior v ++ t2) =
        .ok (v2, t2) ∧ ObjEquiv v v2)
    (oracleA : ∀ v, mapLookup a.arrays n = some v → wfArray v = true →
      ∀ t2, arrayFuelNeed v ≤ f →
      ∃ v2, parseEmbeddedArray f
          (ArrayStruct.String MinimalStringCharacterEscapingBehavior v ++ t2) =
        .ok (v2, t2) ∧ ArrEquiv v v2)
    (hneedO : ∀ v, mapLookup a.objects n = some v → objectFuelNeed v ≤ f)
    (hneedA : ∀ v, mapLookup a.arrays n = some v → arrayFuelNeed v ≤ f)
    (acc : ArrayStruct) (hacc : ArrRestrict a n acc)
    (b : Char) (hb : b = ',' ∨ b = ']') (u : List Char) :
    ∃ acc2, ArrRestrict a (n + 1) acc2 ∧
      parseArrayElements (f + 1) acc
          (arrayValueText MinimalStringCharacterEscapingBehavior a n ++ b :: u) =
        (if b = ']' then .ok (acc2, u) else parseArrayElements f acc2 u) := by
  have hbfacts : b ≠ replacementChar ∧ isWhitespaceCharacter b = false ∧
      numberBoundary b = true ∧ isIdentifierCharacter b = false := by
    rcases hb with h | h <;> subst h <;>
      exact ⟨by decide, by decide, by decide, by decide⟩
  rw [parseArrayElements.eq_def]
  rcases h1 : mapLookup a.strings n with _ | v
  rotate_left
  · -- string element
    obtain ⟨hn2, hn3, hn4, hn5, hn6⟩ := arrKindCount_one_strings h1 hkc
    have hcfv := hsv v h1
    have hvt : arrayValueText MinimalStringCharacterEscapingBehavior a n =
        encodeString v MinimalStringCharacterEscapingBehavior := by
      simp only [arrayValueText, h1]
    rw [hvt]
    have hshape : encodeString v MinimalStringCharacterEscapingBehavior ++ b :: u =
        '"' :: ((v.map (encodeCharacter MinimalStringCharacterEscapingBehavior)).flatten
          ++ ['"'] ++ (b :: u)) := by
      simp [encodeString]
    rw [hshape]
    rw [skipWhitespace_nows (by decide) (by decide)]
    simp +decide only []
    have hps2 : parseString ('"' ::
        ((v.map (encodeCharacter MinimalStringCharacterEscapingBehavior)).flatten
          ++ ['"'] ++ (b :: u))) = .ok (v, b :: u) := by
      have h := parseString_encodeString v hcfv (b :: u)
      rw [encodeString] at h
      simpa using h
    simp +decide only [hps2, if_true, if_false]
    rw [skipWhitespace_nows hbfacts.1 hbfacts.2.1]
    simp +decide only []
    refine ⟨acc.AddString v,
      hacc.arrStepString h1 hn2 hn3 hn4 hn5 hn6, ?_⟩
    rcases hb with hbe | hbe <;> subst hbe <;> simp +decide
  rcases h2 : mapLookup a.numbers n with _ | v
  rotate_left
  · -- number element
    obtain ⟨hn1, hn3, hn4, hn5, hn6⟩ := arrKindCount_one_numbers h2 hkc
    have hmatch := hnv v h2
    obtain ⟨n0, nr, hN, hdig⟩ := posNumberMatch_head hmatch
    have hdf := digit_char_facts hdig
    have hnrb : n0 ≠ ']' := fun h => by subst h; exact absurd hdig (by decide)
    have hvt : arrayValueText MinimalStringCharacterEscapingBehavior a n = v := by
      simp only [arrayValueText, h1, h2]
    rw [hvt]
    have hnum : extractNumber (v ++ b :: u) = .ok (v, b :: u) :=
      extractNumber_eval hmatch hbfacts.2.2.1 u
    have heq : v ++ b :: u = n0 :: (nr ++ b :: u) := by rw [hN]; rfl
    rw [heq] at hnum ⊢
    rw [skipWhitespace_nows hdf.1 hdf.2.1]
    simp +decide only [hdf.1, hdf.2.2.1, hdf.2.2.2.2.1, hdf.2.2.2.2.2.1, hnrb, hdig,
      hnum, if_true, if_false]
    rw [skipWhitespace_nows hbfacts.1 hbfacts.2.1]
    simp +decide only []
    refine ⟨acc.AddNumber v,
      hacc.arrStepNumber h2 hn1 hn3 hn4 hn5 hn6, ?_⟩
    rw [hN]
    rcases hb with hbe | hbe <;> subst hbe <;> simp +decide
  rcases h3 : mapLookup a.bools n with _ | v
  rotate_left
  · -- boolean element
    obtain ⟨hn1, hn2, hn4, hn5, hn6⟩ := arrKindCount_one_bools h3 hkc
    cases v
    · have hvt : arrayValueText MinimalStringCharacterEscapingBehavior a n =
          falseChars := by
        simp [arrayValueText, h1, h2, h3]
      rw [hvt]
      have hid := extractIdentifier_false b hbfacts.1 hbfacts.2.2.2 u
      simp only [falseChars, List.cons_append, List.nil_append] at hid ⊢
      rw [skipWhitespace_nows (by decide) (by decide)]
      simp +decide only [hid, if_true, if_false]
      rw [skipWhitespace_nows hbfacts.1 hbfacts.2.1]
      simp +decide only []
      refine ⟨acc.AddBool false,
        hacc.arrStepBool h3 hn1 hn2 hn4 hn5 hn6, ?_⟩
      rcases hb with hbe | hbe <;> subst hbe <;> simp +decide
    · have hvt : arrayValueText MinimalStringCharacterEscapingBehavior a n =
          trueChars := by
        simp [arrayValueText, h1, h2, h3]
      rw [hvt]
      have hid := extractIdentifier_true b hbfacts.1 hbfacts.2.2.2 u
      simp only [trueChars, List.cons_append, List.nil_append] at hid ⊢
      rw [skipWhitespace_nows (by decide) (by decide)]
      simp +decide only [hid, if_true, if_false]
      rw [skipWhitespace_nows hbfacts.1 hbfacts.2.1]
      simp +decide only []
      refine ⟨acc.AddBool true,
        hacc.arrStepBool h3 hn1 hn2 hn4 hn5 hn6, ?_⟩
      rcases hb with hbe | hbe <;> subst hbe <;> simp +decide
  rcases h4 : mapLookup a.nulls n with _ | v
  rotate_left
  · -- null element
    obtain ⟨⟩ := v
    obtain ⟨hn1, hn2, hn3, hn5, hn6⟩ := arrKindCount_one_nulls h4 hkc
    have hvt : arrayValueText MinimalStringCharacterEscapingBehavior a n =
        nullChars := by
      simp only [arrayValueText, h1, h2, h3, h4]
    rw [hvt]
    have hid := extractIdentifier_null b hbfacts.1 hbfacts.2.2.2 u
    simp only [nullChars, List.cons_append, List.nil_append] at hid ⊢
    rw [skipWhitespace_nows (by decide) (by decide)]
    simp +decide only [hid, if_true, if_false]
    rw [skipWhitespace_nows hbfacts.1 hbfacts.2.1]
    simp +decide only []
    refine ⟨acc.AddNull,
      hacc.arrStepNull h4 hn1 hn2 hn3 hn5 hn6, ?_⟩
    rcases hb with hbe | hbe <;> subst hbe <;> simp +decide
  rcases h5 : mapLookup a.objects n with _ | v
  rotate_left
  · -- nested object element
    obtain ⟨hn1, hn2, hn3, hn4, hn6⟩ := arrKindCount_one_objects h5 hkc
    have hwfv := hov v h5
    have hvt : arrayValueText MinimalStringCharacterEscapingBehavior a n =
        ObjectStruct.String MinimalStringCharacterEscapingBehavior v := by
      simp only [arrayValueText, h1, h2, h3, h4, h5]
    rw [hvt]
    obtain ⟨w, hw⟩ := objectString_head MinimalStringCharacterEscapingBehavior v
      (fun k2 hk2 => by rw [wfObjectKeys_all (wfObject_parts hwfv).2 k2 hk2]; omega)
    obtain ⟨v2, hpe, hequiv⟩ := oracleO v h5 hwfv (b :: u) (hneedO v h5)
    rw [hw] at hpe ⊢
    simp only [List.cons_append] at hpe ⊢
    rw [skipWhitespace_nows (by decide) (by decide)]
    simp +decide only [hpe, if_true, if_false]
    rw [skipWhitespace_nows hbfacts.1 hbfacts.2.1]
    simp +decide only []
    refine ⟨acc.AddJSONObject v2,
      hacc.arrStepObject h5 hequiv hn1 hn2 hn3 hn4 hn6, ?_⟩
    rcases hb with hbe | hbe <;> subst hbe <;> simp +decide
  rcases h6 : mapLookup a.arrays n with _ | v
  rotate_left
  · -- nested array element
    obtain ⟨hn1, hn2, hn3, hn4, hn5⟩ := arrKindCount_one_arrays h6 hkc
    have hwfv := hav v h6
    have hvt : arrayValueText MinimalStringCharacterEscapingBehavior a n =
        ArrayStruct.String MinimalStringCharacterEscapingBehavior v := by
      simp only [arrayValueText, h1, h2, h3, h4, h5, h6]
    rw [hvt]
    obtain ⟨w, hw⟩ := arrayString_head MinimalStringCharacterEscapingBehavior v
      (fun i2 hi2 => by rw [wfArraySlots_all (wfArray_parts hwfv).2 i2 hi2]; omega)
    obtain ⟨v2, hpe, hequiv⟩ := oracleA v h6 hwfv (b :: u) (hneedA v h6)
    rw [hw] at hpe ⊢
    simp only [List.cons_append] at hpe ⊢
    rw [skipWhitespace_nows (by decide) (by decide)]
    simp +decide only [hpe, if_true, if_false]
    rw [skipWhitespace_nows hbfacts.1 hbfacts.2.1]
    simp +decide only []
    refine ⟨acc.AddJSONArray v2,
      hacc.arrStepArray h6 hequiv hn1 hn2 hn3 hn4 hn5, ?_⟩
    rcases hb with hbe | hbe <;> subst hbe <;> simp +decide
  · -- no kind bound: impossible
    exfalso
    simp [arrKindCount, h1, h2, h3, h4, h5, h6] at hkc

end GoJson

namespace GoJson

/-- The element loop parses the serialised elements of a well-formed model's
slot range `d, d+1, ..., d+m-1`, extending the accumulator invariant slot by
slot, and stops at the closing bracket. -/
theorem parseArrayElements_loop (a : ArrayStruct)
    (oracleO : ∀ (i : Int) v, mapLookup a.objects i = some v → wfObject v = true →
      ∀ fuel t2, objectFuelNeed v ≤ fuel →
      ∃ v2, parseEmbeddedObject fuel
          (ObjectStruct.String MinimalStringCharacterEscapingBehavior v ++ t2) =
        .ok (v2, t2) ∧ ObjEquiv v v2)
    (oracleA : ∀ (i : Int) v, mapLookup a.arrays i = some v → wfArray v = true →
      ∀ fuel t2, arrayFuelNeed v ≤ fuel →
      ∃ v2, parseEmbeddedArray fuel
          (ArrayStruct.String MinimalStringCharacterEscapingBehavior v ++ t2) =
        .ok (v2, t2) ∧ ArrEquiv v v2) :
    ∀ m d acc fuel t,
      wfArraySlots a ((List.range' d m).map Int.ofNat) = true →
      ArrRestrict a (Int.ofNat d) acc →
      arraySlotsFuelNeed a ((List.range' d m).map Int.ofNat) ≤ fuel →
      ∃ a2, parseArrayElements fuel acc
          (arrayElementsText MinimalStringCharacterEscapingBehavior a
            ((List.range' d m).map Int.ofNat) ++ ']' :: t) = .ok (a2, t) ∧
        ArrRestrict a (Int.ofNat (d + m)) a2 := by
  intro m
  induction m with
  | zero =>
    intro d acc fuel t hwf hacc hfuel
    have hnil : (List.range' d 0).map Int.ofNat = ([] : List Int) := rfl
    rw [hnil] at hfuel ⊢
    rw [arraySlotsFuelNeed_nil] at hfuel
    cases fuel with
    | zero => omega
    | succ f =>
      refine ⟨acc, ?_, by simpa using hacc⟩
      have htext : arrayElementsText MinimalStringCharacterEscapingBehavior a [] ++
          ']' :: t = ']' :: t := rfl
      rw [htext, parseArrayElements.eq_def]
      rw [skipWhitespace_nows (by decide) (by decide)]
      simp +decide
  | succ m ih =>
    intro d acc fuel t hwf hacc hfuel
    have hlist : (List.range' d (m + 1)).map Int.ofNat =
        Int.ofNat d :: ((List.range' (d + 1) m).map Int.ofNat) := rfl
    rw [hlist] at hwf hfuel ⊢
    obtain ⟨hkc, hsv, hnv, hov, hav, hrest⟩ := wfArraySlots_cons hwf
    cases fuel with
    | zero =>
      have := arraySlotsFuelNeed_pos a
        (Int.ofNat d :: ((List.range' (d + 1) m).map Int.ofNat))
      omega
    | succ f =>
      obtain ⟨hneedO, hneedACond, hneedIs⟩ := arraySlotsFuelNeed_cons_parts hfuel
      have hneedA : ∀ v, mapLookup a.arrays (Int.ofNat d) = some v →
          arrayFuelNeed v ≤ f := by
        intro v hv
        exact hneedACond (arrKindCount_one_arrays hv hkc).2.2.2.2 v hv
      cases m with
      | zero =>
        have htext : arrayElementsText MinimalStringCharacterEscapingBehavior a
            (Int.ofNat d :: ((List.range' (d + 1) 0).map Int.ofNat)) ++ ']' :: t =
            arrayValueText MinimalStringCharacterEscapingBehavior a (Int.ofNat d) ++
              ']' :: t := rfl
        rw [htext]
        obtain ⟨acc2, hrestrict, hparse⟩ := parseArrayElements_element_step a
          (Int.ofNat d) hkc hsv hnv hov hav f
          (fun v hv hwfv t2 hne => oracleO (Int.ofNat d) v hv hwfv f t2 hne)
          (fun v hv hwfv t2 hne => oracleA (Int.ofNat d) v hv hwfv f t2 hne)
          hneedO hneedA acc hacc ']' (Or.inr rfl) t
        rw [hparse, if_pos rfl]
        refine ⟨acc2, rfl, ?_⟩
        have hcast : Int.ofNat d + 1 = Int.ofNat (d + (0 + 1)) := by
          simp [Int.ofNat_add]
        rw [← hcast]
        exact hrestrict
      | succ m2 =>
        have htail : (List.range' (d + 1) (m2 + 1)).map Int.ofNat =
            Int.ofNat (d + 1) :: ((List.range' (d + 2) m2).map Int.ofNat) := rfl
        have htext : arrayElementsText MinimalStringCharacterEscapingBehavior a
            (Int.ofNat d :: ((List.range' (d + 1) (m2 + 1)).map Int.ofNat)) =
            arrayValueText MinimalStringCharacterEscapingBehavior a (Int.ofNat d) ++
              ',' :: arrayElementsText MinimalStringCharacterEscapingBehavior a
                ((List.range' (d + 1) (m2 + 1)).map Int.ofNat) := by
          rw [htail]
          rfl
        rw [htext, List.append_assoc, List.cons_append]
        obtain ⟨acc2, hrestrict, hparse⟩ := parseArrayElements_element_step a
          (Int.ofNat d) hkc hsv hnv hov hav f
          (fun v hv hwfv t2 hne => oracleO (Int.ofNat d) v hv hwfv f t2 hne)
          (fun v hv hwfv t2 hne => oracleA (Int.ofNat d) v hv hwfv f t2 hne)
          hneedO hneedA acc hacc ',' (Or.inl rfl)
          (arrayElementsText MinimalStringCharacterEscapingBehavior a
            ((List.range' (d + 1) (m2 + 1)).map Int.ofNat) ++ ']' :: t)
        rw [hparse, if_neg (by decide)]
        have hcast : Int.ofNat d + 1 = Int.ofNat (d + 1) := by
          simp [Int.ofNat_add]
        rw [hcast] at hrestrict
        obtain ⟨a2, hp2, hr2⟩ := ih (d + 1) acc2 f t hrest hrestrict hneedIs
        refine ⟨a2, hp2, ?_⟩
        have hre : d + 1 + (m2 + 1) = d + (m2 + 1 + 1) := by omega
        rw [hre] at hr2
        exact hr2

end GoJson

namespace GoJson

/-- An object whose key list is empty is equivalent to the zero object. -/
theorem ObjEquiv_keys_nil {o : ObjectStruct} (hk : o.keys = []) :
    ObjEquiv o emptyObject := by
  refine ObjEquiv.intro (by rw [hk]; rfl)
    (fun k hkx => absurd (hk ▸ hkx) (by simp))
    (fun k hkx => absurd (hk ▸ hkx) (by simp))
    (fun k hkx => absurd (hk ▸ hkx) (by simp))
    (fun k hkx => absurd (hk ▸ hkx) (by simp))
    (fun k hkx => absurd (hk ▸ hkx) (by simp))
    (fun k v1 v2 hkx _ _ => absurd (hk ▸ hkx) (by simp))
    (fun k hkx => absurd (hk ▸ hkx) (by simp))
    (fun k v1 v2 hkx _ _ => absurd (hk ▸ hkx) (by simp))

/-- An array of length zero is equivalent to the zero array. -/
theorem ArrEquiv_len_zero {a : ArrayStruct} (hl : a.length = 0) :
    ArrEquiv a NewArray := by
  refine ArrEquiv.intro (by rw [hl]; rfl)
    (fun i h0 hi => by rw [hl] at hi; exact absurd hi (by omega))
    (fun i h0 hi => by rw [hl] at hi; exact absurd hi (by omega))
    (fun i h0 hi => by rw [hl] at hi; exact absurd hi (by omega))
    (fun i h0 hi => by rw [hl] at hi; exact absurd hi (by omega))
    (fun i h0 hi => by rw [hl] at hi; exact absurd hi (by omega))
    (fun i v1 v2 h0 hi _ _ => by rw [hl] at hi; exact absurd hi (by omega))
    (fun i h0 hi => by rw [hl] at hi; exact absurd hi (by omega))
    (fun i v1 v2 h0 hi _ _ => by rw [hl] at hi; exact absurd hi (by omega))

/-- The round trip for embedded values, by strong induction on the model's
size: parsing the serialisation of any well-formed model (under the minimal
escaping policy, with sufficient fuel) succeeds, consumes exactly the
serialised text, and yields an equivalent model. -/
theorem roundTrip_main : ∀ n : Nat,
    (∀ o : ObjectStruct, sizeOf o ≤ n → wfObject o = true →
      ∀ fuel t, objectFuelNeed o ≤ fuel →
      ∃ o2, parseEmbeddedObject fuel
          (ObjectStruct.String MinimalStringCharacterEscapingBehavior o ++ t) =
        .ok (o2, t) ∧ ObjEquiv o o2) ∧
    (∀ a : ArrayStruct, sizeOf a ≤ n → wfArray a = true →
      ∀ fuel t, arrayFuelNeed a ≤ fuel →
      ∃ a2, parseEmbeddedArray fuel
          (ArrayStruct.String MinimalStringCharacterEscapingBehavior a ++ t) =
        .ok (a2, t) ∧ ArrEquiv a a2) := by
  intro n
  induction n using Nat.strong_induction_on with
  | _ n ih =>
    constructor
    · -- objects
      intro o hsize hwf fuel t hfuel
      obtain ⟨hnd, hkeys⟩ := wfObject_parts hwf
      have hneed : objectFuelNeed o = 1 + objectKeysFuelNeed o o.keys := by
        rw [objectFuelNeed.eq_def]
      have oracleO : ∀ k v, mapLookup o.objects k = some v → wfObject v = true →
          ∀ fuel2 t2, objectFuelNeed v ≤ fuel2 →
          ∃ v2, parseEmbeddedObject fuel2
              (ObjectStruct.String MinimalStringCharacterEscapingBehavior v ++ t2) =
            .ok (v2, t2) ∧ ObjEquiv v v2 := by
        intro k v hv hwfv fuel2 t2 hfe
        have hlt : sizeOf v < n :=
          lt_of_lt_of_le (lt_trans (mapLookup_sizeOf_lt hv) (objects_sizeOf_lt o)) hsize
        exact (ih (sizeOf v) hlt).1 v (le_refl _) hwfv fuel2 t2 hfe
      have oracleA : ∀ k v, mapLookup o.arrays k = some v → wfArray v = true →
          ∀ fuel2 t2, arrayFuelNeed v ≤ fuel2 →
          ∃ v2, parseEmbeddedArray fuel2
              (ArrayStruct.String MinimalStringCharacterEscapingBehavior v ++ t2) =
            .ok (v2, t2) ∧ ArrEquiv v v2 := by
        intro k v hv hwfv fuel2 t2 hfe
        have hlt : sizeOf v < n :=
          lt_of_lt_of_le (lt_trans (mapLookup_sizeOf_lt hv) (arraysField_sizeOf_lt o))
            hsize
        exact (ih (sizeOf v) hlt).2 v (le_refl _) hwfv fuel2 t2 hfe
      have hall : ∀ k ∈ o.keys, 0 < kindCount o k := fun k hkx => by
        rw [wfObjectKeys_all hkeys k hkx]
        omega
      cases fuel with
      | zero =>
        have := objectKeysFuelNeed_pos o o.keys
        omega
      | succ f =>
        rw [objectString_decomp _ o hall]
        rcases hk : o.keys with _ | ⟨k1, ks1⟩
        · rw [if_pos rfl]
          have hf1 : 1 ≤ f := by
            rw [hneed, hk, objectKeysFuelNeed_nil] at hfuel
            omega
          cases f with
          | zero => omega
          | succ f2 =>
            refine ⟨emptyObject, ?_, ObjEquiv_keys_nil hk⟩
            have hshape : ([leftBraceChar, rightBraceChar] : List Char) ++ t =
                leftBraceChar :: rightBraceChar :: t := rfl
            rw [hshape, parseEmbeddedObject.eq_def]
            rw [skipWhitespace_nows (by decide) (by decide)]
            simp +decide only []
            rw [parseObjectMembers.eq_def]
            rw [skipWhitespace_nows (by decide) (by decide)]
            simp +decide
        · rw [if_neg (by simp)]
          have hshape : (leftBraceChar ::
              (objectMembersText MinimalStringCharacterEscapingBehavior o (k1 :: ks1) ++
                [rightBraceChar])) ++ t =
              leftBraceChar ::
                (objectMembersText MinimalStringCharacterEscapingBehavior o (k1 :: ks1) ++
                  rightBraceChar :: t) := by
            simp
          rw [hshape, parseEmbeddedObject.eq_def]
          rw [skipWhitespace_nows (by decide) (by decide)]
          simp +decide only []
          have hkeysfuel : objectKeysFuelNeed o (k1 :: ks1) ≤ f := by
            rw [hneed, hk] at hfuel
            omega
          have hkeys2 : wfObjectKeys o (k1 :: ks1) = true := by rw [hk] at hkeys; exact hkeys
          have hnd2 : (k1 :: ks1).Nodup := by rw [hk] at hnd; exact hnd
          obtain ⟨o2, hp, hr⟩ := parseObjectMembers_loop o oracleO oracleA (k1 :: ks1)
            [] emptyObject f t hkeys2 (fun k hkx => by simp) hnd2
            (ObjRestrict.objInit o) hkeysfuel
          refine ⟨o2, hp, ?_⟩
          have hr2 : ObjRestrict o o.keys o2 := by
            rw [hk]
            simpa using hr
          exact hr2.objToEquiv
    · -- arrays
      intro a hsize hwf fuel t hfuel
      obtain ⟨hlen, hslots⟩ := wfArray_parts hwf
      have hneed : arrayFuelNeed a = 1 + arraySlotsFuelNeed a (arrayIndexList a) := by
        rw [arrayFuelNeed.eq_def]
      have oracleO : ∀ (i : Int) v, mapLookup a.objects i = some v → wfObject v = true →
          ∀ fuel2 t2, objectFuelNeed v ≤ fuel2 →
          ∃ v2, parseEmbeddedObject fuel2
              (ObjectStruct.String MinimalStringCharacterEscapingBehavior v ++ t2) =
            .ok (v2, t2) ∧ ObjEquiv v v2 := by
        intro i v hv hwfv fuel2 t2 hfe
        have hlt : sizeOf v < n :=
          lt_of_lt_of_le (lt_trans (mapLookup_sizeOf_lt hv) (arrObjects_sizeOf_lt a))
            hsize
        exact (ih (sizeOf v) hlt).1 v (le_refl _) hwfv fuel2 t2 hfe
      have oracleA : ∀ (i : Int) v, mapLookup a.arrays i = some v → wfArray v = true →
          ∀ fuel2 t2, arrayFuelNeed v ≤ fuel2 →
          ∃ v2, parseEmbeddedArray fuel2
              (ArrayStruct.String MinimalStringCharacterEscapingBehavior v ++ t2) =
            .ok (v2, t2) ∧ ArrEquiv v v2 := by
        intro i v hv hwfv fuel2 t2 hfe
        have hlt : sizeOf v < n :=
          lt_of_lt_of_le (lt_trans (mapLookup_sizeOf_lt hv) (arrArrays_sizeOf_lt a))
            hsize
        exact (ih (sizeOf v) hlt).2 v (le_refl _) hwfv fuel2 t2 hfe
      have hall : ∀ i ∈ arrayIndexList a, 0 < arrKindCount a i := fun i hix => by
        rw [wfArraySlots_all hslots i hix]
        omega
      cases fuel with
      | zero =>
        have := arraySlotsFuelNeed_pos a (arrayIndexList a)
        omega
      | succ f =>
        rw [arrayString_decomp _ a hall]
        have hidx : arrayIndexList a = (List.range' 0 a.length.toNat).map Int.ofNat := by
          rw [arrayIndexList, List.range_eq_range']
        by_cases hnil : arrayIndexList a = []
        · rw [if_pos hnil]
          have hlz : a.length = 0 := by
            rw [arrayIndexList] at hnil
            have : a.length.toNat = 0 := by
              rcases hz : a.length.toNat with _ | m
              · rfl
              · rw [hz] at hnil
                simp [List.range_succ] at hnil
            omega
          have hf1 : 1 ≤ f := by
            rw [hneed, hnil, arraySlotsFuelNeed_nil] at hfuel
            omega
          cases f with
          | zero => omega
          | succ f2 =>
            refine ⟨NewArray, ?_, ArrEquiv_len_zero hlz⟩
            have hshape : (['[', ']'] : List Char) ++ t = '[' :: ']' :: t := rfl
            rw [hshape, parseEmbeddedArray.eq_def]
            rw [skipWhitespace_nows (by decide) (by decide)]
            simp +decide only []
            rw [parseArrayElements.eq_def]
            rw [skipWhitespace_nows (by decide) (by decide)]
            simp +decide
        · rw [if_neg hnil]
          have hshape : ('[' ::
              (arrayElementsText MinimalStringCharacterEscapingBehavior a
                (arrayIndexList a) ++ [']'])) ++ t =
              '[' ::
                (arrayElementsText MinimalStringCharacterEscapingBehavior a
                  (arrayIndexList a) ++ ']' :: t) := by
            simp
          rw [hshape, parseEmbeddedArray.eq_def]
          rw [skipWhitespace_nows (by decide) (by decide)]
          simp +decide only []
          have hslotsfuel : arraySlotsFuelNeed a (arrayIndexList a) ≤ f := by
            rw [hneed] at hfuel
            omega
          rw [hidx] at hslots hslotsfuel ⊢
          obtain ⟨a2, hp, hr⟩ := parseArrayElements_loop a oracleO oracleA
            a.length.toNat 0 NewArray f t hslots (ArrRestrict.arrInit a) hslotsfuel
          refine ⟨a2, hp, ?_⟩
          have hcast : Int.ofNat (0 + a.length.toNat) = a.length := by
            rw [Nat.zero_add]
            exact Int.toNat_of_nonneg hlen
          rw [hcast] at hr
          exact hr.arrToEquiv

end GoJson

namespace GoJson

/-- Bounding one member-loop fuel step by a bound on the nested value's need. -/
theorem objectKeysFuelNeed_cons_le {o : ObjectStruct} {k : List Char}
    {ks : List (List Char)} {B : Nat}
    (hO : ∀ v, mapLookup o.objects k = some v → objectFuelNeed v ≤ B)
    (hA : mapLookup o.objects k = none →
      ∀ v, mapLookup o.arrays k = some v → arrayFuelNeed v ≤ B) :
    objectKeysFuelNeed o (k :: ks) ≤ 1 + max B (objectKeysFuelNeed o ks) := by
  have h1 := Nat.le_max_left B (objectKeysFuelNeed o ks)
  have h2 := Nat.le_max_right B (objectKeysFuelNeed o ks)
  rw [objectKeysFuelNeed.eq_def]
  simp only []
  split
  · rename_i v hv
    have := hO v hv
    omega
  · rename_i hnone
    split
    · rename_i v hv
      have := hA hnone v hv
      omega
    · omega

/-- Bounding one element-loop fuel step by a bound on the nested value's need. -/
theorem arraySlotsFuelNeed_cons_le {a : ArrayStruct} {i : Int}
    {is : List Int} {B : Nat}
    (hO : ∀ v, mapLookup a.objects i = some v → objectFuelNeed v ≤ B)
    (hA : mapLookup a.objects i = none →
      ∀ v, mapLookup a.arrays i = some v → arrayFuelNeed v ≤ B) :
    arraySlotsFuelNeed a (i :: is) ≤ 1 + max B (arraySlotsFuelNeed a is) := by
  have h1 := Nat.le_max_left B (arraySlotsFuelNeed a is)
  have h2 := Nat.le_max_right B (arraySlotsFuelNeed a is)
  rw [arraySlotsFuelNeed.eq_def]
  simp only []
  split
  · rename_i v hv
    have := hO v hv
    omega
  · rename_i hnone
    split
    · rename_i v hv
      have := hA hnone v hv
      omega
    · omega

end GoJson

namespace GoJson

/-- The fuel the parser receives, text length plus one, covers the fuel
needed to parse a well-formed model's serialisation: by strong induction on
the model's size. -/
theorem fuelNeed_le_length : ∀ n : Nat,
    (∀ o : ObjectStruct, sizeOf o ≤ n → wfObject o = true →
      objectFuelNeed o ≤
        (ObjectStruct.String MinimalStringCharacterEscapingBehavior o).length + 1) ∧
    (∀ a : ArrayStruct, sizeOf a ≤ n → wfArray a = true →
      arrayFuelNeed a ≤
        (ArrayStruct.String MinimalStringCharacterEscapingBehavior a).length + 1) := by
  intro n
  induction n using Nat.strong_induction_on with
  | _ n ih =>
    constructor
    · intro o hsize hwf
      obtain ⟨hnd, hkeys⟩ := wfObject_parts hwf
      have hall : ∀ k ∈ o.keys, 0 < kindCount o k := fun k hkx => by
        rw [wfObjectKeys_all hkeys k hkx]
        omega
      rw [objectString_decomp _ o hall, objectFuelNeed.eq_def]
      have hL : ∀ ks, wfObjectKeys o ks = true →
          objectKeysFuelNeed o ks ≤
            (objectMembersText MinimalStringCharacterEscapingBehavior o ks).length + 2 := by
        intro ks
        induction ks with
        | nil =>
          intro _
          rw [objectKeysFuelNeed_nil]
          omega
        | cons k ks ihks =>
          intro hwfk
          obtain ⟨hcf, hkc, hsv, hnv, hov, hav, hrest⟩ := wfObjectKeys_cons hwfk
          have htail := ihks hrest
          have hvbO : ∀ v, mapLookup o.objects k = some v →
              objectFuelNeed v ≤
                (objectValueText MinimalStringCharacterEscapingBehavior o k).length + 1 := by
            intro v hv
            obtain ⟨hx1, hx2, hx3, hx4, hx5⟩ := kindCount_one_objects hv hkc
            have hvt : objectValueText MinimalStringCharacterEscapingBehavior o k =
                ObjectStruct.String MinimalStringCharacterEscapingBehavior v := by
              simp only [objectValueText, hx1, hx2, hx3, hx4, hv]
            rw [hvt]
            have hlt : sizeOf v < n :=
              lt_of_lt_of_le (lt_trans (mapLookup_sizeOf_lt hv) (objects_sizeOf_lt o))
                hsize
            exact (ih (sizeOf v) hlt).1 v (le_refl _) (hov v hv)
          have hvbA : ∀ v, mapLookup o.arrays k = some v →
              arrayFuelNeed v ≤
                (objectValueText MinimalStringCharacterEscapingBehavior o k).length + 1 := by
            intro v hv
            obtain ⟨hx1, hx2, hx3, hx4, hx5⟩ := kindCount_one_arrays hv hkc
            have hvt : objectValueText MinimalStringCharacterEscapingBehavior o k =
                ArrayStruct.String MinimalStringCharacterEscapingBehavior v := by
              simp only [objectValueText, hx1, hx2, hx3, hx4, hx5, hv]
            rw [hvt]
            have hlt : sizeOf v < n :=
              lt_of_lt_of_le (lt_trans (mapLookup_sizeOf_lt hv) (arraysField_sizeOf_lt o))
                hsize
            exact (ih (sizeOf v) hlt).2 v (le_refl _) (hav v hv)
          have hpl : (objectMemberPiece MinimalStringCharacterEscapingBehavior o k).length =
              (encodeString k MinimalStringCharacterEscapingBehavior).length + 1 +
                (objectValueText MinimalStringCharacterEscapingBehavior o k).length := by
            simp [objectMemberPiece]
            omega
          have hel : 2 ≤ (encodeString k MinimalStringCharacterEscapingBehavior).length := by
            simp [encodeString]
          have hstep : objectKeysFuelNeed o (k :: ks) ≤
              1 + max ((objectValueText MinimalStringCharacterEscapingBehavior o k).length
                + 1) (objectKeysFuelNeed o ks) :=
            objectKeysFuelNeed_cons_le hvbO (fun _ v hv => hvbA v hv)
          rcases ks with _ | ⟨k2, ks2⟩
          · have hmt : objectMembersText MinimalStringCharacterEscapingBehavior o [k] =
                objectMemberPiece MinimalStringCharacterEscapingBehavior o k := rfl
            rw [hmt]
            rw [objectKeysFuelNeed_nil] at hstep
            omega
          · have hmt : (objectMembersText MinimalStringCharacterEscapingBehavior o
                (k :: k2 :: ks2)).length =
                (objectMemberPiece MinimalStringCharacterEscapingBehavior o k).length + 1 +
                  (objectMembersText MinimalStringCharacterEscapingBehavior o
                    (k2 :: ks2)).length := by
              have he : objectMembersText MinimalStringCharacterEscapingBehavior o
                  (k :: k2 :: ks2) =
                  objectMemberPiece MinimalStringCharacterEscapingBehavior o k ++ ',' ::
                    objectMembersText MinimalStringCharacterEscapingBehavior o
                      (k2 :: ks2) := rfl
              rw [he]
              simp
              omega
            omega
      rcases hk : o.keys with _ | ⟨k1, ks1⟩
      · rw [if_pos rfl, objectKeysFuelNeed_nil]
        simp
      · rw [if_neg (by simp)]
        have hkeys2 : wfObjectKeys o (k1 :: ks1) = true := by
          rw [hk] at hkeys
          exact hkeys
        have := hL (k1 :: ks1) hkeys2
        simp only [List.length_cons, List.length_append]
        omega
    · intro a hsize hwf
      obtain ⟨hlen, hslots⟩ := wfArray_parts hwf
      have hall : ∀ i ∈ arrayIndexList a, 0 < arrKindCount a i := fun i hix => by
        rw [wfArraySlots_all hslots i hix]
        omega
      rw [arrayString_decomp _ a hall, arrayFuelNeed.eq_def]
      have hL : ∀ is, wfArraySlots a is = true →
          arraySlotsFuelNeed a is ≤
            (arrayElementsText MinimalStringCharacterEscapingBehavior a is).length + 2 := by
        intro is
        induction is with
        | nil =>
          intro _
          rw [arraySlotsFuelNeed_nil]
          omega
        | cons i is ihis =>
          intro hwfi
          obtain ⟨hkc, hsv, hnv, hov, hav, hrest⟩ := wfArraySlots_cons hwfi
          have htail := ihis hrest
          have hvbO : ∀ v, mapLookup a.objects i = some v →
              objectFuelNeed v ≤
                (arrayValueText MinimalStringCharacterEscapingBehavior a i).length + 1 := by
            intro v hv
            obtain ⟨hx1, hx2, hx3, hx4, hx5⟩ := arrKindCount_one_objects hv hkc
            have hvt : arrayValueText MinimalStringCharacterEscapingBehavior a i =
                ObjectStruct.String MinimalStringCharacterEscapingBehavior v := by
              simp only [arrayValueText, hx1, hx2, hx3, hx4, hv]
            rw [hvt]
            have hlt : sizeOf v < n :=
              lt_of_lt_of_le (lt_trans (mapLookup_sizeOf_lt hv) (arrObjects_sizeOf_lt a))
                hsize
            exact (ih (sizeOf v) hlt).1 v (le_refl _) (hov v hv)
          have hvbA : ∀ v, mapLookup a.arrays i = some v →
              arrayFuelNeed v ≤
                (arrayValueText MinimalStringCharacterEscapingBehavior a i).length + 1 := by
            intro v hv
            obtain ⟨hx1, hx2, hx3, hx4, hx5⟩ := arrKindCount_one_arrays hv hkc
            have hvt : arrayValueText MinimalStringCharacterEscapingBehavior a i =
                ArrayStruct.String MinimalStringCharacterEscapingBehavior v := by
              simp only [arrayValueText, hx1, hx2, hx3, hx4, hx5, hv]
            rw [hvt]
            have hlt : sizeOf v < n :=
              lt_of_lt_of_le (lt_trans (mapLookup_sizeOf_lt hv) (arrArrays_sizeOf_lt a))
                hsize
            exact (ih (sizeOf v) hlt).2 v (le_refl _) (hav v hv)
          have hstep : arraySlotsFuelNeed a (i :: is) ≤
              1 + max ((arrayValueText MinimalStringCharacterEscapingBehavior a i).length
                + 1) (arraySlotsFuelNeed a is) :=
            arraySlotsFuelNeed_cons_le hvbO (fun _ v hv => hvbA v hv)
          rcases is with _ | ⟨i2, is2⟩
          · have hmt : arrayElementsText MinimalStringCharacterEscapingBehavior a [i] =
                arrayValueText MinimalStringCharacterEscapingBehavior a i := rfl
            rw [hmt]
            rw [arraySlotsFuelNeed_nil] at hstep
            omega
          · have hmt : (arrayElementsText MinimalStringCharacterEscapingBehavior a
                (i :: i2 :: is2)).length =
                (arrayValueText MinimalStringCharacterEscapingBehavior a i).length + 1 +
                  (arrayElementsText MinimalStringCharacterEscapingBehavior a
                    (i2 :: is2)).length := by
              have he : arrayElementsText MinimalStringCharacterEscapingBehavior a
                  (i :: i2 :: is2) =
                  arrayValueText MinimalStringCharacterEscapingBehavior a i ++ ',' ::
                    arrayElementsText MinimalStringCharacterEscapingBehavior a
                      (i2 :: is2) := rfl
              rw [he]
              simp
              omega
            omega
      by_cases hnil : arrayIndexList a = []
      · rw [if_pos hnil, hnil, arraySlotsFuelNeed_nil]
        simp
      · rw [if_neg hnil]
        have := hL (arrayIndexList a) hslots
        simp only [List.length_cons, List.length_append]
        omega

end GoJson

namespace GoJson

/-- C1 (amended): for every object and array model whose keys are unique,
every key and slot bound in exactly one kind map, strings and keys free of
control characters, and number texts in the minus-free grammar the parser's
value dispatch accepts (all recursively), serialising under the minimal
policy and re-parsing with `ParseObject`/`ParseArray` succeeds and yields a
structurally equal model: the same keys in the same order, the same kinds,
and the same values at every slot, recursively. -/
theorem c1_round_trip (o : ObjectStruct) (a : ArrayStruct)
    (ho : wfObject o = true) (ha : wfArray a = true) :
    (∃ o2, ParseObject (ObjectStruct.String MinimalStringCharacterEscapingBehavior o) =
      .ok o2 ∧ ObjEquiv o o2) ∧
    (∃ a2, ParseArray (ArrayStruct.String MinimalStringCharacterEscapingBehavior a) =
      .ok a2 ∧ ArrEquiv a a2) := by
  constructor
  · have hneed := (fuelNeed_le_length (sizeOf o)).1 o (le_refl _) ho
    obtain ⟨o2, hp, he⟩ := (roundTrip_main (sizeOf o)).1 o (le_refl _) ho
      ((ObjectStruct.String MinimalStringCharacterEscapingBehavior o).length + 1) []
      hneed
    refine ⟨o2, ?_, he⟩
    rw [List.append_nil] at hp
    rw [ParseObject, hp]
    rfl
  · have hneed := (fuelNeed_le_length (sizeOf a)).2 a (le_refl _) ha
    obtain ⟨a2, hp, he⟩ := (roundTrip_main (sizeOf a)).2 a (le_refl _) ha
      ((ArrayStruct.String MinimalStringCharacterEscapingBehavior a).length + 1) []
      hneed
    refine ⟨a2, ?_, he⟩
    rw [List.append_nil] at hp
    rw [ParseArray, hp]
    rfl

/-- Witness for C1: a concrete object member and a concrete array element
survive the round trip. -/
theorem c1_round_trip_witness :
    (∃ o2, ParseObject (ObjectStruct.String MinimalStringCharacterEscapingBehavior
        (ObjectStruct.SetNumber emptyObject (str "a") (str "1.50"))) = .ok o2 ∧
      ObjEquiv (ObjectStruct.SetNumber emptyObject (str "a") (str "1.50")) o2) ∧
    (∃ a2, ParseArray (ArrayStruct.String MinimalStringCharacterEscapingBehavior
        (ArrayStruct.AddString NewArray (str "hi"))) = .ok a2 ∧
      ArrEquiv (ArrayStruct.AddString NewArray (str "hi")) a2) := by
  apply c1_round_trip
  · simp +decide [wfObject, wfObjectKeys, kindCount, controlFree, posNumberMatch,
      matchIntPart, matchFracPart, matchExpPart, emptyObject, ObjectStruct.SetNumber,
      ObjectStruct.addKey, mapInsert, mapLookup, ObjectStruct.strings,
      ObjectStruct.numbers, ObjectStruct.bools, ObjectStruct.nulls,
      ObjectStruct.objects, ObjectStruct.arrays, ObjectStruct.keys, str]
  · simp +decide [wfArray, wfArraySlots, arrKindCount, controlFree, arrayIndexList,
      NewArray, ArrayStruct.AddString, mapInsert, mapLookup, ArrayStruct.strings,
      ArrayStruct.numbers, ArrayStruct.bools, ArrayStruct.nulls, ArrayStruct.objects,
      ArrayStruct.arrays, ArrayStruct.length, str, List.range_succ]

/-- Counterexample to C1 as stated: two models built purely through the typed
mutation API whose serialisations do not re-parse at all. `AddNumber "-1"`
stores a grammatically valid JSON number, but the parser's value dispatch
sends '-' to the identifier reader, so `[-1]` fails; `AddString` of a raw
newline is serialised unescaped by the minimal policy's inverted control
check, so the resulting string is rejected on re-parse. -/
theorem c1_round_trip_counterexample :
    jsonNumberMatch (str "-1") = true ∧
    isError (ParseArray (ArrayStruct.String MinimalStringCharacterEscapingBehavior
      (ArrayStruct.AddNumber NewArray (str "-1")))) = true ∧
    isError (ParseArray (ArrayStruct.String MinimalStringCharacterEscapingBehavior
      (ArrayStruct.AddString NewArray (str "\n")))) = true := by
  refine ⟨by decide, ?_, ?_⟩
  · have hs : ArrayStruct.String MinimalStringCharacterEscapingBehavior
        (ArrayStruct.AddNumber NewArray (str "-1")) = str "[-1]" := by
      simp only [ArrayStruct.String]
      norm_num [arrayElementsFold, arrayIndexList, NewArray, ArrayStruct.AddNumber,
        ArrayStruct.length, mapInsert, mapLookup, ArrayStruct.strings,
        ArrayStruct.numbers, ArrayBuilderStruct.Done, ArrayBuilderStruct.AddJSON,
        NewArrayBuilder, str, List.range_succ]
    rw [hs]
    decide
  · have hs : ArrayStruct.String MinimalStringCharacterEscapingBehavior
        (ArrayStruct.AddString NewArray (str "\n")) = str "[\"\n\"]" := by
      simp only [ArrayStruct.String]
      norm_num [arrayElementsFold, arrayIndexList, NewArray, ArrayStruct.AddString,
        ArrayStruct.length, mapInsert, mapLookup, ArrayStruct.strings,
        ArrayStruct.numbers, ArrayBuilderStruct.Done, ArrayBuilderStruct.AddJSON,
        ArrayBuilderStruct.AddString, NewArrayBuilder, encodeString, encodeCharacter,
        MinimalStringCharacterEscapingBehavior, shorthandStringCharacterEscapeSequences,
        str, List.range_succ]
      decide
    rw [hs]
    decide

end GoJson
